import Mathlib

/-!
Verification development for the vicalc spreadsheet core.

Strings from the Rust source are modelled as `List Char`; `usize` release
semantics are modelled as `Nat` with explicit `% 2^64` where the source can
overflow; `f64` values are modelled as exact rationals `ℚ` (the claims under
study never depend on floating-point rounding), and the few genuinely
real-valued operations (`sqrt`, `powf`, non-integral display formatting) are
abstracted into a `FloatOps` record that theorems quantify over.
-/

namespace Vicalc

/-! ## Character primitives (Rust `char` ASCII helpers) -/

/-- Rust `char::is_ascii_alphabetic`. -/
def isAlphaChar (c : Char) : Bool :=
  (65 ≤ c.toNat && c.toNat ≤ 90) || (97 ≤ c.toNat && c.toNat ≤ 122)

/-- Rust `char::is_ascii_digit`. -/
def isDigitChar (c : Char) : Bool :=
  48 ≤ c.toNat && c.toNat ≤ 57

/-- Rust `char::to_ascii_uppercase` (also the effect of `str::to_uppercase`
on ASCII text, which is the only text the claims exercise). -/
def toUpperChar (c : Char) : Char :=
  if 97 ≤ c.toNat && c.toNat ≤ 122 then Char.ofNat (c.toNat - 32) else c

/-- ASCII whitespace as recognised by Rust `str::trim` on ASCII text. -/
def isSpaceChar (c : Char) : Bool :=
  c = ' ' || c = '\t' || c = '\n' || c = '\r'

/-- Rust `str::trim` (ASCII fragment). -/
def trimChars (s : List Char) : List Char :=
  ((s.dropWhile isSpaceChar).reverse.dropWhile isSpaceChar).reverse

/-! ## Character-class facts -/

theorem alpha_ne_dollar {c : Char} (h : isAlphaChar c = true) : c ≠ '$' := by
  intro hc; subst hc; revert h; decide

theorem digit_ne_dollar {c : Char} (h : isDigitChar c = true) : c ≠ '$' := by
  intro hc; subst hc; revert h; decide

theorem digit_not_alpha {c : Char} (h : isDigitChar c = true) : isAlphaChar c = false := by
  simp only [isDigitChar, Bool.and_eq_true, decide_eq_true_eq] at h
  simp only [isAlphaChar, Bool.or_eq_false_iff, Bool.and_eq_false_iff,
    decide_eq_false_iff_not]
  omega

theorem isAlphaChar_of_range {c : Char} (h1 : 65 ≤ c.toNat) (h2 : c.toNat ≤ 90) :
    isAlphaChar c = true := by
  simp only [isAlphaChar, Bool.or_eq_true, Bool.and_eq_true, decide_eq_true_eq]
  omega

theorem isDigitChar_of_range {c : Char} (h1 : 48 ≤ c.toNat) (h2 : c.toNat ≤ 57) :
    isDigitChar c = true := by
  simp only [isDigitChar, Bool.and_eq_true, decide_eq_true_eq]
  omega

theorem not_space_of_ge {c : Char} (h : 48 ≤ c.toNat) : isSpaceChar c = false := by
  simp only [isSpaceChar, Bool.or_eq_false_iff, decide_eq_false_iff_not]
  refine ⟨⟨⟨?_, ?_⟩, ?_⟩, ?_⟩ <;>
    (intro hc; subst hc; revert h; decide)

theorem toUpperChar_id_of_not_lower {c : Char} (h : ¬ (97 ≤ c.toNat ∧ c.toNat ≤ 122)) :
    toUpperChar c = c := by
  simp only [toUpperChar, ite_eq_right_iff]
  intro hc
  simp only [Bool.and_eq_true, decide_eq_true_eq] at hc
  exact absurd hc h

theorem map_toUpperChar_id {s : List Char}
    (h : ∀ c ∈ s, ¬ (97 ≤ c.toNat ∧ c.toNat ≤ 122)) :
    s.map toUpperChar = s := by
  induction s with
  | nil => rfl
  | cons c t ih =>
    simp only [List.map_cons, List.cons.injEq]
    exact ⟨toUpperChar_id_of_not_lower (h c (by simp)),
      ih (fun x hx => h x (by simp [hx]))⟩

theorem trimChars_eq_self {s : List Char} (h : ∀ c ∈ s, isSpaceChar c = false) :
    trimChars s = s := by
  have h1 : s.dropWhile isSpaceChar = s := by
    cases s with
    | nil => rfl
    | cons c t => simp [List.dropWhile, h c (by simp)]
  unfold trimChars
  rw [h1]
  cases hr : s.reverse with
  | nil =>
    have hs : s = [] := by simpa using congrArg List.reverse hr
    subst hs; rfl
  | cons c t =>
    have hc : c ∈ s := by
      have : c ∈ s.reverse := by rw [hr]; simp
      simpa using this
    simp [List.dropWhile, h c hc, ← hr]


/-! ## Decimal digits: `usize::to_string` and `str::parse::<usize>` -/

def digitChar (d : Nat) : Char := Char.ofNat (48 + d)

/-- Decimal rendering of a `usize`, with explicit recursion depth so that the
definition is structurally recursive (and hence kernel-computable).  Any depth
above the value itself is sufficient. -/
def natDigitsGo : Nat → Nat → List Char
  | 0, _ => []
  | fuel + 1, n =>
    if n < 10 then [digitChar n]
    else natDigitsGo fuel (n / 10) ++ [digitChar (n % 10)]

/-- Decimal rendering of a `usize` (Rust `n.to_string()`). -/
def natDigits (n : Nat) : List Char := natDigitsGo (n + 1) n

/-- Numeric value of a digit string (the value `str::parse::<usize>` computes
before its overflow check). -/
def digitsVal (l : List Char) : Nat :=
  l.foldl (fun a c => a * 10 + (c.toNat - 48)) 0

/-- Width of `usize` on the 64-bit targets the program is built for. -/
def usizeW : Nat := 2 ^ 64

/-- Rust `str::parse::<usize>` on a string of decimal digits: the overflow
check is the only way it can fail there. -/
def parseUsizeDigits (l : List Char) : Option Nat :=
  if digitsVal l < usizeW then some (digitsVal l) else none

/-! ## `formula.rs`: column naming and `parse_cell_ref` -/

/-- Recursion core of `col_to_name`, with explicit depth. -/
def colToNameGo : Nat → Nat → List Char
  | 0, _ => []
  | fuel + 1, col =>
    if col < 26 then [Char.ofNat (65 + col)]
    else colToNameGo fuel (col / 26 - 1) ++ [Char.ofNat (65 + col % 26)]

/-- `col_to_name` (`formula.rs`): bijective base-26 column letters.
The source loop prepends `(b'A' + col % 26)` and continues with
`col / 26 - 1` until `col < 26`. -/
def colToName (col : Nat) : List Char := colToNameGo (col + 1) col

/-- The fold `parse_cell_ref` performs over the collected column letters,
without the machine-width reduction: `acc * 26 + (c - 'A' + 1)`. -/
def lettersVal (l : List Char) : Nat :=
  l.foldl (fun acc c => acc * 26 + (c.toNat - 65 + 1)) 0

/-- Same fold with `usize` wrap-around (release-mode semantics). -/
def lettersValW (l : List Char) : Nat :=
  l.foldl (fun acc c => (acc * 26 + (c.toNat - 65 + 1)) % usizeW) 0

/-- State of `parse_cell_ref`'s character loop. -/
structure RefParseState where
  colAbs : Bool
  rowAbs : Bool
  colStr : List Char
  rowStr : List Char
  inCol : Bool
deriving Repr, DecidableEq

/-- One step of `parse_cell_ref`'s `for c in cell_ref.chars()` loop.
Unrecognised characters fall through every branch and are skipped. -/
def refStep (st : RefParseState) (c : Char) : RefParseState :=
  if c = '$' then
    if st.inCol && st.colStr = [] then { st with colAbs := true }
    else { st with rowAbs := true }
  else if isAlphaChar c && st.inCol then { st with colStr := st.colStr ++ [c] }
  else if isDigitChar c then { st with inCol := false, rowStr := st.rowStr ++ [c] }
  else st

/-- `parse_cell_ref` (`formula.rs` lines 3-45): trims, upper-cases, scans the
characters, rejects empty column/row collections and row 0, and returns
0-based `(col, row, col_abs, row_abs)`.  The column fold wraps at `usize`
width, and so does its final `- 1`. -/
def parseCellRef (s : List Char) : Option (Nat × Nat × Bool × Bool) :=
  let t := (trimChars s).map toUpperChar
  if t = [] then none
  else
    let st := t.foldl refStep ⟨false, false, [], [], true⟩
    if st.colStr = [] || st.rowStr = [] then none
    else
      let col := (lettersValW st.colStr + (usizeW - 1)) % usizeW
      match parseUsizeDigits st.rowStr with
      | none => none
      | some row => if row = 0 then none else some (col, row - 1, st.colAbs, st.rowAbs)

/-- `cell_name` (`formula.rs`). -/
def cellName (col row : Nat) : List Char :=
  colToName col ++ natDigits (row + 1)

/-! ## Round-trip lemmas for digits and column names -/

theorem digitsVal_append (l : List Char) (c : Char) :
    digitsVal (l ++ [c]) = digitsVal l * 10 + (c.toNat - 48) := by
  simp [digitsVal, List.foldl_append]

theorem digitChar_toNat (d : Nat) (h : d < 10) : (digitChar d).toNat = 48 + d := by
  simp only [digitChar, Char.ofNat]
  rw [dif_pos]
  · rfl
  · show Nat.isValidChar (48 + d)
    left
    omega

theorem natDigitsGo_spec (fuel : Nat) :
    ∀ n, n < fuel →
      digitsVal (natDigitsGo fuel n) = n ∧ natDigitsGo fuel n ≠ [] ∧
      ∀ c ∈ natDigitsGo fuel n, isDigitChar c = true := by
  induction fuel with
  | zero => intro n hn; omega
  | succ fu ih =>
    intro n hn
    by_cases h : n < 10
    · refine ⟨?_, ?_, ?_⟩
      · simp [natDigitsGo, if_pos h, digitsVal, digitChar_toNat n h]
      · simp [natDigitsGo, if_pos h]
      · simp only [natDigitsGo, if_pos h, List.mem_singleton]
        rintro c rfl
        exact isDigitChar_of_range (by rw [digitChar_toNat n h]; omega)
          (by rw [digitChar_toNat n h]; omega)
    · have hdivlt : n / 10 < fu := by
        have := Nat.div_le_self n 10
        have h2 : n / 10 < n := Nat.div_lt_self (by omega) (by omega)
        omega
      obtain ⟨ihv, _, ihd⟩ := ih (n / 10) hdivlt
      refine ⟨?_, ?_, ?_⟩
      · rw [natDigitsGo, if_neg h, digitsVal_append, ihv,
          digitChar_toNat (n % 10) (Nat.mod_lt _ (by omega))]
        omega
      · simp [natDigitsGo, if_neg h]
      · rw [natDigitsGo, if_neg h]
        simp only [List.mem_append, List.mem_singleton]
        rintro c (hc | rfl)
        · exact ihd c hc
        · have hm : n % 10 < 10 := Nat.mod_lt _ (by omega)
          exact isDigitChar_of_range (by rw [digitChar_toNat _ hm]; omega)
            (by rw [digitChar_toNat _ hm]; omega)

theorem digitsVal_natDigits (n : Nat) : digitsVal (natDigits n) = n :=
  (natDigitsGo_spec (n + 1) n (by omega)).1

theorem natDigits_ne_nil (n : Nat) : natDigits n ≠ [] :=
  (natDigitsGo_spec (n + 1) n (by omega)).2.1

theorem natDigits_all_digit (n : Nat) : ∀ c ∈ natDigits n, isDigitChar c = true :=
  (natDigitsGo_spec (n + 1) n (by omega)).2.2

theorem lettersVal_append (l : List Char) (c : Char) :
    lettersVal (l ++ [c]) = lettersVal l * 26 + (c.toNat - 65 + 1) := by
  simp [lettersVal, List.foldl_append]

theorem colToName_char_toNat (col : Nat) (h : col < 26) :
    (Char.ofNat (65 + col)).toNat = 65 + col := by
  simp only [Char.ofNat]
  rw [dif_pos]
  · rfl
  · left; omega

theorem colToNameGo_spec (fuel : Nat) :
    ∀ k, k < fuel →
      lettersVal (colToNameGo fuel k) = k + 1 ∧ colToNameGo fuel k ≠ [] ∧
      ∀ c ∈ colToNameGo fuel k, 65 ≤ c.toNat ∧ c.toNat ≤ 90 := by
  induction fuel with
  | zero => intro k hk; omega
  | succ fu ih =>
    intro k hk
    by_cases h : k < 26
    · refine ⟨?_, ?_, ?_⟩
      · simp [colToNameGo, if_pos h, lettersVal, colToName_char_toNat k h]
      · simp [colToNameGo, if_pos h]
      · simp only [colToNameGo, if_pos h, List.mem_singleton]
        rintro c rfl
        rw [colToName_char_toNat k h]
        omega
    · have h26 : 26 ≤ k := Nat.le_of_not_lt h
      have hlt : k / 26 - 1 < fu := by
        have := Nat.div_le_self k 26
        have h2 : k / 26 < k := Nat.div_lt_self (by omega) (by omega)
        omega
      obtain ⟨ihv, _, ihu⟩ := ih (k / 26 - 1) hlt
      refine ⟨?_, ?_, ?_⟩
      · rw [colToNameGo, if_neg h, lettersVal_append, ihv,
          colToName_char_toNat (k % 26) (Nat.mod_lt _ (by omega))]
        have hdiv : 1 ≤ k / 26 := (Nat.one_le_div_iff (by omega)).mpr h26
        have := Nat.div_add_mod k 26
        omega
      · simp [colToNameGo, if_neg h]
      · rw [colToNameGo, if_neg h]
        simp only [List.mem_append, List.mem_singleton]
        rintro c (hc | rfl)
        · exact ihu c hc
        · rw [colToName_char_toNat (k % 26) (Nat.mod_lt _ (by omega))]
          have := Nat.mod_lt k (show 0 < 26 by omega)
          omega

theorem lettersVal_colToName (k : Nat) : lettersVal (colToName k) = k + 1 :=
  (colToNameGo_spec (k + 1) k (by omega)).1

theorem colToName_ne_nil (k : Nat) : colToName k ≠ [] :=
  (colToNameGo_spec (k + 1) k (by omega)).2.1

theorem colToName_all_upper (k : Nat) :
    ∀ c ∈ colToName k, 65 ≤ c.toNat ∧ c.toNat ≤ 90 :=
  (colToNameGo_spec (k + 1) k (by omega)).2.2

/-! ## `parse_cell_ref` on canonically shaped tokens -/

theorem foldl_refStep_alpha (ls : List Char) (h : ∀ c ∈ ls, isAlphaChar c = true) :
    ∀ st : RefParseState, st.inCol = true →
      ls.foldl refStep st = { st with colStr := st.colStr ++ ls } := by
  induction ls with
  | nil => intro st _; simp
  | cons c rest ih =>
    intro st hin
    have hc := h c (by simp)
    have hstep : refStep st c = { st with colStr := st.colStr ++ [c] } := by
      simp [refStep, alpha_ne_dollar hc, hc, hin]
    simp only [List.foldl_cons, hstep]
    rw [ih (fun x hx => h x (by simp [hx])) _ (by simp [hin])]
    simp

theorem foldl_refStep_digit (ds : List Char) (h : ∀ c ∈ ds, isDigitChar c = true) :
    ∀ st : RefParseState, ds ≠ [] →
      ds.foldl refStep st = { st with inCol := false, rowStr := st.rowStr ++ ds } := by
  induction ds with
  | nil => intro st hne; exact absurd rfl hne
  | cons c rest ih =>
    intro st _
    have hc := h c (by simp)
    have hstep : refStep st c = { st with inCol := false, rowStr := st.rowStr ++ [c] } := by
      simp [refStep, digit_ne_dollar hc, digit_not_alpha hc, hc]
    simp only [List.foldl_cons, hstep]
    cases hr : rest with
    | nil => simp
    | cons c2 t2 =>
      rw [← hr, ih (fun x hx => h x (by simp [hx])) _ (by simp [hr])]
      simp

theorem lettersValW_eq_aux (l : List Char) :
    ∀ acc : Nat,
      l.foldl (fun a c => a * 26 + (c.toNat - 65 + 1)) acc < usizeW →
      l.foldl (fun a c => (a * 26 + (c.toNat - 65 + 1)) % usizeW) acc
        = l.foldl (fun a c => a * 26 + (c.toNat - 65 + 1)) acc := by
  induction l with
  | nil => intro acc _; rfl
  | cons c rest ih =>
    intro acc hlt
    have hmono : ∀ (m : List Char) (a : Nat),
        a ≤ m.foldl (fun x y => x * 26 + (y.toNat - 65 + 1)) a := by
      intro m
      induction m with
      | nil => intro a; exact Nat.le_refl a
      | cons d t iht =>
        intro a
        exact Nat.le_trans (by omega) (iht (a * 26 + (d.toNat - 65 + 1)))
    simp only [List.foldl_cons] at hlt ⊢
    have hstep : acc * 26 + (c.toNat - 65 + 1) < usizeW :=
      Nat.lt_of_le_of_lt (hmono rest _) hlt
    rw [Nat.mod_eq_of_lt hstep]
    exact ih _ hlt

theorem lettersValW_eq (l : List Char) (h : lettersVal l < usizeW) :
    lettersValW l = lettersVal l :=
  lettersValW_eq_aux l 0 h

/-- `parse_cell_ref` inverts `cell_name` as long as the machine-width
reductions are inactive. -/
theorem parseCellRef_cellName (k r : Nat) (hk : k + 1 < usizeW) (hr : r + 1 < usizeW) :
    parseCellRef (cellName k r) = some (k, r, false, false) := by
  have hletters := colToName_all_upper k
  have hdigits := natDigits_all_digit (r + 1)
  have hmem : ∀ c ∈ cellName k r, 48 ≤ c.toNat ∧ c.toNat ≤ 90 := by
    intro c hc
    rcases List.mem_append.mp hc with hcl | hcd
    · have := hletters c hcl; omega
    · have := hdigits c hcd
      simp only [isDigitChar, Bool.and_eq_true, decide_eq_true_eq] at this
      omega
  have htrim : trimChars (cellName k r) = cellName k r :=
    trimChars_eq_self (fun c hc => not_space_of_ge (hmem c hc).1)
  have hupper : (cellName k r).map toUpperChar = cellName k r :=
    map_toUpperChar_id (fun c hc => by have := hmem c hc; omega)
  have hnonempty : cellName k r ≠ [] := by
    unfold cellName
    intro hemp
    exact colToName_ne_nil k (List.append_eq_nil.mp hemp).1
  have hfold :
      (cellName k r).foldl refStep ⟨false, false, [], [], true⟩
        = ⟨false, false, colToName k, natDigits (r + 1), false⟩ := by
    unfold cellName
    rw [List.foldl_append,
      foldl_refStep_alpha (colToName k)
        (fun c hc => isAlphaChar_of_range (hletters c hc).1 (hletters c hc).2) _ rfl,
      foldl_refStep_digit (natDigits (r + 1)) hdigits _ (natDigits_ne_nil _)]
    simp
  unfold parseCellRef
  rw [htrim, hupper, if_neg hnonempty, hfold]
  simp only []
  rw [if_neg (by simp [colToName_ne_nil k, natDigits_ne_nil (r + 1)])]
  have hlv : lettersValW (colToName k) = k + 1 := by
    rw [lettersValW_eq _ (by rw [lettersVal_colToName]; omega), lettersVal_colToName]
  rw [hlv]
  have hcol : (k + 1 + (usizeW - 1)) % usizeW = k := by
    have hW : 0 < usizeW := by unfold usizeW; positivity
    have : k + 1 + (usizeW - 1) = k + usizeW := by omega
    rw [this, Nat.add_mod_right, Nat.mod_eq_of_lt (by omega)]
  rw [hcol]
  unfold parseUsizeDigits
  rw [digitsVal_natDigits]
  rw [if_pos hr]
  simp

/-- C8: for every column index k in [0, 18277], parsing the reference formed
from `col_to_name(k)` (with any row) gives back column k; `col_to_name(0)` is
"A" and `col_to_name(26)` is "AA" (bijective base-26 naming). -/
theorem C8_bijective_base26 :
    (∀ k r : Nat, k ≤ 18277 → r + 1 < usizeW →
      parseCellRef (cellName k r) = some (k, r, false, false)) ∧
    colToName 0 = "A".toList ∧ colToName 26 = "AA".toList := by
  refine ⟨fun k r hk hr => parseCellRef_cellName k r ?_ hr, by decide, by decide⟩
  show k + 1 < 2 ^ 64
  omega

/-- Witness for C8 at concrete inputs. -/
theorem C8_bijective_base26_witness :
    parseCellRef (cellName 27 4) = some (27, 4, false, false) ∧
    colToName 0 = "A".toList :=
  ⟨C8_bijective_base26.1 27 4 (by omega) (by show 5 < 2 ^ 64; omega),
    C8_bijective_base26.2.1⟩

/-! ## `formula.rs`: the reference scanner shared by the rewriters

Both `adjust_formula` and `adjust_formula_for_structure_change` attempt, at
each loop position, to read `$? letters $? digits`.  `scanRef` performs that
read; `consumed` is the original text it advanced over. -/

structure RefScan where
  colAbs : Bool
  colRaw : List Char
  rowAbs : Bool
  rowStr : List Char
  rest : List Char
deriving Repr, DecidableEq

/-- Consume one optional leading `$`. -/
def splitDollar (s : List Char) : Bool × List Char :=
  match s with
  | [] => (false, [])
  | c :: t => if c = '$' then (true, t) else (false, c :: t)

def scanRef (s : List Char) : RefScan :=
  let d1 := splitDollar s
  let colRaw := d1.2.takeWhile isAlphaChar
  let s2 := d1.2.dropWhile isAlphaChar
  let d2 := splitDollar s2
  let rowStr := d2.2.takeWhile isDigitChar
  let rest := d2.2.dropWhile isDigitChar
  ⟨d1.1, colRaw, d2.1, rowStr, rest⟩

def RefScan.consumed (sc : RefScan) : List Char :=
  (if sc.colAbs then ['$'] else []) ++ sc.colRaw ++
    (if sc.rowAbs then ['$'] else []) ++ sc.rowStr

theorem splitDollar_append (s : List Char) :
    (if (splitDollar s).1 then ['$'] else []) ++ (splitDollar s).2 = s := by
  cases s with
  | nil => rfl
  | cons c t =>
    by_cases hc : c = '$'
    · subst hc; simp [splitDollar]
    · simp [splitDollar, hc]

theorem scanRef_consumed_append (s : List Char) :
    (scanRef s).consumed ++ (scanRef s).rest = s := by
  unfold scanRef RefScan.consumed
  simp only [List.append_assoc]
  rw [List.takeWhile_append_dropWhile, splitDollar_append,
    List.takeWhile_append_dropWhile, splitDollar_append]

theorem scanRef_rest_length (s : List Char) :
    (scanRef s).rest.length + (scanRef s).consumed.length = s.length := by
  have h := congrArg List.length (scanRef_consumed_append s)
  simp only [List.length_append] at h
  omega

/-! ## `formula.rs`: structural rewriting of formulas -/

inductive StructureChange where
  | rowInsert (r : Nat)
  | rowDelete (r : Nat)
  | colInsert (c : Nat)
  | colDelete (c : Nat)
deriving Repr, DecidableEq

/-- The per-reference action of `adjust_formula_for_structure_change`
(`formula.rs` lines 264-297): `(new_col, new_row, is_ref_error)`. -/
def applyStructureChange (ch : StructureChange) (col row : Nat) : Nat × Nat × Bool :=
  match ch with
  | .rowInsert ir =>
      if row ≥ ir then (col, (row + 1) % usizeW, false) else (col, row, false)
  | .rowDelete dr =>
      if row = dr then (col, row, true)
      else if row > dr then (col, row - 1, false)
      else (col, row, false)
  | .colInsert ic =>
      if col ≥ ic then ((col + 1) % usizeW, row, false) else (col, row, false)
  | .colDelete dc =>
      if col = dc then (col, row, true)
      else if col > dc then (col - 1, row, false)
      else (col, row, false)

/-- Rebuilt reference text: optional `$`, column letters, optional `$`, and
the 1-based row (`(new_row + 1).to_string()`, with `usize` wrap-around). -/
def renderRef (colAbs : Bool) (col : Nat) (rowAbs : Bool) (row : Nat) : List Char :=
  (if colAbs then ['$'] else []) ++ colToName col ++
    (if rowAbs then ['$'] else []) ++ natDigits ((row + 1) % usizeW)

/-- Column value computed by the rewriters from the collected letters
(uppercased), with `usize` wrap-around on the fold and the final `- 1`. -/
def scannedColVal (colRaw : List Char) : Nat :=
  (lettersValW (colRaw.map toUpperChar) + (usizeW - 1)) % usizeW

/-- The main loop of `adjust_formula_for_structure_change` (`formula.rs`
lines 204-329).  The fuel argument only bounds the recursion depth; one unit
per loop iteration, so `s.length` always suffices. -/
def adjustLoopGo (ch : StructureChange) : Nat → List Char → List Char
  | 0, _ => []
  | _ + 1, [] => []
  | fuel + 1, c :: rest =>
    if c = '"' then
      let body := rest.takeWhile (fun x => x != '"')
      let r2 := rest.dropWhile (fun x => x != '"')
      match r2 with
      | [] => c :: body
      | q :: r3 => c :: body ++ q :: adjustLoopGo ch fuel r3
    else
      let sc := scanRef (c :: rest)
      if sc.colRaw ≠ [] ∧ sc.rowStr ≠ [] then
        match parseUsizeDigits sc.rowStr with
        | some rowOne =>
          if 0 < rowOne then
            let res := applyStructureChange ch (scannedColVal sc.colRaw) (rowOne - 1)
            if res.2.2 then
              "#REF!".toList ++ adjustLoopGo ch fuel sc.rest
            else
              renderRef sc.colAbs res.1 sc.rowAbs res.2.1 ++ adjustLoopGo ch fuel sc.rest
          else
            sc.consumed ++ adjustLoopGo ch fuel sc.rest
        | none => sc.consumed ++ adjustLoopGo ch fuel sc.rest
      else
        if sc.consumed = [] then c :: adjustLoopGo ch fuel rest
        else sc.consumed ++ adjustLoopGo ch fuel sc.rest

def adjustFormulaForStructureChange (ch : StructureChange) (s : List Char) : List Char :=
  adjustLoopGo ch s.length s

def adjustFormulaForRowInsert (s : List Char) (r : Nat) : List Char :=
  adjustFormulaForStructureChange (.rowInsert r) s

def adjustFormulaForRowDelete (s : List Char) (r : Nat) : List Char :=
  adjustFormulaForStructureChange (.rowDelete r) s

def adjustFormulaForColInsert (s : List Char) (c : Nat) : List Char :=
  adjustFormulaForStructureChange (.colInsert c) s

def adjustFormulaForColDelete (s : List Char) (c : Nat) : List Char :=
  adjustFormulaForStructureChange (.colDelete c) s

/-! ## `formula.rs`: copy/paste offset rewriting (`adjust_formula`) -/

/-- `usize as isize` (release-mode bit reinterpretation). -/
def usizeAsIsize (n : Nat) : Int :=
  if n < 2 ^ 63 then (n : Int) else (n : Int) - (usizeW : Int)

/-- The main loop of `adjust_formula` (`formula.rs` lines 75-171).  Unlike the
structural rewriter it has no `row > 0` check (`saturating_sub(1)` instead)
and clamps shifted components at 0. -/
def adjustCopyGo (colOff rowOff : Int) : Nat → List Char → List Char
  | 0, _ => []
  | _ + 1, [] => []
  | fuel + 1, c :: rest =>
    if c = '"' then
      let body := rest.takeWhile (fun x => x != '"')
      let r2 := rest.dropWhile (fun x => x != '"')
      match r2 with
      | [] => c :: body
      | q :: r3 => c :: body ++ q :: adjustCopyGo colOff rowOff fuel r3
    else
      let sc := scanRef (c :: rest)
      if sc.colRaw ≠ [] ∧ sc.rowStr ≠ [] then
        match parseUsizeDigits sc.rowStr with
        | some rowOne =>
          let col := scannedColVal sc.colRaw
          let row := rowOne - 1
          let newCol := if sc.colAbs then col else (usizeAsIsize col + colOff).toNat
          let newRow := if sc.rowAbs then row else (usizeAsIsize row + rowOff).toNat
          renderRef sc.colAbs newCol sc.rowAbs newRow ++ adjustCopyGo colOff rowOff fuel sc.rest
        | none => sc.consumed ++ adjustCopyGo colOff rowOff fuel sc.rest
      else
        if sc.consumed = [] then c :: adjustCopyGo colOff rowOff fuel rest
        else sc.consumed ++ adjustCopyGo colOff rowOff fuel sc.rest

def adjustFormula (s : List Char) (colOff rowOff : Int) : List Char :=
  adjustCopyGo colOff rowOff s.length s

/-! ## `f64` literal parsing (`str::parse::<f64>` on finite decimal input)

`f64` values are modelled as exact rationals; the parser below accepts the
sign/digits/point/exponent grammar.  (The `inf`/`NaN` spellings and binary
rounding of `f64` are outside the modelled fragment; no claim depends on
them.) -/

def parseF64 (s : List Char) : Option ℚ :=
  let (sgn, s1) :=
    match s with
    | '+' :: t => ((1 : ℚ), t)
    | '-' :: t => ((-1 : ℚ), t)
    | _ => ((1 : ℚ), s)
  let ipart := s1.takeWhile isDigitChar
  let s2 := s1.dropWhile isDigitChar
  let (fpart, s3) :=
    match s2 with
    | '.' :: t => (t.takeWhile isDigitChar, t.dropWhile isDigitChar)
    | _ => ([], s2)
  if ipart = [] ∧ fpart = [] then none
  else
    let mant : ℚ := (digitsVal ipart : ℚ) + (digitsVal fpart : ℚ) / 10 ^ fpart.length
    match s3 with
    | [] => some (sgn * mant)
    | e :: t =>
      if e = 'e' ∨ e = 'E' then
        let (esgn, t1) :=
          match t with
          | '+' :: u => ((1 : Int), u)
          | '-' :: u => ((-1 : Int), u)
          | _ => ((1 : Int), t)
        let edig := t1.takeWhile isDigitChar
        let t2 := t1.dropWhile isDigitChar
        if edig = [] ∨ t2 ≠ [] then none
        else some (sgn * mant * (10 : ℚ) ^ (esgn * (digitsVal edig : Int)))
      else none

/-! ## `cell.rs`: values, errors, cells, input classification -/

inductive CellError where
  | divZero
  | value
  | ref
  | name
  | num
  | na
  | cycle
deriving Repr, DecidableEq

/-- `CellError::to_string` (`cell.rs` lines 26-36). -/
def CellError.glyph : CellError → List Char
  | .divZero => "#DIV/0!".toList
  | .value => "#VALUE!".toList
  | .ref => "#REF!".toList
  | .name => "#NAME?".toList
  | .num => "#NUM!".toList
  | .na => "#N/A".toList
  | .cycle => "#CYCLE!".toList

inductive CellValue where
  | empty
  | number (n : ℚ)
  | text (s : List Char)
  | boolean (b : Bool)
  | formula (s : List Char)
  | error (e : CellError)
deriving Repr, DecidableEq

inductive DisplayFormat where
  | general
  | number (decimals : Nat)
  | currency (decimals : Nat)
  | percent (decimals : Nat)
  | scientific
  | date
  | text
deriving Repr, DecidableEq

structure Cell where
  value : CellValue
  raw_input : List Char
  format : DisplayFormat
deriving Repr, DecidableEq

/-- `Cell::default`. -/
def Cell.default : Cell := ⟨.empty, [], .general⟩

/-- `Cell::new` (note: the format is always reset to `General`). -/
def Cell.new (input : List Char) (value : CellValue) : Cell := ⟨value, input, .general⟩

/-- `parse_input` (`cell.rs` lines 148-182). -/
def parseInput (input : List Char) : CellValue :=
  let trimmed := trimChars input
  if trimmed = [] then .empty
  else if trimmed.head? = some '=' then .formula trimmed
  else if trimmed.map toUpperChar = "TRUE".toList then .boolean true
  else if trimmed.map toUpperChar = "FALSE".toList then .boolean false
  else
    match parseF64 trimmed with
    | some n => .number n
    | none =>
      if trimmed.getLast? = some '%' then
        match parseF64 (trimChars trimmed.dropLast) with
        | some n => .number (n / 100)
        | none => .text trimmed
      else .text trimmed

/-! ## Real-valued operations abstracted from `f64`

`sqrt`, `powf` and the non-integer display formats of `f64` have no exact
rational counterpart; the evaluator is parameterised over them and every
theorem quantifies over this record. -/

structure FloatOps where
  sqrtQ : ℚ → ℚ
  powQ : ℚ → ℚ → ℚ
  fmtPlain : ℚ → List Char
  fmtFixed : Nat → ℚ → List Char
  fmtSci : ℚ → List Char

/-- A concrete instantiation used in closed computations (none of which
exercise the abstracted operations). -/
def defaultFops : FloatOps := ⟨fun _ => 0, fun _ _ => 0, fun _ => [], fun _ _ => [], fun _ => []⟩

/-- `format!("{:.0}", n)` for an integral `f64`. -/
def intDisplay (q : ℚ) : List Char :=
  if q < 0 then '-' :: natDigits (-q.num).toNat else natDigits q.num.toNat

/-- `Cell::format_number` (`cell.rs` lines 109-144). -/
def formatNumber (fops : FloatOps) (fmt : DisplayFormat) (n : ℚ) : List Char :=
  match fmt with
  | .general =>
    if n = (n.floor : ℚ) ∧ |n| < (10 ^ 10 : ℚ) then intDisplay n
    else if |n| < 1 / 10 ^ 4 ∨ |n| ≥ (10 ^ 10 : ℚ) then fops.fmtSci n
    else
      (((fops.fmtFixed 6 n).reverse.dropWhile (fun c => c = '0')).dropWhile
        (fun c => c = '.')).reverse
  | .number d => fops.fmtFixed d n
  | .currency d => '$' :: fops.fmtFixed d n
  | .percent d => fops.fmtFixed d (n * 100) ++ ['%']
  | .scientific => fops.fmtSci n
  | .date => intDisplay n
  | .text => fops.fmtPlain n

/-! ## `engine.rs`: result type and pure helpers -/

/-- Rust `Result<α, String>` extended with a fuel-exhaustion marker for the
shallow embedding of the recursive evaluator.  The Rust evaluator has no
such case; every claim is stated at (or quantified over) sufficient fuel. -/
inductive EvalRes (α : Type) where
  | ok (v : α)
  | err (e : List Char)
  | fuelOut
deriving Repr, DecidableEq

instance : Monad EvalRes where
  pure := .ok
  bind x f :=
    match x with
    | .ok v => f v
    | .err e => .err e
    | .fuelOut => .fuelOut

@[simp] theorem EvalRes.bind_ok {α β : Type} (v : α) (f : α → EvalRes β) :
    (EvalRes.ok v >>= f) = f v := rfl

@[simp] theorem EvalRes.bind_err {α β : Type} (e : List Char) (f : α → EvalRes β) :
    ((EvalRes.err e : EvalRes α) >>= f) = EvalRes.err e := rfl

@[simp] theorem EvalRes.bind_fuelOut {α β : Type} (f : α → EvalRes β) :
    ((EvalRes.fuelOut : EvalRes α) >>= f) = EvalRes.fuelOut := rfl

@[simp] theorem EvalRes.pure_eq {α : Type} (v : α) :
    (pure v : EvalRes α) = EvalRes.ok v := rfl

/-- `f64::EPSILON` is exactly `2⁻⁵²`. -/
def epsQ : ℚ := 1 / 2 ^ 52

/-- `to_number` (`engine.rs` lines 544-553). -/
def toNumber : CellValue → EvalRes ℚ
  | .number n => .ok n
  | .boolean b => .ok (if b then 1 else 0)
  | .empty => .ok 0
  | .text s =>
    match parseF64 s with
    | some n => .ok n
    | none => .err "#VALUE!".toList
  | .error e => .err e.glyph
  | .formula _ => .err "#VALUE!".toList

/-- `to_string` (`engine.rs` lines 555-564). -/
def cvToString (fops : FloatOps) : CellValue → List Char
  | .number n =>
    if n = (n.floor : ℚ) ∧ |n| < (10 ^ 10 : ℚ) then intDisplay n else fops.fmtPlain n
  | .text s => s
  | .boolean b => if b then "TRUE".toList else "FALSE".toList
  | .empty => []
  | .error e => e.glyph
  | .formula _ => []

/-- `to_bool` (`engine.rs` lines 566-577). -/
def toBool : CellValue → EvalRes Bool
  | .boolean b => .ok b
  | .number n => .ok (decide (n ≠ 0))
  | .text s =>
    if s.map toUpperChar = "TRUE".toList then .ok true
    else if s.map toUpperChar = "FALSE".toList then .ok false
    else .err "#VALUE!".toList
  | _ => .err "#VALUE!".toList

/-- `cell_eq` (`engine.rs` lines 579-585). -/
def cellEq : CellValue → CellValue → Bool
  | .number l, .number r => decide (|l - r| < epsQ)
  | .text l, .text r => decide (l.map toUpperChar = r.map toUpperChar)
  | _, _ => false

/-- `cell_lte` (`engine.rs` lines 587-592). -/
def cellLte : CellValue → CellValue → Bool
  | .number l, .number r => decide (l ≤ r)
  | _, _ => false

/-- `arithmetic` (`engine.rs` lines 642-651). -/
def arithmetic (left right : CellValue) (op : Char) : EvalRes CellValue := do
  let l ← toNumber left
  let r ← toNumber right
  match op with
  | '+' => pure (.number (l + r))
  | '-' => pure (.number (l - r))
  | '*' => pure (.number (l * r))
  | '/' => if r = 0 then pure (.error .divZero) else pure (.number (l / r))
  | _ => EvalRes.err "#VALUE!".toList

/-- `power` (`engine.rs` lines 653-655). -/
def powerOp (fops : FloatOps) (left right : CellValue) : EvalRes CellValue := do
  let l ← toNumber left
  let r ← toNumber right
  pure (.number (fops.powQ l r))

/-- Rust `String` comparison (lexicographic byte order; char order on ASCII). -/
def strLt : List Char → List Char → Bool
  | [], [] => false
  | [], _ :: _ => true
  | _ :: _, [] => false
  | a :: xs, b :: ys =>
    if a.toNat < b.toNat then true
    else if b.toNat < a.toNat then false
    else strLt xs ys

/-- Numeric comparison dispatch inside `compare`, with the epsilon-equality
of the source. -/
def compareNums (l r : ℚ) (op : List Char) : EvalRes CellValue :=
  if op = "=".toList then .ok (.boolean (decide (|l - r| < epsQ)))
  else if op = "<>".toList ∨ op = "!=".toList then .ok (.boolean (decide (|l - r| ≥ epsQ)))
  else if op = ">".toList then .ok (.boolean (decide (l > r)))
  else if op = "<".toList then .ok (.boolean (decide (l < r)))
  else if op = ">=".toList then .ok (.boolean (decide (l ≥ r)))
  else if op = "<=".toList then .ok (.boolean (decide (l ≤ r)))
  else .err "#VALUE!".toList

/-- `compare` (`engine.rs` lines 657-677). -/
def compareVals (left right : CellValue) (op : List Char) : EvalRes CellValue :=
  match left, right with
  | .number l, .number r => compareNums l r op
  | .text l, .text r =>
    if op = "=".toList then .ok (.boolean (decide (l = r)))
    else if op = "<>".toList ∨ op = "!=".toList then .ok (.boolean (decide (l ≠ r)))
    else if op = ">".toList then .ok (.boolean (strLt r l))
    else if op = "<".toList then .ok (.boolean (strLt l r))
    else if op = ">=".toList then .ok (.boolean (!strLt l r))
    else if op = "<=".toList then .ok (.boolean (!strLt r l))
    else .err "#VALUE!".toList
  | _, _ =>
    match toNumber left, toNumber right with
    | .ok l, .ok r => compareNums l r op
    | _, _ => .err "#VALUE!".toList

/-! ## `engine.rs`: string scanners -/

/-- `find_operator` (`engine.rs` lines 594-612): leftmost occurrence of `op`
at parenthesis depth 0 outside string literals. -/
def findOpGo (op : List Char) : List Char → Int → Bool → Nat → Option Nat
  | [], _, _, _ => none
  | c :: rest, depth, inStr, i =>
    if c = '"' then findOpGo op rest depth (!inStr) (i + 1)
    else if inStr then findOpGo op rest depth inStr (i + 1)
    else if c = '(' then findOpGo op rest (depth + 1) inStr (i + 1)
    else if c = ')' then findOpGo op rest (depth - 1) inStr (i + 1)
    else if depth = 0 ∧ op.isPrefixOf (c :: rest) then some i
    else findOpGo op rest depth inStr (i + 1)

def findOperator (s : List Char) (op : List Char) : Option Nat :=
  findOpGo op s 0 false 0

/-- Head of the reversed remainder, upper-cased: this is `chars[i-1]` during
the right-to-left scan. -/
def headUpperIsE : List Char → Bool
  | c :: _ => toUpperChar c = 'E'
  | [] => false

/-- `find_operator_rtl` (`engine.rs` lines 614-631), scanning the reversed
character list; `i` is the index of the current character in the original
string.  A `+`/`-` preceded by `e`/`E` is skipped (exponent), as is a leading
`-` (unary minus). -/
def findRtlGo (ops : List Char) : List Char → Int → Bool → Nat → Option Nat
  | [], _, _, _ => none
  | c :: restRev, depth, inStr, i =>
    if c = '"' then findRtlGo ops restRev depth (!inStr) (i - 1)
    else if inStr then findRtlGo ops restRev depth inStr (i - 1)
    else if c = ')' then findRtlGo ops restRev (depth + 1) inStr (i - 1)
    else if c = '(' then findRtlGo ops restRev (depth - 1) inStr (i - 1)
    else if depth = 0 ∧ ops.contains c then
      if (c = '+' ∨ c = '-') ∧ headUpperIsE restRev then
        findRtlGo ops restRev depth inStr (i - 1)
      else if c = '-' ∧ restRev = [] then findRtlGo ops restRev depth inStr (i - 1)
      else some i
    else findRtlGo ops restRev depth inStr (i - 1)

def findOperatorRtl (s : List Char) (ops : List Char) : Option Nat :=
  findRtlGo ops s.reverse 0 false (s.length - 1)

/-- `find_matching_paren` (`engine.rs` lines 633-640); always called with
start 0 in the source. -/
def findMatchingParenGo : List Char → Int → Nat → Option Nat
  | [], _, _ => none
  | c :: rest, depth, i =>
    if c = '(' then findMatchingParenGo rest (depth + 1) (i + 1)
    else if c = ')' then
      if depth - 1 = 0 then some i else findMatchingParenGo rest (depth - 1) (i + 1)
    else findMatchingParenGo rest depth (i + 1)

def findMatchingParen (s : List Char) : Option Nat := findMatchingParenGo s 0 0

/-- `split_args` (`engine.rs` lines 526-542): split on top-level commas
outside string literals; each produced argument is trimmed; a trailing
non-empty remainder is pushed. -/
def splitArgsGo : List Char → List Char → Int → Bool → List (List Char) → List (List Char)
  | [], current, _, _, acc =>
    if current = [] then acc else acc ++ [trimChars current]
  | c :: rest, current, depth, inStr, acc =>
    if c = '"' then splitArgsGo rest (current ++ [c]) depth (!inStr) acc
    else if c = '(' ∧ inStr = false then splitArgsGo rest (current ++ [c]) (depth + 1) inStr acc
    else if c = ')' ∧ inStr = false then splitArgsGo rest (current ++ [c]) (depth - 1) inStr acc
    else if c = ',' ∧ depth = 0 ∧ inStr = false then
      splitArgsGo rest [] depth inStr (acc ++ [trimChars current])
    else splitArgsGo rest (current ++ [c]) depth inStr acc

def splitArgs (s : List Char) : List (List Char) := splitArgsGo s [] 0 false []

/-- The comparison operators of `evaluate_expr`, in source order. -/
def cmpOpsList : List (List Char) :=
  [">=".toList, "<=".toList, "<>".toList, "!=".toList, "=".toList, ">".toList, "<".toList]

/-- The `for op in [...]` scan: first operator of the list found in `s`. -/
def findCmpIn : List (List Char) → List Char → Option (List Char × Nat)
  | [], _ => none
  | op :: more, s =>
    match findOperator s op with
    | some pos => some (op, pos)
    | none => findCmpIn more s

/-- The criteria prefixes of `matches_criteria` (`engine.rs` line 180). -/
def critOpsList : List (List Char) :=
  [">=".toList, "<=".toList, "<>".toList, "!=".toList, ">".toList, "<".toList]

/-! ## `engine.rs`: numeric casts and small helpers -/

/-- Truncation toward zero of a rational. -/
def ratTrunc (q : ℚ) : Int := if 0 ≤ q then q.floor else q.ceil

/-- `f64 as usize` (truncating, saturating at the `usize` range). -/
def qToUsize (q : ℚ) : Nat :=
  if q < 0 then 0 else min q.floor.toNat (usizeW - 1)

/-- `f64 as i32` (truncating, saturating at the `i32` range). -/
def qToI32 (q : ℚ) : Int :=
  max (-(2 ^ 31)) (min (2 ^ 31 - 1) (ratTrunc q))

/-- `f64::round`: nearest integer, ties away from zero. -/
def roundHalfAway (q : ℚ) : ℚ :=
  if 0 ≤ q then ((q + 1 / 2).floor : ℚ) else ((q - 1 / 2).ceil : ℚ)

/-- Rust `%` on `f64`: remainder with the sign of the dividend. -/
def f64Rem (a b : ℚ) : ℚ := a - b * (ratTrunc (a / b) : ℚ)

/-- `min().unwrap_or(0)` over a list. -/
def listMin (l : List Nat) : Nat :=
  match l with
  | [] => 0
  | x :: xs => xs.foldl min x

/-- `max().unwrap_or(0)` over a list. -/
def listMax (l : List Nat) : Nat :=
  match l with
  | [] => 0
  | x :: xs => xs.foldl max x

/-- Inclusive range `a..=b` of `usize` (empty when `b < a`). -/
def rangeIncl (a b : Nat) : List Nat :=
  if b < a then [] else List.range' a (b - a + 1)

/-- `str::trim_matches('"')`. -/
def trimMatchesQuote (l : List Char) : List Char :=
  ((l.dropWhile (fun c => c = '"')).reverse.dropWhile (fun c => c = '"')).reverse

/-- Rust `char::to_ascii_lowercase` (ASCII fragment of `to_lowercase`). -/
def toLowerChar (c : Char) : Char :=
  if 65 ≤ c.toNat && c.toNat ≤ 90 then Char.ofNat (c.toNat + 32) else c

/-- `str::split_whitespace` (ASCII fragment), with explicit recursion depth. -/
def wordsGo : Nat → List Char → List (List Char)
  | 0, _ => []
  | fuel + 1, s =>
    let s1 := s.dropWhile isSpaceChar
    match s1 with
    | [] => []
    | _ =>
      s1.takeWhile (fun c => !isSpaceChar c) ::
        wordsGo fuel (s1.dropWhile (fun c => !isSpaceChar c))

/-- `split_whitespace().collect::<Vec<_>>().join(" ")` as used by `TRIM`. -/
def splitWhitespaceJoin (s : List Char) : List Char :=
  List.intercalate [' '] (wordsGo s.length s)

/-- `parse_range` (`engine.rs` lines 150-162): `A1:B3` rectangles iterated
row-major, or a single 1×1 reference. -/
def parseRange (s : List Char) : EvalRes (List (Nat × Nat)) :=
  let parts := s.splitOn ':'
  match parts with
  | [p1, p2] =>
    match parseCellRef p1 with
    | none => .err "Invalid range".toList
    | some (sc, sr, _, _) =>
      match parseCellRef p2 with
      | none => .err "Invalid range".toList
      | some (ec, er, _, _) =>
        .ok ((rangeIncl sr er).flatMap fun row => (rangeIncl sc ec).map fun col => (col, row))
  | [p] =>
    match parseCellRef p with
    | none => .err "Invalid cell".toList
    | some (c, r, _, _) => .ok [(c, r)]
  | _ => .err "Invalid range".toList

/-- The sparse cell store of `Sheet` (`HashMap<(usize, usize), Cell>`),
modelled extensionally as a partial map. -/
abbrev CellMap : Type := (Nat × Nat) → Option Cell

/-! ## `engine.rs`: the recursive evaluator

One fuel unit is spent per call (including per loop iteration); the Rust
recursion is bounded by the cycle check, so any sufficiently large fuel gives
the Rust semantics, and `EvalRes.fuelOut` marks an exhausted budget.
`stack` is `Engine::eval_stack`; pushing happens on entry to a formula cell
exactly as in `evaluate_cell`. -/

set_option maxHeartbeats 4000000 in
mutual

/-- `Engine::evaluate_formula` (`engine.rs` lines 15-21). -/
def evalFormula (fops : FloatOps) (cells : CellMap) :
    Nat → List (Nat × Nat) → List Char → EvalRes CellValue
  | 0, _, _ => .fuelOut
  | fuel + 1, stack, s =>
    let expr := trimChars s
    if expr.head? = some '=' then evalExpr fops cells fuel stack (expr.drop 1)
    else pure (.text expr)
termination_by structural fuel _ _ => fuel


/-- `Engine::evaluate_cell` (`engine.rs` lines 23-44). -/
def evalCell (fops : FloatOps) (cells : CellMap) :
    Nat → List (Nat × Nat) → Nat → Nat → EvalRes CellValue
  | 0, _, _, _ => .fuelOut
  | fuel + 1, stack, c, r =>
    if (c, r) ∈ stack then pure (.error .cycle)
    else
      match cells (c, r) with
      | none => pure (.number 0)
      | some cell =>
        match cell.value with
        | .empty => pure (.number 0)
        | .number n => pure (.number n)
        | .text s => pure (.text s)
        | .boolean b => pure (.boolean b)
        | .error e => pure (.error e)
        | .formula f => evalFormula fops cells fuel ((c, r) :: stack) f
termination_by structural fuel _ _ _ => fuel


/-- `Engine::evaluate_expr` (`engine.rs` lines 46-102). -/
def evalExpr (fops : FloatOps) (cells : CellMap) :
    Nat → List (Nat × Nat) → List Char → EvalRes CellValue
  | 0, _, _ => .fuelOut
  | fuel + 1, stack, s => do
    let t := trimChars s
    let fr ← tryFunction fops cells fuel stack t
    match fr with
    | some result => pure result
    | none =>
      let parenBody : Option (List Char) :=
        if t.head? = some '(' then
          match findMatchingParen t with
          | some e => if e = t.length - 1 then some ((t.drop 1).take (e - 1)) else none
          | none => none
        else none
      match parenBody with
      | some inner => evalExpr fops cells fuel stack inner
      | none =>
        match findCmpIn cmpOpsList t with
        | some (op, pos) => do
          let l ← evalExpr fops cells fuel stack (t.take pos)
          let r ← evalExpr fops cells fuel stack (t.drop (pos + op.length))
          compareVals l r op
        | none =>
          match findOperator t ("&".toList) with
          | some pos => do
            let l ← evalExpr fops cells fuel stack (t.take pos)
            let r ← evalExpr fops cells fuel stack (t.drop (pos + 1))
            pure (.text (cvToString fops l ++ cvToString fops r))
          | none =>
            let addPos : Option Nat :=
              match findOperatorRtl t ['+', '-'] with
              | some pos => if 0 < pos then some pos else none
              | none => none
            match addPos with
            | some pos => do
              let l ← evalExpr fops cells fuel stack (t.take pos)
              let r ← evalExpr fops cells fuel stack (t.drop (pos + 1))
              arithmetic l r (t.getD pos ' ')
            | none =>
              match findOperatorRtl t ['*', '/'] with
              | some pos => do
                let l ← evalExpr fops cells fuel stack (t.take pos)
                let r ← evalExpr fops cells fuel stack (t.drop (pos + 1))
                arithmetic l r (t.getD pos ' ')
              | none =>
                match findOperatorRtl t ['^'] with
                | some pos => do
                  let l ← evalExpr fops cells fuel stack (t.take pos)
                  let r ← evalExpr fops cells fuel stack (t.drop (pos + 1))
                  powerOp fops l r
                | none =>
                  if t.head? = some '-' then do
                    let v ← evalExpr fops cells fuel stack (t.drop 1)
                    match v with
                    | .number n => pure (.number (-n))
                    | _ => EvalRes.err ("#VALUE!".toList)
                  else
                    match parseF64 t with
                    | some n => pure (.number n)
                    | none =>
                      if t.head? = some '"' ∧ t.getLast? = some '"' ∧ 2 ≤ t.length then
                        pure (.text ((t.drop 1).dropLast))
                      else if t.map toUpperChar = "TRUE".toList then pure (.boolean true)
                      else if t.map toUpperChar = "FALSE".toList then pure (.boolean false)
                      else
                        match parseCellRef t with
                        | some (c, r, _, _) => evalCell fops cells fuel stack c r
                        | none => EvalRes.err ("#NAME?".toList)
termination_by structural fuel _ _ => fuel


/-- `Engine::try_function` (`engine.rs` lines 104-148). -/
def tryFunction (fops : FloatOps) (cells : CellMap) :
    Nat → List (Nat × Nat) → List Char → EvalRes (Option CellValue)
  | 0, _, _ => .fuelOut
  | fuel + 1, stack, s =>
    match List.findIdx? (fun c => c = '(') s with
    | none => pure none
    | some p =>
      if s.getLast? ≠ some ')' then pure none
      else
        let nameU := (trimChars (s.take p)).map toUpperChar
        let argsStr := (s.drop (p + 1)).dropLast
        if nameU = "SUM".toList then do
          let v ← funcSum fops cells fuel stack argsStr; pure (some v)
        else if nameU = "AVERAGE".toList ∨ nameU = "AVG".toList then do
          let v ← funcAverage fops cells fuel stack argsStr; pure (some v)
        else if nameU = "COUNT".toList then do
          let v ← funcCount fops cells fuel stack argsStr; pure (some v)
        else if nameU = "COUNTA".toList then do
          let v ← funcCounta fops cells fuel stack argsStr; pure (some v)
        else if nameU = "MIN".toList then do
          let v ← funcMin fops cells fuel stack argsStr; pure (some v)
        else if nameU = "MAX".toList then do
          let v ← funcMax fops cells fuel stack argsStr; pure (some v)
        else if nameU = "IF".toList then do
          let v ← funcIf fops cells fuel stack argsStr; pure (some v)
        else if nameU = "SUMIF".toList then do
          let v ← funcSumif fops cells fuel stack argsStr; pure (some v)
        else if nameU = "COUNTIF".toList then do
          let v ← funcCountif fops cells fuel stack argsStr; pure (some v)
        else if nameU = "AVERAGEIF".toList then do
          let v ← funcAverageif fops cells fuel stack argsStr; pure (some v)
        else if nameU = "VLOOKUP".toList then do
          let v ← funcVlookup fops cells fuel stack argsStr; pure (some v)
        else if nameU = "HLOOKUP".toList then do
          let v ← funcHlookup fops cells fuel stack argsStr; pure (some v)
        else if nameU = "INDEX".toList then do
          let v ← funcIndex fops cells fuel stack argsStr; pure (some v)
        else if nameU = "MATCH".toList then do
          let v ← funcMatch fops cells fuel stack argsStr; pure (some v)
        else if nameU = "LEFT".toList then do
          let v ← funcLeft fops cells fuel stack argsStr; pure (some v)
        else if nameU = "RIGHT".toList then do
          let v ← funcRight fops cells fuel stack argsStr; pure (some v)
        else if nameU = "MID".toList then do
          let v ← funcMid fops cells fuel stack argsStr; pure (some v)
        else if nameU = "LEN".toList then do
          let v ← funcLen fops cells fuel stack argsStr; pure (some v)
        else if nameU = "TRIM".toList then do
          let v ← funcTrim fops cells fuel stack argsStr; pure (some v)
        else if nameU = "UPPER".toList then do
          let v ← funcUpper fops cells fuel stack argsStr; pure (some v)
        else if nameU = "LOWER".toList then do
          let v ← funcLower fops cells fuel stack argsStr; pure (some v)
        else if nameU = "ABS".toList then do
          let v ← funcAbs fops cells fuel stack argsStr; pure (some v)
        else if nameU = "ROUND".toList then do
          let v ← funcRound fops cells fuel stack argsStr; pure (some v)
        else if nameU = "INT".toList then do
          let v ← funcInt fops cells fuel stack argsStr; pure (some v)
        else if nameU = "MOD".toList then do
          let v ← funcMod fops cells fuel stack argsStr; pure (some v)
        else if nameU = "POWER".toList then do
          let v ← funcPower fops cells fuel stack argsStr; pure (some v)
        else if nameU = "SQRT".toList then do
          let v ← funcSqrt fops cells fuel stack argsStr; pure (some v)
        else if nameU = "AND".toList then do
          let v ← funcAnd fops cells fuel stack argsStr; pure (some v)
        else if nameU = "OR".toList then do
          let v ← funcOr fops cells fuel stack argsStr; pure (some v)
        else if nameU = "NOT".toList then do
          let v ← funcNot fops cells fuel stack argsStr; pure (some v)
        else if nameU = "CONCATENATE".toList ∨ nameU = "CONCAT".toList then do
          let v ← funcConcat fops cells fuel stack argsStr; pure (some v)
        else if nameU = "IFERROR".toList then do
          let v ← funcIferror fops cells fuel stack argsStr; pure (some v)
        else if nameU = "ISBLANK".toList then do
          let v ← funcIsblank fops cells fuel stack argsStr; pure (some v)
        else if nameU = "ISNUMBER".toList then do
          let v ← funcIsnumber fops cells fuel stack argsStr; pure (some v)
        else if nameU = "ISTEXT".toList then do
          let v ← funcIstext fops cells fuel stack argsStr; pure (some v)
        else pure none
termination_by structural fuel _ _ => fuel


/-- `Engine::get_numeric_values` (`engine.rs` lines 164-176): iterate the
split arguments. -/
def getNumericValues (fops : FloatOps) (cells : CellMap) :
    Nat → List (Nat × Nat) → List Char → EvalRes (List ℚ)
  | 0, _, _ => .fuelOut
  | fuel + 1, stack, argsStr => gnvArgs fops cells fuel stack (splitArgs argsStr)
termination_by structural fuel _ _ => fuel


/-- Argument loop of `get_numeric_values`: ranges and single references push
only values that evaluate to `Number`; other evaluation outcomes (errors
included) are skipped; bare numeric literals are pushed. -/
def gnvArgs (fops : FloatOps) (cells : CellMap) :
    Nat → List (Nat × Nat) → List (List Char) → EvalRes (List ℚ)
  | 0, _, _ => .fuelOut
  | fuel + 1, stack, args =>
    match args with
    | [] => pure []
    | a :: rest =>
      if a.contains ':' then
        match parseRange a with
        | .err e => .err e
        | .fuelOut => .fuelOut
        | .ok cl => do
          let vs ← gnvCells fops cells fuel stack cl
          let more ← gnvArgs fops cells fuel stack rest
          pure (vs ++ more)
      else
        match parseCellRef a with
        | some (c, r, _, _) =>
          match evalCell fops cells fuel stack c r with
          | .fuelOut => .fuelOut
          | .ok (.number n) => do
            let more ← gnvArgs fops cells fuel stack rest
            pure (n :: more)
          | _ => gnvArgs fops cells fuel stack rest
        | none =>
          match parseF64 a with
          | some n => do
            let more ← gnvArgs fops cells fuel stack rest
            pure (n :: more)
          | none => gnvArgs fops cells fuel stack rest
termination_by structural fuel _ _ => fuel


/-- Range-cell loop of `get_numeric_values`. -/
def gnvCells (fops : FloatOps) (cells : CellMap) :
    Nat → List (Nat × Nat) → List (Nat × Nat) → EvalRes (List ℚ)
  | 0, _, _ => .fuelOut
  | fuel + 1, stack, l =>
    match l with
    | [] => pure []
    | (c, r) :: rest =>
      match evalCell fops cells fuel stack c r with
      | .fuelOut => .fuelOut
      | .ok (.number n) => do
        let more ← gnvCells fops cells fuel stack rest
        pure (n :: more)
      | _ => gnvCells fops cells fuel stack rest
termination_by structural fuel _ _ => fuel


/-- `Engine::matches_criteria` (`engine.rs` lines 178-198). -/
def matchesCriteria (fops : FloatOps) (cells : CellMap) :
    Nat → List (Nat × Nat) → Nat → Nat → List Char → EvalRes Bool
  | 0, _, _, _, _ => .fuelOut
  | fuel + 1, stack, c, r, criteria => do
    let val ← evalCell fops cells fuel stack c r
    match critOpsList.find? (fun op => op.isPrefixOf criteria) with
    | some op =>
      match parseF64 (trimChars (criteria.drop op.length)) with
      | none => EvalRes.err ("#VALUE!".toList)
      | some target =>
        match toNumber val with
        | .ok n =>
          if op = ">=".toList then pure (decide (n ≥ target))
          else if op = "<=".toList then pure (decide (n ≤ target))
          else if op = "<>".toList ∨ op = "!=".toList then pure (decide (|n - target| ≥ epsQ))
          else if op = ">".toList then pure (decide (n > target))
          else if op = "<".toList then pure (decide (n < target))
          else pure false
        | _ => pure false
    | none =>
      match parseF64 criteria with
      | some target =>
        match toNumber val with
        | .ok n => pure (decide (|n - target| < epsQ))
        | _ => pure false
      | none =>
        pure (decide ((cvToString fops val).map toUpperChar = criteria.map toUpperChar))
termination_by structural fuel _ _ _ _ => fuel


/-- `Engine::func_sum` (`engine.rs` lines 201-204). -/
def funcSum (fops : FloatOps) (cells : CellMap) :
    Nat → List (Nat × Nat) → List Char → EvalRes CellValue
  | 0, _, _ => .fuelOut
  | fuel + 1, stack, argsStr => do
    let values ← getNumericValues fops cells fuel stack argsStr
    pure (.number values.sum)
termination_by structural fuel _ _ => fuel


/-- `Engine::func_average` (`engine.rs` lines 206-210). -/
def funcAverage (fops : FloatOps) (cells : CellMap) :
    Nat → List (Nat × Nat) → List Char → EvalRes CellValue
  | 0, _, _ => .fuelOut
  | fuel + 1, stack, argsStr => do
    let values ← getNumericValues fops cells fuel stack argsStr
    if values = [] then pure (.error .divZero)
    else pure (.number (values.sum / (values.length : ℚ)))
termination_by structural fuel _ _ => fuel


/-- `Engine::func_count` (`engine.rs` lines 212-224). -/
def funcCount (fops : FloatOps) (cells : CellMap) :
    Nat → List (Nat × Nat) → List Char → EvalRes CellValue
  | 0, _, _ => .fuelOut
  | fuel + 1, stack, argsStr => do
    let n ← countArgs fops cells fuel stack (splitArgs argsStr)
    pure (.number (n : ℚ))
termination_by structural fuel _ _ => fuel


/-- Argument loop of `COUNT`: numbers only. -/
def countArgs (fops : FloatOps) (cells : CellMap) :
    Nat → List (Nat × Nat) → List (List Char) → EvalRes Nat
  | 0, _, _ => .fuelOut
  | fuel + 1, stack, args =>
    match args with
    | [] => pure 0
    | a :: rest =>
      if a.contains ':' then
        match parseRange a with
        | .err e => .err e
        | .fuelOut => .fuelOut
        | .ok cl => do
          let k ← countCells fops cells fuel stack cl
          let more ← countArgs fops cells fuel stack rest
          pure (k + more)
      else
        match parseCellRef a with
        | some (c, r, _, _) =>
          match evalCell fops cells fuel stack c r with
          | .fuelOut => .fuelOut
          | .ok (.number _) => do
            let more ← countArgs fops cells fuel stack rest
            pure (1 + more)
          | _ => countArgs fops cells fuel stack rest
        | none =>
          match parseF64 a with
          | some _ => do
            let more ← countArgs fops cells fuel stack rest
            pure (1 + more)
          | none => countArgs fops cells fuel stack rest
termination_by structural fuel _ _ => fuel


/-- Range-cell loop of `COUNT`. -/
def countCells (fops : FloatOps) (cells : CellMap) :
    Nat → List (Nat × Nat) → List (Nat × Nat) → EvalRes Nat
  | 0, _, _ => .fuelOut
  | fuel + 1, stack, l =>
    match l with
    | [] => pure 0
    | (c, r) :: rest =>
      match evalCell fops cells fuel stack c r with
      | .fuelOut => .fuelOut
      | .ok (.number _) => do
        let more ← countCells fops cells fuel stack rest
        pure (1 + more)
      | _ => countCells fops cells fuel stack rest
termination_by structural fuel _ _ => fuel


/-- `Engine::func_counta` (`engine.rs` lines 226-242). -/
def funcCounta (fops : FloatOps) (cells : CellMap) :
    Nat → List (Nat × Nat) → List Char → EvalRes CellValue
  | 0, _, _ => .fuelOut
  | fuel + 1, stack, argsStr => do
    let n ← countaArgs fops cells fuel stack (splitArgs argsStr)
    pure (.number (n : ℚ))
termination_by structural fuel _ _ => fuel


/-- Argument loop of `COUNTA`: non-`Empty` evaluation results. -/
def countaArgs (fops : FloatOps) (cells : CellMap) :
    Nat → List (Nat × Nat) → List (List Char) → EvalRes Nat
  | 0, _, _ => .fuelOut
  | fuel + 1, stack, args =>
    match args with
    | [] => pure 0
    | a :: rest =>
      if a.contains ':' then
        match parseRange a with
        | .err e => .err e
        | .fuelOut => .fuelOut
        | .ok cl => do
          let k ← countaCells fops cells fuel stack cl
          let more ← countaArgs fops cells fuel stack rest
          pure (k + more)
      else
        match parseCellRef a with
        | some (c, r, _, _) =>
          match evalCell fops cells fuel stack c r with
          | .fuelOut => .fuelOut
          | .ok v => do
            let more ← countaArgs fops cells fuel stack rest
            pure ((if v = .empty then 0 else 1) + more)
          | .err _ => countaArgs fops cells fuel stack rest
        | none =>
          if a ≠ [] then do
            let more ← countaArgs fops cells fuel stack rest
            pure (1 + more)
          else countaArgs fops cells fuel stack rest
termination_by structural fuel _ _ => fuel


/-- Range-cell loop of `COUNTA`. -/
def countaCells (fops : FloatOps) (cells : CellMap) :
    Nat → List (Nat × Nat) → List (Nat × Nat) → EvalRes Nat
  | 0, _, _ => .fuelOut
  | fuel + 1, stack, l =>
    match l with
    | [] => pure 0
    | (c, r) :: rest =>
      match evalCell fops cells fuel stack c r with
      | .fuelOut => .fuelOut
      | .ok v => do
        let more ← countaCells fops cells fuel stack rest
        pure ((if v = .empty then 0 else 1) + more)
      | .err _ => countaCells fops cells fuel stack rest
termination_by structural fuel _ _ => fuel


/-- `Engine::func_min` (`engine.rs` lines 244-248). -/
def funcMin (fops : FloatOps) (cells : CellMap) :
    Nat → List (Nat × Nat) → List Char → EvalRes CellValue
  | 0, _, _ => .fuelOut
  | fuel + 1, stack, argsStr => do
    let values ← getNumericValues fops cells fuel stack argsStr
    match values with
    | [] => pure (.number 0)
    | v :: rest => pure (.number (rest.foldl min v))
termination_by structural fuel _ _ => fuel


/-- `Engine::func_max` (`engine.rs` lines 250-254). -/
def funcMax (fops : FloatOps) (cells : CellMap) :
    Nat → List (Nat × Nat) → List Char → EvalRes CellValue
  | 0, _, _ => .fuelOut
  | fuel + 1, stack, argsStr => do
    let values ← getNumericValues fops cells fuel stack argsStr
    match values with
    | [] => pure (.number 0)
    | v :: rest => pure (.number (rest.foldl max v))
termination_by structural fuel _ _ => fuel


/-- `Engine::func_if` (`engine.rs` lines 256-264). -/
def funcIf (fops : FloatOps) (cells : CellMap) :
    Nat → List (Nat × Nat) → List Char → EvalRes CellValue
  | 0, _, _ => .fuelOut
  | fuel + 1, stack, argsStr =>
    match splitArgs argsStr with
    | a0 :: a1 :: rest => do
      let condition ← evalExpr fops cells fuel stack a0
      let isTrue ← toBool condition
      if isTrue then evalExpr fops cells fuel stack a1
      else
        match rest with
        | a2 :: _ => evalExpr fops cells fuel stack a2
        | [] => pure (.boolean false)
    | _ => EvalRes.err ("#VALUE!".toList)
termination_by structural fuel _ _ => fuel


/-- `Engine::func_sumif` (`engine.rs` lines 266-281). -/
def funcSumif (fops : FloatOps) (cells : CellMap) :
    Nat → List (Nat × Nat) → List Char → EvalRes CellValue
  | 0, _, _ => .fuelOut
  | fuel + 1, stack, argsStr =>
    match splitArgs argsStr with
    | a0 :: a1 :: rest =>
      match parseRange a0 with
      | .err e => .err e
      | .fuelOut => .fuelOut
      | .ok rangeCells => do
        let criteria := trimMatchesQuote (trimChars a1)
        let sumRange ←
          match rest with
          | a2 :: _ => parseRange a2
          | [] => pure rangeCells
        let total ← sumifGo fops cells fuel stack criteria sumRange rangeCells.enum
        pure (.number total)
    | _ => EvalRes.err ("#VALUE!".toList)
termination_by structural fuel _ _ => fuel


/-- Loop of `SUMIF` over the indexed criteria range. -/
def sumifGo (fops : FloatOps) (cells : CellMap) :
    Nat → List (Nat × Nat) → List Char → List (Nat × Nat) →
      List (Nat × (Nat × Nat)) → EvalRes ℚ
  | 0, _, _, _, _ => .fuelOut
  | fuel + 1, stack, criteria, sumRange, l =>
    match l with
    | [] => pure 0
    | (i, (c, r)) :: rest => do
      let m ← matchesCriteria fops cells fuel stack c r criteria
      let add ←
        if m then
          match sumRange.get? i with
          | some (sc, sr) =>
            match evalCell fops cells fuel stack sc sr with
            | .fuelOut => EvalRes.fuelOut
            | .ok (.number n) => pure n
            | _ => pure 0
          | none => pure 0
        else pure (0 : ℚ)
      let more ← sumifGo fops cells fuel stack criteria sumRange rest
      pure (add + more)
termination_by structural fuel _ _ _ _ => fuel


/-- `Engine::func_countif` (`engine.rs` lines 283-291). -/
def funcCountif (fops : FloatOps) (cells : CellMap) :
    Nat → List (Nat × Nat) → List Char → EvalRes CellValue
  | 0, _, _ => .fuelOut
  | fuel + 1, stack, argsStr =>
    match splitArgs argsStr with
    | a0 :: a1 :: _ =>
      match parseRange a0 with
      | .err e => .err e
      | .fuelOut => .fuelOut
      | .ok rangeCells => do
        let criteria := trimMatchesQuote (trimChars a1)
        let n ← countifGo fops cells fuel stack criteria rangeCells
        pure (.number (n : ℚ))
    | _ => EvalRes.err ("#VALUE!".toList)
termination_by structural fuel _ _ => fuel


/-- Loop of `COUNTIF`. -/
def countifGo (fops : FloatOps) (cells : CellMap) :
    Nat → List (Nat × Nat) → List Char → List (Nat × Nat) → EvalRes Nat
  | 0, _, _, _ => .fuelOut
  | fuel + 1, stack, criteria, l =>
    match l with
    | [] => pure 0
    | (c, r) :: rest => do
      let m ← matchesCriteria fops cells fuel stack c r criteria
      let more ← countifGo fops cells fuel stack criteria rest
      pure ((if m then 1 else 0) + more)
termination_by structural fuel _ _ _ => fuel


/-- `Engine::func_averageif` (`engine.rs` lines 293-308). -/
def funcAverageif (fops : FloatOps) (cells : CellMap) :
    Nat → List (Nat × Nat) → List Char → EvalRes CellValue
  | 0, _, _ => .fuelOut
  | fuel + 1, stack, argsStr =>
    match splitArgs argsStr with
    | a0 :: a1 :: rest =>
      match parseRange a0 with
      | .err e => .err e
      | .fuelOut => .fuelOut
      | .ok rangeCells => do
        let criteria := trimMatchesQuote (trimChars a1)
        let avgRange ←
          match rest with
          | a2 :: _ => parseRange a2
          | [] => pure rangeCells
        let p ← averageifGo fops cells fuel stack criteria avgRange rangeCells.enum
        if p.2 = 0 then pure (.error .divZero)
        else pure (.number (p.1 / (p.2 : ℚ)))
    | _ => EvalRes.err ("#VALUE!".toList)
termination_by structural fuel _ _ => fuel


/-- Loop of `AVERAGEIF`: running `(sum, count)`. -/
def averageifGo (fops : FloatOps) (cells : CellMap) :
    Nat → List (Nat × Nat) → List Char → List (Nat × Nat) →
      List (Nat × (Nat × Nat)) → EvalRes (ℚ × Nat)
  | 0, _, _, _, _ => .fuelOut
  | fuel + 1, stack, criteria, avgRange, l =>
    match l with
    | [] => pure (0, 0)
    | (i, (c, r)) :: rest => do
      let m ← matchesCriteria fops cells fuel stack c r criteria
      let add ←
        if m then
          match avgRange.get? i with
          | some (ac, ar) =>
            match evalCell fops cells fuel stack ac ar with
            | .fuelOut => EvalRes.fuelOut
            | .ok (.number n) => pure ((n, 1) : ℚ × Nat)
            | _ => pure ((0, 0) : ℚ × Nat)
          | none => pure ((0, 0) : ℚ × Nat)
        else pure ((0, 0) : ℚ × Nat)
      let more ← averageifGo fops cells fuel stack criteria avgRange rest
      pure (add.1 + more.1, add.2 + more.2)
termination_by structural fuel _ _ _ _ => fuel


/-- `Engine::func_vlookup` (`engine.rs` lines 310-328). -/
def funcVlookup (fops : FloatOps) (cells : CellMap) :
    Nat → List (Nat × Nat) → List Char → EvalRes CellValue
  | 0, _, _ => .fuelOut
  | fuel + 1, stack, argsStr =>
    match splitArgs argsStr with
    | a0 :: a1 :: a2 :: rest => do
      let lookupVal ← evalExpr fops cells fuel stack a0
      let range ← parseRange a1
      let colIdxVal ← evalExpr fops cells fuel stack a2
      let colIdxQ ← toNumber colIdxVal
      let colIdx := qToUsize colIdxQ
      let exactMode ←
        match rest with
        | a3 :: _ => do
          let v ← evalExpr fops cells fuel stack a3
          let b ← toBool v
          pure (!b)
        | [] => pure false
      if colIdx = 0 then pure (.error .value)
      else
        let minCol := listMin (range.map Prod.fst)
        let minRow := listMin (range.map Prod.snd)
        let maxRow := listMax (range.map Prod.snd)
        vlookupScan fops cells fuel stack lookupVal exactMode minCol colIdx
          (rangeIncl minRow maxRow)
    | _ => EvalRes.err ("#VALUE!".toList)
termination_by structural fuel _ _ => fuel


/-- Row scan of `VLOOKUP`. -/
def vlookupScan (fops : FloatOps) (cells : CellMap) :
    Nat → List (Nat × Nat) → CellValue → Bool → Nat → Nat → List Nat → EvalRes CellValue
  | 0, _, _, _, _, _, _ => .fuelOut
  | fuel + 1, stack, lookupVal, exactMode, minCol, colIdx, rows =>
    match rows with
    | [] => pure (.error .na)
    | row :: rest => do
      let cellVal ← evalCell fops cells fuel stack minCol row
      let hit := if exactMode then cellEq lookupVal cellVal else cellLte cellVal lookupVal
      if hit then evalCell fops cells fuel stack (minCol + colIdx - 1) row
      else vlookupScan fops cells fuel stack lookupVal exactMode minCol colIdx rest
termination_by structural fuel _ _ _ _ _ _ => fuel


/-- `Engine::func_hlookup` (`engine.rs` lines 330-348). -/
def funcHlookup (fops : FloatOps) (cells : CellMap) :
    Nat → List (Nat × Nat) → List Char → EvalRes CellValue
  | 0, _, _ => .fuelOut
  | fuel + 1, stack, argsStr =>
    match splitArgs argsStr with
    | a0 :: a1 :: a2 :: rest => do
      let lookupVal ← evalExpr fops cells fuel stack a0
      let range ← parseRange a1
      let rowIdxVal ← evalExpr fops cells fuel stack a2
      let rowIdxQ ← toNumber rowIdxVal
      let rowIdx := qToUsize rowIdxQ
      let exactMode ←
        match rest with
        | a3 :: _ => do
          let v ← evalExpr fops cells fuel stack a3
          let b ← toBool v
          pure (!b)
        | [] => pure false
      if rowIdx = 0 then pure (.error .value)
      else
        let minCol := listMin (range.map Prod.fst)
        let maxCol := listMax (range.map Prod.fst)
        let minRow := listMin (range.map Prod.snd)
        hlookupScan fops cells fuel stack lookupVal exactMode minRow rowIdx
          (rangeIncl minCol maxCol)
    | _ => EvalRes.err ("#VALUE!".toList)
termination_by structural fuel _ _ => fuel


/-- Column scan of `HLOOKUP`. -/
def hlookupScan (fops : FloatOps) (cells : CellMap) :
    Nat → List (Nat × Nat) → CellValue → Bool → Nat → Nat → List Nat → EvalRes CellValue
  | 0, _, _, _, _, _, _ => .fuelOut
  | fuel + 1, stack, lookupVal, exactMode, minRow, rowIdx, cols =>
    match cols with
    | [] => pure (.error .na)
    | col :: rest => do
      let cellVal ← evalCell fops cells fuel stack col minRow
      let hit := if exactMode then cellEq lookupVal cellVal else cellLte cellVal lookupVal
      if hit then evalCell fops cells fuel stack col (minRow + rowIdx - 1)
      else hlookupScan fops cells fuel stack lookupVal exactMode minRow rowIdx rest
termination_by structural fuel _ _ _ _ _ _ => fuel


/-- `Engine::func_index` (`engine.rs` lines 350-361). -/
def funcIndex (fops : FloatOps) (cells : CellMap) :
    Nat → List (Nat × Nat) → List Char → EvalRes CellValue
  | 0, _, _ => .fuelOut
  | fuel + 1, stack, argsStr =>
    match splitArgs argsStr with
    | a0 :: a1 :: rest => do
      let range ← parseRange a0
      let rowNumVal ← evalExpr fops cells fuel stack a1
      let rowNumQ ← toNumber rowNumVal
      let rowNum := qToUsize rowNumQ
      let colNum ←
        match rest with
        | a2 :: _ => do
          let v ← evalExpr fops cells fuel stack a2
          let q ← toNumber v
          pure (qToUsize q)
        | [] => pure 1
      let minCol := listMin (range.map Prod.fst)
      let minRow := listMin (range.map Prod.snd)
      if rowNum = 0 ∨ colNum = 0 then pure (.error .value)
      else evalCell fops cells fuel stack (minCol + colNum - 1) (minRow + rowNum - 1)
    | _ => EvalRes.err ("#VALUE!".toList)
termination_by structural fuel _ _ => fuel


/-- `Engine::func_match` (`engine.rs` lines 363-374). -/
def funcMatch (fops : FloatOps) (cells : CellMap) :
    Nat → List (Nat × Nat) → List Char → EvalRes CellValue
  | 0, _, _ => .fuelOut
  | fuel + 1, stack, argsStr =>
    match splitArgs argsStr with
    | a0 :: a1 :: rest => do
      let lookupVal ← evalExpr fops cells fuel stack a0
      let range ← parseRange a1
      let _ ←
        match rest with
        | a2 :: _ => do
          let v ← evalExpr fops cells fuel stack a2
          let q ← toNumber v
          pure (qToI32 q)
        | [] => pure 1
      matchScan fops cells fuel stack lookupVal range.enum
    | _ => EvalRes.err ("#VALUE!".toList)
termination_by structural fuel _ _ => fuel


/-- Scan of `MATCH` (1-based position of the first `cell_eq` hit). -/
def matchScan (fops : FloatOps) (cells : CellMap) :
    Nat → List (Nat × Nat) → CellValue → List (Nat × (Nat × Nat)) → EvalRes CellValue
  | 0, _, _, _ => .fuelOut
  | fuel + 1, stack, lookupVal, l =>
    match l with
    | [] => pure (.error .na)
    | (i, (c, r)) :: rest => do
      let cellVal ← evalCell fops cells fuel stack c r
      if cellEq lookupVal cellVal then pure (.number ((i + 1 : Nat) : ℚ))
      else matchScan fops cells fuel stack lookupVal rest
termination_by structural fuel _ _ _ => fuel


/-- `Engine::func_left` (`engine.rs` lines 376-383). -/
def funcLeft (fops : FloatOps) (cells : CellMap) :
    Nat → List (Nat × Nat) → List Char → EvalRes CellValue
  | 0, _, _ => .fuelOut
  | fuel + 1, stack, argsStr =>
    match splitArgs argsStr with
    | a0 :: rest => do
      let v ← evalExpr fops cells fuel stack a0
      let text := cvToString fops v
      let num ←
        match rest with
        | a1 :: _ => do
          let v1 ← evalExpr fops cells fuel stack a1
          let q ← toNumber v1
          pure (qToUsize q)
        | [] => pure 1
      pure (.text (text.take num))
    | [] => EvalRes.err ("#VALUE!".toList)
termination_by structural fuel _ _ => fuel


/-- `Engine::func_right` (`engine.rs` lines 385-393). -/
def funcRight (fops : FloatOps) (cells : CellMap) :
    Nat → List (Nat × Nat) → List Char → EvalRes CellValue
  | 0, _, _ => .fuelOut
  | fuel + 1, stack, argsStr =>
    match splitArgs argsStr with
    | a0 :: rest => do
      let v ← evalExpr fops cells fuel stack a0
      let text := cvToString fops v
      let num ←
        match rest with
        | a1 :: _ => do
          let v1 ← evalExpr fops cells fuel stack a1
          let q ← toNumber v1
          pure (qToUsize q)
        | [] => pure 1
      pure (.text (text.drop (text.length - num)))
    | [] => EvalRes.err ("#VALUE!".toList)
termination_by structural fuel _ _ => fuel


/-- `Engine::func_mid` (`engine.rs` lines 395-406). -/
def funcMid (fops : FloatOps) (cells : CellMap) :
    Nat → List (Nat × Nat) → List Char → EvalRes CellValue
  | 0, _, _ => .fuelOut
  | fuel + 1, stack, argsStr =>
    match splitArgs argsStr with
    | a0 :: a1 :: a2 :: _ => do
      let v ← evalExpr fops cells fuel stack a0
      let text := cvToString fops v
      let startVal ← evalExpr fops cells fuel stack a1
      let startQ ← toNumber startVal
      let startN := qToUsize startQ
      let numVal ← evalExpr fops cells fuel stack a2
      let numQ ← toNumber numVal
      let num := qToUsize numQ
      if startN = 0 then pure (.error .value)
      else pure (.text ((text.drop (startN - 1)).take num))
    | _ => EvalRes.err ("#VALUE!".toList)
termination_by structural fuel _ _ => fuel


/-- `Engine::func_len` (`engine.rs` lines 408-411). -/
def funcLen (fops : FloatOps) (cells : CellMap) :
    Nat → List (Nat × Nat) → List Char → EvalRes CellValue
  | 0, _, _ => .fuelOut
  | fuel + 1, stack, argsStr => do
    let v ← evalExpr fops cells fuel stack argsStr
    pure (.number ((cvToString fops v).length : ℚ))
termination_by structural fuel _ _ => fuel


/-- `Engine::func_trim` (`engine.rs` lines 413-416). -/
def funcTrim (fops : FloatOps) (cells : CellMap) :
    Nat → List (Nat × Nat) → List Char → EvalRes CellValue
  | 0, _, _ => .fuelOut
  | fuel + 1, stack, argsStr => do
    let v ← evalExpr fops cells fuel stack argsStr
    pure (.text (splitWhitespaceJoin (cvToString fops v)))
termination_by structural fuel _ _ => fuel


/-- `Engine::func_upper` (`engine.rs` lines 418-421). -/
def funcUpper (fops : FloatOps) (cells : CellMap) :
    Nat → List (Nat × Nat) → List Char → EvalRes CellValue
  | 0, _, _ => .fuelOut
  | fuel + 1, stack, argsStr => do
    let v ← evalExpr fops cells fuel stack argsStr
    pure (.text ((cvToString fops v).map toUpperChar))
termination_by structural fuel _ _ => fuel


/-- `Engine::func_lower` (`engine.rs` lines 423-426). -/
def funcLower (fops : FloatOps) (cells : CellMap) :
    Nat → List (Nat × Nat) → List Char → EvalRes CellValue
  | 0, _, _ => .fuelOut
  | fuel + 1, stack, argsStr => do
    let v ← evalExpr fops cells fuel stack argsStr
    pure (.text ((cvToString fops v).map toLowerChar))
termination_by structural fuel _ _ => fuel


/-- `Engine::func_abs` (`engine.rs` lines 428-431). -/
def funcAbs (fops : FloatOps) (cells : CellMap) :
    Nat → List (Nat × Nat) → List Char → EvalRes CellValue
  | 0, _, _ => .fuelOut
  | fuel + 1, stack, argsStr => do
    let v ← evalExpr fops cells fuel stack argsStr
    let n ← toNumber v
    pure (.number |n|)
termination_by structural fuel _ _ => fuel


/-- `Engine::func_round` (`engine.rs` lines 433-440).  The source indexes
`args[0]` unconditionally and panics on an empty argument list; the panic is
modelled as a `#VALUE!` error. -/
def funcRound (fops : FloatOps) (cells : CellMap) :
    Nat → List (Nat × Nat) → List Char → EvalRes CellValue
  | 0, _, _ => .fuelOut
  | fuel + 1, stack, argsStr =>
    match splitArgs argsStr with
    | a0 :: rest => do
      let v ← evalExpr fops cells fuel stack a0
      let n ← toNumber v
      let decimals ←
        match rest with
        | a1 :: _ => do
          let v1 ← evalExpr fops cells fuel stack a1
          let q ← toNumber v1
          pure (qToI32 q)
        | [] => pure 0
      let factor : ℚ := (10 : ℚ) ^ decimals
      pure (.number (roundHalfAway (n * factor) / factor))
    | [] => EvalRes.err ("#VALUE!".toList)
termination_by structural fuel _ _ => fuel


/-- `Engine::func_int` (`engine.rs` lines 442-445). -/
def funcInt (fops : FloatOps) (cells : CellMap) :
    Nat → List (Nat × Nat) → List Char → EvalRes CellValue
  | 0, _, _ => .fuelOut
  | fuel + 1, stack, argsStr => do
    let v ← evalExpr fops cells fuel stack argsStr
    let n ← toNumber v
    pure (.number (n.floor : ℚ))
termination_by structural fuel _ _ => fuel


/-- `Engine::func_mod` (`engine.rs` lines 447-456). -/
def funcMod (fops : FloatOps) (cells : CellMap) :
    Nat → List (Nat × Nat) → List Char → EvalRes CellValue
  | 0, _, _ => .fuelOut
  | fuel + 1, stack, argsStr =>
    match splitArgs argsStr with
    | a0 :: a1 :: _ => do
      let dividendVal ← evalExpr fops cells fuel stack a0
      let divisorVal ← evalExpr fops cells fuel stack a1
      let dividend ← toNumber dividendVal
      let divisor ← toNumber divisorVal
      if divisor = 0 then pure (.error .divZero)
      else pure (.number (f64Rem dividend divisor))
    | _ => EvalRes.err ("#VALUE!".toList)
termination_by structural fuel _ _ => fuel


/-- `Engine::func_power` (`engine.rs` lines 458-464). -/
def funcPower (fops : FloatOps) (cells : CellMap) :
    Nat → List (Nat × Nat) → List Char → EvalRes CellValue
  | 0, _, _ => .fuelOut
  | fuel + 1, stack, argsStr =>
    match splitArgs argsStr with
    | a0 :: a1 :: _ => do
      let baseVal ← evalExpr fops cells fuel stack a0
      let expVal ← evalExpr fops cells fuel stack a1
      let b ← toNumber baseVal
      let e ← toNumber expVal
      pure (.number (fops.powQ b e))
    | _ => EvalRes.err ("#VALUE!".toList)
termination_by structural fuel _ _ => fuel


/-- `Engine::func_sqrt` (`engine.rs` lines 466-471). -/
def funcSqrt (fops : FloatOps) (cells : CellMap) :
    Nat → List (Nat × Nat) → List Char → EvalRes CellValue
  | 0, _, _ => .fuelOut
  | fuel + 1, stack, argsStr => do
    let v ← evalExpr fops cells fuel stack argsStr
    let n ← toNumber v
    if n < 0 then pure (.error .num)
    else pure (.number (fops.sqrtQ n))
termination_by structural fuel _ _ => fuel


/-- `Engine::func_and` (`engine.rs` lines 473-479). -/
def funcAnd (fops : FloatOps) (cells : CellMap) :
    Nat → List (Nat × Nat) → List Char → EvalRes CellValue
  | 0, _, _ => .fuelOut
  | fuel + 1, stack, argsStr => andGo fops cells fuel stack (splitArgs argsStr)
termination_by structural fuel _ _ => fuel


/-- Loop of `AND` with early `false` exit. -/
def andGo (fops : FloatOps) (cells : CellMap) :
    Nat → List (Nat × Nat) → List (List Char) → EvalRes CellValue
  | 0, _, _ => .fuelOut
  | fuel + 1, stack, args =>
    match args with
    | [] => pure (.boolean true)
    | a :: rest => do
      let v ← evalExpr fops cells fuel stack a
      let b ← toBool v
      if !b then pure (.boolean false)
      else andGo fops cells fuel stack rest
termination_by structural fuel _ _ => fuel


/-- `Engine::func_or` (`engine.rs` lines 481-487). -/
def funcOr (fops : FloatOps) (cells : CellMap) :
    Nat → List (Nat × Nat) → List Char → EvalRes CellValue
  | 0, _, _ => .fuelOut
  | fuel + 1, stack, argsStr => orGo fops cells fuel stack (splitArgs argsStr)
termination_by structural fuel _ _ => fuel


/-- Loop of `OR` with early `true` exit. -/
def orGo (fops : FloatOps) (cells : CellMap) :
    Nat → List (Nat × Nat) → List (List Char) → EvalRes CellValue
  | 0, _, _ => .fuelOut
  | fuel + 1, stack, args =>
    match args with
    | [] => pure (.boolean false)
    | a :: rest => do
      let v ← evalExpr fops cells fuel stack a
      let b ← toBool v
      if b then pure (.boolean true)
      else orGo fops cells fuel stack rest
termination_by structural fuel _ _ => fuel


/-- `Engine::func_not` (`engine.rs` lines 489-492). -/
def funcNot (fops : FloatOps) (cells : CellMap) :
    Nat → List (Nat × Nat) → List Char → EvalRes CellValue
  | 0, _, _ => .fuelOut
  | fuel + 1, stack, argsStr => do
    let v ← evalExpr fops cells fuel stack argsStr
    let b ← toBool v
    pure (.boolean (!b))
termination_by structural fuel _ _ => fuel


/-- `Engine::func_concat` (`engine.rs` lines 494-501). -/
def funcConcat (fops : FloatOps) (cells : CellMap) :
    Nat → List (Nat × Nat) → List Char → EvalRes CellValue
  | 0, _, _ => .fuelOut
  | fuel + 1, stack, argsStr => do
    let acc ← concatGo fops cells fuel stack (splitArgs argsStr)
    pure (.text acc)
termination_by structural fuel _ _ => fuel


/-- Loop of `CONCATENATE`. -/
def concatGo (fops : FloatOps) (cells : CellMap) :
    Nat → List (Nat × Nat) → List (List Char) → EvalRes (List Char)
  | 0, _, _ => .fuelOut
  | fuel + 1, stack, args =>
    match args with
    | [] => pure []
    | a :: rest => do
      let v ← evalExpr fops cells fuel stack a
      let more ← concatGo fops cells fuel stack rest
      pure (cvToString fops v ++ more)
termination_by structural fuel _ _ => fuel


/-- `Engine::func_iferror` (`engine.rs` lines 503-510): the only recovery
point; both `Ok(Error(_))` and `Err(_)` divert to the second argument. -/
def funcIferror (fops : FloatOps) (cells : CellMap) :
    Nat → List (Nat × Nat) → List Char → EvalRes CellValue
  | 0, _, _ => .fuelOut
  | fuel + 1, stack, argsStr =>
    match splitArgs argsStr with
    | a0 :: a1 :: _ =>
      match evalExpr fops cells fuel stack a0 with
      | .ok (.error _) => evalExpr fops cells fuel stack a1
      | .err _ => evalExpr fops cells fuel stack a1
      | .fuelOut => .fuelOut
      | .ok v => pure v
    | _ => EvalRes.err ("#VALUE!".toList)
termination_by structural fuel _ _ => fuel


/-- `Engine::func_isblank` (`engine.rs` lines 512-514). -/
def funcIsblank (fops : FloatOps) (cells : CellMap) :
    Nat → List (Nat × Nat) → List Char → EvalRes CellValue
  | 0, _, _ => .fuelOut
  | fuel + 1, stack, argsStr => do
    let v ← evalExpr fops cells fuel stack argsStr
    match v with
    | .empty => pure (.boolean true)
    | _ => pure (.boolean false)
termination_by structural fuel _ _ => fuel


/-- `Engine::func_isnumber` (`engine.rs` lines 516-518). -/
def funcIsnumber (fops : FloatOps) (cells : CellMap) :
    Nat → List (Nat × Nat) → List Char → EvalRes CellValue
  | 0, _, _ => .fuelOut
  | fuel + 1, stack, argsStr => do
    let v ← evalExpr fops cells fuel stack argsStr
    match v with
    | .number _ => pure (.boolean true)
    | _ => pure (.boolean false)
termination_by structural fuel _ _ => fuel


/-- `Engine::func_istext` (`engine.rs` lines 520-522). -/
def funcIstext (fops : FloatOps) (cells : CellMap) :
    Nat → List (Nat × Nat) → List Char → EvalRes CellValue
  | 0, _, _ => .fuelOut
  | fuel + 1, stack, argsStr => do
    let v ← evalExpr fops cells fuel stack argsStr
    match v with
    | .text _ => pure (.boolean true)
    | _ => pure (.boolean false)
termination_by structural fuel _ _ => fuel


end

/-! ## `sheet.rs`: the sheet and its operations -/

/-- `Sheet` (`sheet.rs` lines 11-16): name, sparse cells, sparse column
widths (a width equal to the default is removed from the map). -/
structure Sheet where
  name : List Char
  cells : CellMap
  col_widths : Nat → Option Nat

/-- `Sheet::new`. -/
def Sheet.new : Sheet := ⟨"Sheet1".toList, fun _ => none, fun _ => none⟩

/-- `Sheet::set_cell` on the cell map (`sheet.rs` lines 54-61):
whitespace-only input removes the entry; anything else is parsed and
inserted through `Cell::new`. -/
def setCellMap (m : CellMap) (c r : Nat) (input : List Char) : CellMap :=
  if trimChars input = [] then fun k => if k = (c, r) then none else m k
  else fun k => if k = (c, r) then some (Cell.new input (parseInput input)) else m k

/-- `Sheet::set_cell`. -/
def Sheet.setCell (sh : Sheet) (c r : Nat) (input : List Char) : Sheet :=
  { sh with cells := setCellMap sh.cells c r input }

/-- `Sheet::clear_cell` (`sheet.rs` lines 63-65). -/
def Sheet.clearCell (sh : Sheet) (c r : Nat) : Sheet :=
  { sh with cells := fun k => if k = (c, r) then none else sh.cells k }

/-- `Sheet::evaluate` (`sheet.rs` lines 71-94): evaluated display string of a
cell; a formula runs the engine on a fresh (empty) evaluation stack.
`"#FUEL"` stands for an exhausted fuel budget, a modelling artifact with no
Rust counterpart. -/
def Sheet.evaluate (fops : FloatOps) (sh : Sheet) (fuel : Nat) (c r : Nat) : List Char :=
  let cell := (sh.cells (c, r)).getD Cell.default
  match cell.value with
  | .empty => []
  | .number n => formatNumber fops cell.format n
  | .text s => s
  | .boolean b => if b then "TRUE".toList else "FALSE".toList
  | .error e => e.glyph
  | .formula f =>
    match evalFormula fops sh.cells fuel [] f with
    | .ok result =>
      match result with
      | .number n => formatNumber fops cell.format n
      | .text s => s
      | .boolean b => if b then "TRUE".toList else "FALSE".toList
      | .error e => e.glyph
      | .empty => []
      | .formula _ => "ERR".toList
    | .err e => e
    | .fuelOut => "#FUEL".toList

/-- `Sheet::delete_row` (`sheet.rs` lines 133-149): drop row `row`, shift the
rows above it down by one. -/
def deleteRowCells (m : CellMap) (row : Nat) : CellMap :=
  fun k => if k.2 < row then m k else m (k.1, k.2 + 1)

/-- `Sheet::insert_row` (`sheet.rs` lines 151-165). -/
def insertRowCells (m : CellMap) (row : Nat) : CellMap :=
  fun k => if k.2 < row then m k else if k.2 = row then none else m (k.1, k.2 - 1)

/-- `Sheet::delete_col` (`sheet.rs` lines 168-184). -/
def deleteColCells (m : CellMap) (col : Nat) : CellMap :=
  fun k => if k.1 < col then m k else m (k.1 + 1, k.2)

/-- `Sheet::insert_col` (`sheet.rs` lines 186-200). -/
def insertColCells (m : CellMap) (col : Nat) : CellMap :=
  fun k => if k.1 < col then m k else if k.1 = col then none else m (k.1 - 1, k.2)

/-- One cell of the `Sheet::adjust_formulas_for_*` passes (`sheet.rs` lines
202-264): formulas (raw input starting with `=`) whose rewrite differs are
re-stored through `Cell::new` (which resets the format to General). -/
def adjustCellWith (ch : StructureChange) (cell : Cell) : Cell :=
  if cell.raw_input.head? = some '=' then
    let adjusted := adjustFormulaForStructureChange ch cell.raw_input
    if adjusted ≠ cell.raw_input then Cell.new adjusted (parseInput adjusted) else cell
  else cell

/-- The whole-map formula adjustment pass: every present entry is rewritten
in place (keys are unchanged). -/
def adjustFormulasFor (ch : StructureChange) (m : CellMap) : CellMap :=
  fun k => (m k).map (adjustCellWith ch)

/-- Structural row delete as the command layer performs it
(`commands.rs` lines 143-146, `main.rs` lines 367-381): adjust formulas,
then shift the cells. -/
def Sheet.deleteRowOp (sh : Sheet) (row : Nat) : Sheet :=
  { sh with cells := deleteRowCells (adjustFormulasFor (.rowDelete row) sh.cells) row }

def Sheet.insertRowOp (sh : Sheet) (row : Nat) : Sheet :=
  { sh with cells := insertRowCells (adjustFormulasFor (.rowInsert row) sh.cells) row }

def Sheet.deleteColOp (sh : Sheet) (col : Nat) : Sheet :=
  { sh with cells := deleteColCells (adjustFormulasFor (.colDelete col) sh.cells) col }

def Sheet.insertColOp (sh : Sheet) (col : Nat) : Sheet :=
  { sh with cells := insertColCells (adjustFormulasFor (.colInsert col) sh.cells) col }

/-! ## `main.rs`: clipboard paste and the undo/redo machinery -/

/-- `ClipboardContent` (`main.rs`): the snapshot keeps `(raw_input, value)`
per cell; only the raw input is read back by paste. -/
structure ClipboardContent where
  cells : List (List (List Char))
  start_col : Nat
  start_row : Nat
  width : Nat
  height : Nat

inductive EditAxis where
  | row
  | column

/-- One paste pass of `App::paste` (`main.rs` lines 688-706): each source
cell is written at the destination offset; formulas are rewritten with
`adjust_formula` by the cursor displacement. -/
def pasteOnce (clip : ClipboardContent) (pasteCol pasteRow : Nat) (m : CellMap) : CellMap :=
  clip.cells.enum.foldl
    (fun m1 rd =>
      rd.2.enum.foldl
        (fun m2 cd =>
          let dstCol := pasteCol + cd.1
          let dstRow := pasteRow + rd.1
          let raw := cd.2
          let adjusted :=
            if raw.head? = some '=' then
              adjustFormula raw ((dstCol : Int) - (clip.start_col : Int) - (cd.1 : Int))
                ((dstRow : Int) - (clip.start_row : Int) - (rd.1 : Int))
            else raw
          setCellMap m2 dstCol dstRow adjusted)
        m1)
    m

/-- The count loop of `App::paste` (`main.rs` lines 688-713), advancing along
the current axis by the clipboard dimension between passes. -/
def pasteLoop (clip : ClipboardContent) (axis : EditAxis) :
    Nat → Nat → Nat → CellMap → CellMap
  | 0, _, _, m => m
  | n + 1, pc, pr, m =>
    let m1 := pasteOnce clip pc pr m
    match axis with
    | .row => pasteLoop clip axis n (pc + clip.width) pr m1
    | .column => pasteLoop clip axis n pc (pr + clip.height) m1

/-- App state relevant to undo/redo: the sheet and the two snapshot stacks.
Stacks are newest-first (`Vec::push`/`Vec::pop` act on our list head;
`Vec::remove(0)` drops our last element). -/
structure AppState where
  sheet : Sheet
  undo_stack : List Sheet
  redo_stack : List Sheet

/-- `App::save_undo` (`main.rs` lines 132-138): push a snapshot, clear the
redo stack, and evict the oldest snapshot past 100 entries. -/
def saveUndo (a : AppState) : AppState :=
  let pushed := a.sheet :: a.undo_stack
  { a with
      undo_stack := if pushed.length > 100 then pushed.dropLast else pushed
      redo_stack := [] }

/-- `App::undo` (`main.rs` lines 140-148). -/
def appUndo (a : AppState) : AppState :=
  match a.undo_stack with
  | [] => a
  | prev :: rest => ⟨prev, rest, a.sheet :: a.redo_stack⟩

/-- `App::redo` (`main.rs` lines 150-158). -/
def appRedo (a : AppState) : AppState :=
  match a.redo_stack with
  | [] => a
  | next :: rest => ⟨next, a.sheet :: a.undo_stack, rest⟩

/-- The single mutating operations of the claim: commit of a non-empty edit
buffer (`main.rs` lines 1411-1416), the structural operations
(`commands.rs` lines 137-184), cell clear (`main.rs` lines 440-444), sheet
reset (`commands.rs` lines 185-194), and paste (`main.rs` lines 676-720).
Each case is the sheet mutation the source performs after `save_undo`. -/
inductive MutOp where
  | commitInput (c r : Nat) (input : List Char)
  | deleteRowAt (row : Nat)
  | insertRowAt (row : Nat)
  | deleteColAt (col : Nat)
  | insertColAt (col : Nat)
  | clearCellAt (c r : Nat)
  | clearSheet
  | pasteAt (clip : ClipboardContent) (axis : EditAxis) (count : Nat) (c r : Nat)

def MutOp.applySheet : MutOp → Sheet → Sheet
  | .commitInput c r input, sh => sh.setCell c r input
  | .deleteRowAt row, sh => sh.deleteRowOp row
  | .insertRowAt row, sh => sh.insertRowOp row
  | .deleteColAt col, sh => sh.deleteColOp col
  | .insertColAt col, sh => sh.insertColOp col
  | .clearCellAt c r, sh => sh.clearCell c r
  | .clearSheet, _ => Sheet.new
  | .pasteAt clip axis count c r, sh =>
    { sh with cells := pasteLoop clip axis count c r sh.cells }

/-- A mutating operation as the source performs it: `save_undo`, then the
sheet mutation. -/
def MutOp.run (op : MutOp) (a : AppState) : AppState :=
  let a1 := saveUndo a
  { a1 with sheet := op.applySheet a1.sheet }

/-! ## Sheet-level operation sequences (for the cell invariant) -/

/-- The operations quantified over by the invariant claim: `set_cell`,
`clear_cell`, and the four structural operations (each performed as the
command layer does: formula adjustment, then the shift). -/
inductive SheetOp where
  | set (c r : Nat) (input : List Char)
  | clear (c r : Nat)
  | delRow (r : Nat)
  | insRow (r : Nat)
  | delCol (c : Nat)
  | insCol (c : Nat)

def SheetOp.apply : SheetOp → Sheet → Sheet
  | .set c r input, sh => sh.setCell c r input
  | .clear c r, sh => sh.clearCell c r
  | .delRow r, sh => sh.deleteRowOp r
  | .insRow r, sh => sh.insertRowOp r
  | .delCol c, sh => sh.deleteColOp c
  | .insCol c, sh => sh.insertColOp c

def applyOps (ops : List SheetOp) (sh : Sheet) : Sheet :=
  ops.foldl (fun s o => o.apply s) sh

/-- The invariant of the claim: every present entry's value is the
classification of its raw input, and no entry has whitespace-only raw input. -/
def CellInv (m : CellMap) : Prop :=
  ∀ k cell, m k = some cell →
    cell.value = parseInput cell.raw_input ∧ trimChars cell.raw_input ≠ []

/-! ### Supporting lemmas for the invariant -/

theorem mem_dropWhile_of_neg {p : Char → Bool} {c : Char} :
    ∀ {l : List Char}, c ∈ l → p c = false → c ∈ l.dropWhile p := by
  intro l
  induction l with
  | nil => intro h _; exact absurd h (List.not_mem_nil c)
  | cons a t ih =>
    intro hc hp
    by_cases ha : p a = true
    · rw [List.dropWhile_cons_of_pos ha]
      rcases List.mem_cons.mp hc with rfl | hct
      · rw [hp] at ha; exact absurd ha (by simp)
      · exact ih hct hp
    · rw [List.dropWhile_cons_of_neg ha]
      exact hc

theorem trimChars_ne_nil_of_mem {s : List Char} {c : Char}
    (hc : c ∈ s) (h : isSpaceChar c = false) : trimChars s ≠ [] := by
  unfold trimChars
  have h1 : c ∈ s.dropWhile isSpaceChar := mem_dropWhile_of_neg hc h
  have h2 : c ∈ (s.dropWhile isSpaceChar).reverse := List.mem_reverse.mpr h1
  have h3 : c ∈ (s.dropWhile isSpaceChar).reverse.dropWhile isSpaceChar :=
    mem_dropWhile_of_neg h2 h
  have h4 : c ∈ ((s.dropWhile isSpaceChar).reverse.dropWhile isSpaceChar).reverse :=
    List.mem_reverse.mpr h3
  exact List.ne_nil_of_mem h4

/-- The rewriters pass a leading `=` through unchanged: it is neither a
quote nor the start of a reference scan. -/
theorem adjustLoopGo_eq_head (ch : StructureChange) (fuel : Nat) (rest : List Char) :
    adjustLoopGo ch (fuel + 1) ('=' :: rest) = '=' :: adjustLoopGo ch fuel rest := by
  have hsc : scanRef ('=' :: rest) =
      ⟨false, [], false, [], '=' :: rest⟩ := by
    unfold scanRef splitDollar
    have hd : ('=' : Char) = '$' ↔ False := by constructor <;> (intro h; revert h; decide)
    have ha : isAlphaChar '=' = false := by decide
    have hg : isDigitChar '=' = false := by decide
    simp [hd, List.takeWhile_cons, List.dropWhile_cons, ha, hg]
  conv_lhs => rw [adjustLoopGo]
  rw [if_neg (show ¬ ('=' : Char) = '"' by decide), hsc,
    if_neg (show ¬ (([] : List Char) ≠ [] ∧ ([] : List Char) ≠ []) by simp),
    if_pos (show (⟨false, [], false, [], '=' :: rest⟩ : RefScan).consumed = [] from rfl)]

theorem adjustFormulaForStructureChange_head (ch : StructureChange) (rest : List Char) :
    adjustFormulaForStructureChange ch ('=' :: rest)
      = '=' :: adjustLoopGo ch rest.length rest := by
  unfold adjustFormulaForStructureChange
  rw [show ('=' :: rest).length = rest.length + 1 from rfl, adjustLoopGo_eq_head]

/-- `adjust_formulas_for_*` preserves the cell invariant cellwise. -/
theorem adjustCellWith_inv (ch : StructureChange) (cell : Cell)
    (h : cell.value = parseInput cell.raw_input ∧ trimChars cell.raw_input ≠ []) :
    (adjustCellWith ch cell).value = parseInput (adjustCellWith ch cell).raw_input ∧
      trimChars (adjustCellWith ch cell).raw_input ≠ [] := by
  unfold adjustCellWith
  by_cases hh : cell.raw_input.head? = some '='
  · rw [if_pos hh]
    by_cases hne : adjustFormulaForStructureChange ch cell.raw_input ≠ cell.raw_input
    · rw [if_pos hne]
      refine ⟨rfl, ?_⟩
      obtain ⟨rest, hrest⟩ : ∃ rest, cell.raw_input = '=' :: rest := by
        cases hr : cell.raw_input with
        | nil => rw [hr] at hh; exact absurd hh (by simp)
        | cons c t =>
          rw [hr] at hh
          simp only [List.head?_cons, Option.some.injEq] at hh
          exact ⟨t, by rw [hh]⟩
      rw [hrest, adjustFormulaForStructureChange_head]
      exact trimChars_ne_nil_of_mem (List.mem_cons_self _ _) (by decide)
    · rw [if_neg hne]; exact h
  · rw [if_neg hh]; exact h

theorem CellInv_adjustFormulasFor {m : CellMap} (ch : StructureChange)
    (h : CellInv m) : CellInv (adjustFormulasFor ch m) := by
  intro k cell hk
  unfold adjustFormulasFor at hk
  cases hm : m k with
  | none => rw [hm] at hk; exact absurd hk (by simp)
  | some orig =>
    rw [hm] at hk
    have hk2 : adjustCellWith ch orig = cell := Option.some.inj hk
    subst hk2
    exact adjustCellWith_inv ch orig (h k orig hm)

theorem CellInv_setCellMap {m : CellMap} (c r : Nat) (input : List Char)
    (h : CellInv m) : CellInv (setCellMap m c r input) := by
  intro k cell hk
  unfold setCellMap at hk
  by_cases ht : trimChars input = []
  · rw [if_pos ht] at hk
    by_cases hkk : k = (c, r)
    · rw [if_pos hkk] at hk; exact absurd hk (by simp)
    · rw [if_neg hkk] at hk; exact h k cell hk
  · rw [if_neg ht] at hk
    by_cases hkk : k = (c, r)
    · rw [if_pos hkk] at hk
      simp only [Option.some.injEq] at hk
      subst hk
      exact ⟨rfl, ht⟩
    · rw [if_neg hkk] at hk; exact h k cell hk

theorem CellInv_reindex {m : CellMap} (f : (Nat × Nat) → Option (Nat × Nat))
    (h : CellInv m) : CellInv (fun k => (f k).bind m) := by
  intro k cell hk
  simp only [Option.bind] at hk
  cases hf : f k with
  | none => rw [hf] at hk; exact absurd hk (by simp)
  | some k2 => rw [hf] at hk; exact h k2 cell hk

theorem CellInv_deleteRowCells {m : CellMap} (row : Nat) (h : CellInv m) :
    CellInv (deleteRowCells m row) := by
  intro k cell hk
  unfold deleteRowCells at hk
  by_cases hlt : k.2 < row
  · rw [if_pos hlt] at hk; exact h k cell hk
  · rw [if_neg hlt] at hk; exact h _ cell hk

theorem CellInv_insertRowCells {m : CellMap} (row : Nat) (h : CellInv m) :
    CellInv (insertRowCells m row) := by
  intro k cell hk
  unfold insertRowCells at hk
  by_cases hlt : k.2 < row
  · rw [if_pos hlt] at hk; exact h k cell hk
  · rw [if_neg hlt] at hk
    by_cases heq : k.2 = row
    · rw [if_pos heq] at hk; exact absurd hk (by simp)
    · rw [if_neg heq] at hk; exact h _ cell hk

theorem CellInv_deleteColCells {m : CellMap} (col : Nat) (h : CellInv m) :
    CellInv (deleteColCells m col) := by
  intro k cell hk
  unfold deleteColCells at hk
  by_cases hlt : k.1 < col
  · rw [if_pos hlt] at hk; exact h k cell hk
  · rw [if_neg hlt] at hk; exact h _ cell hk

theorem CellInv_insertColCells {m : CellMap} (col : Nat) (h : CellInv m) :
    CellInv (insertColCells m col) := by
  intro k cell hk
  unfold insertColCells at hk
  by_cases hlt : k.1 < col
  · rw [if_pos hlt] at hk; exact h k cell hk
  · rw [if_neg hlt] at hk
    by_cases heq : k.1 = col
    · rw [if_pos heq] at hk; exact absurd hk (by simp)
    · rw [if_neg heq] at hk; exact h _ cell hk

theorem CellInv_apply (op : SheetOp) (sh : Sheet) (h : CellInv sh.cells) :
    CellInv ((op.apply sh).cells) := by
  cases op with
  | set c r input => exact CellInv_setCellMap c r input h
  | clear c r =>
    intro k cell hk
    simp only [SheetOp.apply, Sheet.clearCell] at hk
    by_cases hkk : k = (c, r)
    · rw [if_pos hkk] at hk; exact absurd hk (by simp)
    · rw [if_neg hkk] at hk; exact h k cell hk
  | delRow r => exact CellInv_deleteRowCells r (CellInv_adjustFormulasFor _ h)
  | insRow r => exact CellInv_insertRowCells r (CellInv_adjustFormulasFor _ h)
  | delCol c => exact CellInv_deleteColCells c (CellInv_adjustFormulasFor _ h)
  | insCol c => exact CellInv_insertColCells c (CellInv_adjustFormulasFor _ h)

/-- C7: after any sequence of set/clear/structural operations, every present
entry satisfies `value = parse_input(raw_input)` and has non-blank raw input
(whitespace-only `set_cell` removes instead of storing). -/
theorem C7_cell_invariant :
    CellInv Sheet.new.cells ∧
    (∀ (ops : List SheetOp) (sh : Sheet), CellInv sh.cells →
      CellInv ((applyOps ops sh).cells)) := by
  constructor
  · intro k cell hk
    exact absurd hk (by simp [Sheet.new])
  · intro ops
    induction ops with
    | nil => intro sh h; exact h
    | cons op rest ih =>
      intro sh h
      exact ih (op.apply sh) (CellInv_apply op sh h)

/-- Witness for C7: one operation from the fresh sheet, checked at its key. -/
theorem C7_cell_invariant_witness :
    ∃ cell, (applyOps [SheetOp.set 0 0 ("2".toList)] Sheet.new).cells (0, 0) = some cell ∧
      cell.value = parseInput cell.raw_input ∧ trimChars cell.raw_input ≠ [] := by
  have h := C7_cell_invariant.2 [SheetOp.set 0 0 ("2".toList)] Sheet.new C7_cell_invariant.1
  have hc : (applyOps [SheetOp.set 0 0 ("2".toList)] Sheet.new).cells (0, 0)
      = some (Cell.new ("2".toList) (parseInput ("2".toList))) := by
    with_unfolding_all rfl
  exact ⟨_, hc, h _ _ hc⟩

/-! ## C6: undo and redo around a single mutating operation -/

/-- C6: performing any single mutating operation (commit, structural
insert/delete, clear, paste) and then `undo` restores the pre-operation
sheet; a following `redo` restores the post-operation sheet. -/
theorem C6_undo_redo (op : MutOp) (a : AppState) :
    (appUndo (op.run a)).sheet = a.sheet ∧
    (appRedo (appUndo (op.run a))).sheet = (op.run a).sheet := by
  obtain ⟨rest, hr⟩ : ∃ rest, (saveUndo a).undo_stack = a.sheet :: rest := by
    by_cases h : (a.sheet :: a.undo_stack).length > 100
    · cases hu : a.undo_stack with
      | nil =>
        rw [hu] at h
        simp at h
      | cons x l =>
        refine ⟨(x :: l).dropLast, ?_⟩
        simp only [saveUndo]
        rw [if_pos h, hu]
        rfl
    · refine ⟨a.undo_stack, ?_⟩
      simp only [saveUndo]
      rw [if_neg h]
  have hrun : op.run a = ⟨op.applySheet a.sheet, a.sheet :: rest, []⟩ := by
    show (⟨op.applySheet (saveUndo a).sheet, (saveUndo a).undo_stack,
      (saveUndo a).redo_stack⟩ : AppState) = _
    rw [hr]
    rfl
  rw [hrun]
  exact ⟨rfl, rfl⟩

/-! ## C9: characterisation of `parse_cell_ref` -/

theorem charOfNat_toNat {n : Nat} (h : n < 55296) : (Char.ofNat n).toNat = n := by
  simp only [Char.ofNat]
  rw [dif_pos]
  · rfl
  · left; omega

theorem toUpperChar_alpha_range {c : Char} (h : isAlphaChar c = true) :
    65 ≤ (toUpperChar c).toNat ∧ (toUpperChar c).toNat ≤ 90 := by
  simp only [isAlphaChar, Bool.or_eq_true, Bool.and_eq_true, decide_eq_true_eq] at h
  unfold toUpperChar
  by_cases hl : 97 ≤ c.toNat ∧ c.toNat ≤ 122
  · rw [if_pos (by simp only [Bool.and_eq_true, decide_eq_true_eq]; exact hl)]
    rw [charOfNat_toNat (by omega)]
    omega
  · rw [if_neg (by simp only [Bool.and_eq_true, decide_eq_true_eq]; exact hl)]
    omega

theorem foldl_letters_ge (l : List Char) :
    ∀ acc : Nat, acc ≤ l.foldl (fun a c => a * 26 + (c.toNat - 65 + 1)) acc := by
  induction l with
  | nil => intro acc; exact Nat.le_refl acc
  | cons c t ih =>
    intro acc
    exact Nat.le_trans (by omega) (ih (acc * 26 + (c.toNat - 65 + 1)))

theorem lettersVal_pos {l : List Char} (h : l ≠ []) : 1 ≤ lettersVal l := by
  cases l with
  | nil => exact absurd rfl h
  | cons c t =>
    unfold lettersVal
    simp only [List.foldl_cons]
    exact Nat.le_trans (by omega) (foldl_letters_ge t _)

/-- The canonical reference token used in the C9 statement. -/
def refToken (colAbs rowAbs : Bool) (ls ds : List Char) : List Char :=
  (if colAbs then ['$'] else []) ++ ls ++ (if rowAbs then ['$'] else []) ++ ds

theorem refToken_not_space (colAbs rowAbs : Bool) (ls ds : List Char)
    (hl : ∀ c ∈ ls, isAlphaChar c = true) (hd : ∀ c ∈ ds, isDigitChar c = true) :
    ∀ c ∈ refToken colAbs rowAbs ls ds, isSpaceChar c = false := by
  intro c hc
  unfold refToken at hc
  simp only [List.mem_append] at hc
  have hdollar : ∀ b : Bool, c ∈ (if b then ['$'] else ([] : List Char)) → c = '$' := by
    intro b hb
    cases b with
    | true => simpa using hb
    | false => simp at hb
  rcases hc with ((h1 | h2) | h3) | h4
  · rw [hdollar colAbs h1]; decide
  · have := hl c h2
    simp only [isAlphaChar, Bool.or_eq_true, Bool.and_eq_true, decide_eq_true_eq] at this
    exact not_space_of_ge (by omega)
  · rw [hdollar rowAbs h3]; decide
  · have := hd c h4
    simp only [isDigitChar, Bool.and_eq_true, decide_eq_true_eq] at this
    exact not_space_of_ge (by omega)

theorem refToken_map_upper (colAbs rowAbs : Bool) (ls ds : List Char)
    (hd : ∀ c ∈ ds, isDigitChar c = true) :
    (refToken colAbs rowAbs ls ds).map toUpperChar
      = refToken colAbs rowAbs (ls.map toUpperChar) ds := by
  unfold refToken
  simp only [List.map_append]
  have hdollar : ∀ b : Bool,
      (if b then ['$'] else ([] : List Char)).map toUpperChar
        = (if b then ['$'] else []) := by
    intro b; cases b <;> simp [toUpperChar]
  rw [hdollar, hdollar, map_toUpperChar_id (s := ds) (fun c hc => by
    have := hd c hc
    simp only [isDigitChar, Bool.and_eq_true, decide_eq_true_eq] at this
    omega)]

/-- Fold of `parse_cell_ref`'s scan over a canonical (already uppercased)
token: the collected column letters and row digits are exactly the token's
parts, and each `$` lands on the matching absolute flag. -/
theorem foldl_refStep_refToken (colAbs rowAbs : Bool) (ls ds : List Char)
    (hls : ls ≠ []) (hl : ∀ c ∈ ls, isAlphaChar c = true)
    (hds : ds ≠ []) (hd : ∀ c ∈ ds, isDigitChar c = true) :
    (refToken colAbs rowAbs ls ds).foldl refStep ⟨false, false, [], [], true⟩
      = ⟨colAbs, rowAbs, ls, ds, false⟩ := by
  unfold refToken
  rw [List.foldl_append, List.foldl_append, List.foldl_append]
  have h1 : List.foldl refStep ⟨false, false, [], [], true⟩
      (if colAbs then ['$'] else []) = ⟨colAbs, false, [], [], true⟩ := by
    cases colAbs with
    | true => simp [refStep]
    | false => rfl
  have h2 : List.foldl refStep ⟨colAbs, false, [], [], true⟩ ls
      = ⟨colAbs, false, ls, [], true⟩ := by
    rw [foldl_refStep_alpha ls hl _ rfl]
    simp
  have h3 : List.foldl refStep ⟨colAbs, false, ls, [], true⟩
      (if rowAbs then ['$'] else []) = ⟨colAbs, rowAbs, ls, [], true⟩ := by
    cases rowAbs with
    | true => simp [refStep, hls]
    | false => rfl
  rw [h1, h2, h3, foldl_refStep_digit ds hd _ hds]
  simp

/-- C9 (amended): `parse_cell_ref` succeeds on every token of the shape
`$?[A-Za-z]+$?[0-9]+` with `col = (Σ letter values · 26^k) − 1` and
`row = decimal − 1`, and rejects digit-only tokens (empty column part),
letter-only tokens (empty row part) and row 0 — but its acceptance is not
exact: unrecognised characters are silently skipped (see the
counterexample), so it does not return `None` on every other input. -/
theorem C9_parse_cell_ref :
    (∀ (colAbs rowAbs : Bool) (ls ds : List Char),
      ls ≠ [] → (∀ c ∈ ls, isAlphaChar c = true) →
      ds ≠ [] → (∀ c ∈ ds, isDigitChar c = true) →
      lettersVal (ls.map toUpperChar) < usizeW →
      digitsVal ds < usizeW → 0 < digitsVal ds →
      parseCellRef (refToken colAbs rowAbs ls ds)
        = some (lettersVal (ls.map toUpperChar) - 1, digitsVal ds - 1, colAbs, rowAbs)) ∧
    (∀ ds : List Char, (∀ c ∈ ds, isDigitChar c = true) → parseCellRef ds = none) ∧
    (∀ ls : List Char, (∀ c ∈ ls, isAlphaChar c = true) → parseCellRef ls = none) ∧
    (∀ (colAbs rowAbs : Bool) (ls ds : List Char),
      ls ≠ [] → (∀ c ∈ ls, isAlphaChar c = true) →
      ds ≠ [] → (∀ c ∈ ds, isDigitChar c = true) →
      digitsVal ds = 0 →
      parseCellRef (refToken colAbs rowAbs ls ds) = none) := by
  have upLemma : ∀ (ls : List Char), (∀ c ∈ ls, isAlphaChar c = true) →
      ∀ c ∈ ls.map toUpperChar, isAlphaChar c = true := by
    intro ls hl c hc
    obtain ⟨c0, hc0, rfl⟩ := List.mem_map.mp hc
    obtain ⟨hlo, hhi⟩ := toUpperChar_alpha_range (hl c0 hc0)
    exact isAlphaChar_of_range hlo hhi
  have mainFold : ∀ (colAbs rowAbs : Bool) (ls ds : List Char),
      ls ≠ [] → (∀ c ∈ ls, isAlphaChar c = true) →
      ds ≠ [] → (∀ c ∈ ds, isDigitChar c = true) →
      ((trimChars (refToken colAbs rowAbs ls ds)).map toUpperChar).foldl refStep
          ⟨false, false, [], [], true⟩
        = ⟨colAbs, rowAbs, ls.map toUpperChar, ds, false⟩ ∧
      (trimChars (refToken colAbs rowAbs ls ds)).map toUpperChar
        = refToken colAbs rowAbs (ls.map toUpperChar) ds := by
    intro colAbs rowAbs ls ds hls hl hds hd
    have htrim := trimChars_eq_self (refToken_not_space colAbs rowAbs ls ds hl hd)
    have hup := refToken_map_upper colAbs rowAbs ls ds hd
    rw [htrim, hup]
    refine ⟨?_, rfl⟩
    exact foldl_refStep_refToken colAbs rowAbs (ls.map toUpperChar) ds
      (by intro hemp; exact hls (List.map_eq_nil_iff.mp hemp)) (upLemma ls hl) hds hd
  have tokenNe : ∀ (colAbs rowAbs : Bool) (ls2 ds : List Char), ls2 ≠ [] →
      refToken colAbs rowAbs ls2 ds ≠ [] := by
    intro colAbs rowAbs ls2 ds hls2
    unfold refToken
    intro hemp
    rcases List.append_eq_nil.mp hemp with ⟨h1, _⟩
    rcases List.append_eq_nil.mp h1 with ⟨h3, _⟩
    rcases List.append_eq_nil.mp h3 with ⟨_, h5⟩
    exact hls2 h5
  refine ⟨?_, ?_, ?_, ?_⟩
  · intro colAbs rowAbs ls ds hls hl hds hd hcw hdw hd0
    obtain ⟨hfold, hshape⟩ := mainFold colAbs rowAbs ls ds hls hl hds hd
    rw [hshape] at hfold
    have hls2 : ls.map toUpperChar ≠ [] := fun hemp => hls (List.map_eq_nil_iff.mp hemp)
    have hcol2 : (lettersVal (ls.map toUpperChar) + (usizeW - 1)) % usizeW
        = lettersVal (ls.map toUpperChar) - 1 := by
      have hW : 0 < usizeW := by unfold usizeW; positivity
      have hv := lettersVal_pos hls2
      have he : lettersVal (ls.map toUpperChar) + (usizeW - 1)
          = (lettersVal (ls.map toUpperChar) - 1) + usizeW := by omega
      rw [he, Nat.add_mod_right, Nat.mod_eq_of_lt (by omega)]
    unfold parseCellRef
    rw [hshape, if_neg (tokenNe colAbs rowAbs _ ds hls2)]
    simp [hfold, hls2, hds, lettersValW_eq _ hcw, hcol2, parseUsizeDigits, hdw,
      show digitsVal ds ≠ 0 by omega]
  · intro ds hd
    have htrim := trimChars_eq_self (fun c hc => by
      have := hd c hc
      simp only [isDigitChar, Bool.and_eq_true, decide_eq_true_eq] at this
      exact not_space_of_ge (by omega))
    have hup := map_toUpperChar_id (s := ds) (fun c hc => by
      have := hd c hc
      simp only [isDigitChar, Bool.and_eq_true, decide_eq_true_eq] at this
      omega)
    unfold parseCellRef
    rw [htrim, hup]
    cases hds : ds with
    | nil => rw [if_pos rfl]
    | cons c t =>
      rw [← hds, if_neg (by rw [hds]; simp)]
      rw [foldl_refStep_digit ds hd _ (by rw [hds]; simp)]
      simp
  · intro ls hl
    have htrim := trimChars_eq_self (fun c hc => by
      have := hl c hc
      simp only [isAlphaChar, Bool.or_eq_true, Bool.and_eq_true, decide_eq_true_eq] at this
      exact not_space_of_ge (by omega))
    have hup : ls.map toUpperChar = ls.map toUpperChar := rfl
    unfold parseCellRef
    rw [htrim]
    cases hls : ls with
    | nil => rw [show (([] : List Char)).map toUpperChar = [] from rfl, if_pos rfl]
    | cons c t =>
      rw [← hls, if_neg (by rw [hls]; simp)]
      rw [foldl_refStep_alpha (ls.map toUpperChar) (upLemma ls hl) _ rfl]
      simp
  · intro colAbs rowAbs ls ds hls hl hds hd hzero
    obtain ⟨hfold, hshape⟩ := mainFold colAbs rowAbs ls ds hls hl hds hd
    rw [hshape] at hfold
    have hls2 : ls.map toUpperChar ≠ [] := fun hemp => hls (List.map_eq_nil_iff.mp hemp)
    unfold parseCellRef
    rw [hshape, if_neg (tokenNe colAbs rowAbs _ ds hls2)]
    simp [hfold, hls2, hds, parseUsizeDigits, hzero,
      show (0 : Nat) < usizeW by unfold usizeW; positivity]

/-- Witness for C9 at concrete inputs: `b7` parses to column 1, row 6;
`"42"` and `"AB"` and row 0 are rejected. -/
theorem C9_parse_cell_ref_witness :
    parseCellRef (refToken false false ("b".toList) ("7".toList)) = some (1, 6, false, false) ∧
    parseCellRef ("42".toList) = none ∧
    parseCellRef ("AB".toList) = none ∧
    parseCellRef (refToken false true ("A".toList) ("0".toList)) = none := by
  refine ⟨?_, ?_, ?_, ?_⟩
  · have h := C9_parse_cell_ref.1 false false ("b".toList) ("7".toList)
      (by decide) (by decide) (by decide) (by decide)
      (by show lettersVal _ < 2 ^ 64; decide)
      (by show digitsVal _ < 2 ^ 64; decide) (by decide)
    simpa using h
  · exact C9_parse_cell_ref.2.1 ("42".toList) (by decide)
  · exact C9_parse_cell_ref.2.2.1 ("AB".toList) (by decide)
  · exact C9_parse_cell_ref.2.2.2 false true ("A".toList) ("0".toList)
      (by decide) (by decide) (by decide) (by decide) (by decide)

/-- C9 counterexample: the claim asserts `parse_cell_ref` returns `None` on
every input not of the form `$?[A-Z]+$?[0-9]+`; but the scan skips
unrecognised characters, so `"A1B"` (a letter after the digits) parses
successfully as `A1`. -/
theorem C9_parse_cell_ref_cex :
    parseCellRef ("A1B".toList) = some (0, 0, false, false) := by decide

/-! ## C2, C3, C4: concrete sheets -/

/-- A1 = `=1/0`, A2 = `2`, B1 = `=SUM(A1:A2)`. -/
def c2Sheet : Sheet :=
  ((Sheet.new.setCell 0 0 ("=1/0".toList)).setCell 0 1 ("2".toList)).setCell 1 0
    ("=SUM(A1:A2)".toList)

/-- A1 = `=1/0`, B1 = `=IFERROR(A1+1,99)`. -/
def c2bSheet : Sheet :=
  (Sheet.new.setCell 0 0 ("=1/0".toList)).setCell 1 0 ("=IFERROR(A1+1,99)".toList)

/-- B1 = `=A1&"x"` with A1 absent. -/
def c3Sheet : Sheet := Sheet.new.setCell 1 0 ("=A1&\"x\"".toList)

/-- B1 = `=A1+1` with A1 absent. -/
def c3bSheet : Sheet := Sheet.new.setCell 1 0 ("=A1+1".toList)

/-- B2 = `=A1+1`, then the structural delete of row 0 (the formula moves to
B1 and its reference is rewritten to the literal `#REF!`). -/
def c4Sheet : Sheet := (Sheet.new.setCell 1 1 ("=A1+1".toList)).deleteRowOp 0

/-- C2 counterexample: the claim says an aggregate such as `SUM` over a range
containing an error cell yields that error; instead `get_numeric_values`
skips every non-`Number` evaluation result, so `SUM(A1:A2)` with
A1 = `#DIV/0!` and A2 = 2 displays `2`, not `#DIV/0!`. -/
theorem C2_error_propagation_cex :
    Sheet.evaluate defaultFops c2Sheet 100 1 0 = "2".toList ∧
    "2".toList ≠ CellError.divZero.glyph := by
  constructor
  · with_unfolding_all rfl
  · decide

/-- C2 (amended): an error operand propagates through arithmetic once
produced, and `IFERROR` recovers it; but numeric aggregates over ranges skip
cells that do not evaluate to numbers — errors included — so `SUM` over a
range containing an error returns the sum of the remaining numeric cells. -/
theorem C2_error_propagation :
    (∀ (e : CellError) (v : CellValue) (op : Char),
      arithmetic (.error e) v op = .err e.glyph) ∧
    (∀ (e : CellError) (n : ℚ) (op : Char),
      arithmetic (.number n) (.error e) op = .err e.glyph) ∧
    Sheet.evaluate defaultFops c2Sheet 100 1 0 = "2".toList ∧
    Sheet.evaluate defaultFops c2bSheet 100 1 0 = "99".toList := by
  refine ⟨fun e v op => rfl, fun e n op => rfl, ?_, ?_⟩
  · with_unfolding_all rfl
  · with_unfolding_all rfl

/-- C3 counterexample: the claim says `=A1&"x"` with A1 empty evaluates to
`"x"`; the dereference actually yields `Number(0)` and its string form `"0"`,
so the display is `"0x"`. -/
theorem C3_empty_deref_cex :
    Sheet.evaluate defaultFops c3Sheet 100 1 0 = "0x".toList ∧
    "0x".toList ≠ "x".toList := by
  constructor
  · with_unfolding_all rfl
  · decide

/-- C3 (amended): an empty or absent cell dereferences to `Number(0)` in
every context (there is no concatenation-specific `Text("")` case); in a
string concatenation the zero renders as `"0"`, so `=A1&"x"` with A1 empty
displays `"0x"`, and in a numeric context `=A1+1` displays `1`. -/
theorem C3_empty_deref :
    (∀ (fops : FloatOps) (cells : CellMap) (stack : List (Nat × Nat)) (fu c r : Nat),
      (c, r) ∉ stack →
      (cells (c, r) = none ∨ ∃ cell, cells (c, r) = some cell ∧ cell.value = .empty) →
      evalCell fops cells (fu + 1) stack c r = .ok (.number 0)) ∧
    Sheet.evaluate defaultFops c3Sheet 100 1 0 = "0x".toList ∧
    Sheet.evaluate defaultFops c3bSheet 100 1 0 = "1".toList := by
  refine ⟨?_, ?_, ?_⟩
  · intro fops cells stack fu c r hnot hcell
    simp only [evalCell]
    rw [if_neg hnot]
    rcases hcell with hnone | ⟨cell, hsome, hval⟩
    · simp only [hnone]
      rfl
    · simp only [hsome, hval]
      rfl
  · with_unfolding_all rfl
  · with_unfolding_all rfl

/-- Witness for C3 at a concrete input: dereferencing the absent cell (0,0)
of the empty sheet yields `Number(0)`. -/
theorem C3_empty_deref_witness :
    evalCell defaultFops (fun _ => none) 1 [] 0 0 = .ok (.number 0) :=
  C3_empty_deref.1 defaultFops (fun _ => none) [] 0 0 0 (by simp) (Or.inl rfl)

/-- C4 counterexample: the delete rewrite leaves the literal `#REF!` in the
formula text, but evaluating it yields the Name error `#NAME?`, not the Ref
error `#REF!` that the claim asserts. -/
theorem C4_ref_literal_cex :
    ((c4Sheet.cells (1, 0)).getD Cell.default).raw_input = "=#REF!+1".toList ∧
    Sheet.evaluate defaultFops c4Sheet 100 1 0 = "#NAME?".toList ∧
    "#NAME?".toList ≠ CellError.ref.glyph := by
  refine ⟨?_, ?_, ?_⟩
  · with_unfolding_all rfl
  · with_unfolding_all rfl
  · decide

/-- C4 (amended): a formula containing the literal `#REF!` token produced by
a structural delete surfaces the Name error `#NAME?` at evaluation time: the
evaluator has no case for the token, which fails every parse and falls
through to the unresolved-identifier branch.  Both the end-to-end delete
scenario and the bare `#REF!` atom (on an empty sheet) evaluate to `#NAME?`. -/
theorem C4_ref_literal_name_error :
    ((c4Sheet.cells (1, 0)).getD Cell.default).raw_input = "=#REF!+1".toList ∧
    Sheet.evaluate defaultFops c4Sheet 100 1 0 = CellError.name.glyph ∧
    evalExpr defaultFops (fun _ => none) 50 [] ("#REF!".toList)
      = .err CellError.name.glyph := by
  refine ⟨?_, ?_, ?_⟩
  · with_unfolding_all rfl
  · with_unfolding_all rfl
  · with_unfolding_all rfl

/-! ## The evaluator never produces an `Empty` value

`evaluate_cell` maps empty and missing cells to `Number(0)` and every other
code path builds `Number`/`Text`/`Boolean`/`Error` results, so no evaluation
ever returns `CellValue::Empty`.  This is the load-bearing fact behind C10. -/

theorem EvalRes.bind_ne_ok {α β : Type} (a : EvalRes α) (f : α → EvalRes β) (w : β)
    (h : ∀ x, f x ≠ .ok w) : (a >>= f) ≠ .ok w := by
  cases a with
  | ok v => exact h v
  | err e => intro hc; exact EvalRes.noConfusion hc
  | fuelOut => intro hc; exact EvalRes.noConfusion hc

/-- The `Ok(Some(v))` wrapping of `try_function` preserves non-emptiness. -/
theorem someWrap_ne (a : EvalRes CellValue) (h : a ≠ .ok .empty) :
    (a >>= fun v => pure (some v)) ≠ .ok (some .empty) := by
  cases a with
  | ok v =>
    intro hc
    apply h
    have hv : some v = some CellValue.empty := EvalRes.ok.inj hc
    rw [Option.some.inj hv]
  | err e => intro hc; exact EvalRes.noConfusion hc
  | fuelOut => intro hc; exact EvalRes.noConfusion hc

theorem compareNums_ne (l r : ℚ) (op : List Char) :
    compareNums l r op ≠ .ok .empty := by
  unfold compareNums
  repeat' split
  all_goals simp

theorem compareVals_ne (l r : CellValue) (op : List Char) :
    compareVals l r op ≠ .ok .empty := by
  unfold compareVals
  repeat' split
  all_goals
    first
      | exact compareNums_ne _ _ _
      | simp

theorem arithmetic_ne (l r : CellValue) (op : Char) :
    arithmetic l r op ≠ .ok .empty := by
  unfold arithmetic
  apply EvalRes.bind_ne_ok
  intro a
  apply EvalRes.bind_ne_ok
  intro b
  repeat' split
  all_goals simp

theorem powerOp_ne (fops : FloatOps) (l r : CellValue) :
    powerOp fops l r ≠ .ok .empty := by
  unfold powerOp
  apply EvalRes.bind_ne_ok
  intro a
  apply EvalRes.bind_ne_ok
  intro b
  simp

theorem funcSum_ne (fops : FloatOps) (cells : CellMap) (fuel : Nat)
    (stack : List (Nat × Nat)) (s : List Char) :
    funcSum fops cells fuel stack s ≠ .ok .empty := by
  cases fuel with
  | zero => simp [funcSum]
  | succ n =>
    simp only [funcSum]
    apply EvalRes.bind_ne_ok
    intro values
    simp

theorem funcAverage_ne (fops : FloatOps) (cells : CellMap) (fuel : Nat)
    (stack : List (Nat × Nat)) (s : List Char) :
    funcAverage fops cells fuel stack s ≠ .ok .empty := by
  cases fuel with
  | zero => simp [funcAverage]
  | succ n =>
    simp only [funcAverage]
    apply EvalRes.bind_ne_ok
    intro values
    split <;> simp

theorem funcCount_ne (fops : FloatOps) (cells : CellMap) (fuel : Nat)
    (stack : List (Nat × Nat)) (s : List Char) :
    funcCount fops cells fuel stack s ≠ .ok .empty := by
  cases fuel with
  | zero => simp [funcCount]
  | succ n =>
    simp only [funcCount]
    apply EvalRes.bind_ne_ok
    intro k
    simp

theorem funcCounta_ne (fops : FloatOps) (cells : CellMap) (fuel : Nat)
    (stack : List (Nat × Nat)) (s : List Char) :
    funcCounta fops cells fuel stack s ≠ .ok .empty := by
  cases fuel with
  | zero => simp [funcCounta]
  | succ n =>
    simp only [funcCounta]
    apply EvalRes.bind_ne_ok
    intro k
    simp

theorem funcMin_ne (fops : FloatOps) (cells : CellMap) (fuel : Nat)
    (stack : List (Nat × Nat)) (s : List Char) :
    funcMin fops cells fuel stack s ≠ .ok .empty := by
  cases fuel with
  | zero => simp [funcMin]
  | succ n =>
    simp only [funcMin]
    apply EvalRes.bind_ne_ok
    intro values
    split <;> simp

theorem funcMax_ne (fops : FloatOps) (cells : CellMap) (fuel : Nat)
    (stack : List (Nat × Nat)) (s : List Char) :
    funcMax fops cells fuel stack s ≠ .ok .empty := by
  cases fuel with
  | zero => simp [funcMax]
  | succ n =>
    simp only [funcMax]
    apply EvalRes.bind_ne_ok
    intro values
    split <;> simp

theorem funcSumif_ne (fops : FloatOps) (cells : CellMap) (fuel : Nat)
    (stack : List (Nat × Nat)) (s : List Char) :
    funcSumif fops cells fuel stack s ≠ .ok .empty := by
  cases fuel with
  | zero => simp [funcSumif]
  | succ n =>
    simp only [funcSumif]
    repeat' split
    all_goals
      first
        | (simp; done)
        | (apply EvalRes.bind_ne_ok; intro x
           first
             | (simp; done)
             | (apply EvalRes.bind_ne_ok; intro y; simp; done))

theorem funcCountif_ne (fops : FloatOps) (cells : CellMap) (fuel : Nat)
    (stack : List (Nat × Nat)) (s : List Char) :
    funcCountif fops cells fuel stack s ≠ .ok .empty := by
  cases fuel with
  | zero => simp [funcCountif]
  | succ n =>
    simp only [funcCountif]
    repeat' split
    all_goals
      first
        | (simp; done)
        | (apply EvalRes.bind_ne_ok; intro x; simp; done)

theorem funcAverageif_ne (fops : FloatOps) (cells : CellMap) (fuel : Nat)
    (stack : List (Nat × Nat)) (s : List Char) :
    funcAverageif fops cells fuel stack s ≠ .ok .empty := by
  cases fuel with
  | zero => simp [funcAverageif]
  | succ n =>
    simp only [funcAverageif]
    repeat' split
    all_goals
      first
        | (simp; done)
        | (apply EvalRes.bind_ne_ok; intro x
           first
             | (split <;> simp; done)
             | (apply EvalRes.bind_ne_ok; intro y; split <;> simp; done))

theorem matchScan_ne (fops : FloatOps) (cells : CellMap) (fuel : Nat) :
    ∀ (stack : List (Nat × Nat)) (lv : CellValue) (l : List (Nat × (Nat × Nat))),
      matchScan fops cells fuel stack lv l ≠ .ok .empty := by
  induction fuel with
  | zero => intro stack lv l; simp [matchScan]
  | succ n ih =>
    intro stack lv l
    cases l with
    | nil => simp [matchScan]
    | cons h t =>
      obtain ⟨i, c, r⟩ := h
      simp only [matchScan]
      apply EvalRes.bind_ne_ok
      intro cellVal
      split
      · simp
      · exact ih _ _ _

theorem funcMatch_ne (fops : FloatOps) (cells : CellMap) (fuel : Nat)
    (stack : List (Nat × Nat)) (s : List Char) :
    funcMatch fops cells fuel stack s ≠ .ok .empty := by
  cases fuel with
  | zero => simp [funcMatch]
  | succ n =>
    simp only [funcMatch]
    repeat' split
    all_goals
      first
        | (simp; done)
        | (apply EvalRes.bind_ne_ok; intro x1
           first
             | (simp; done)
             | (exact matchScan_ne fops cells n _ _ _)
             | (split <;> simp; done)
             | (apply EvalRes.bind_ne_ok; intro x2
                first
                  | (simp; done)
                  | (exact matchScan_ne fops cells n _ _ _)
                  | (split <;> simp; done)
                  | (apply EvalRes.bind_ne_ok; intro x3
                     first
                       | (simp; done)
                       | (exact matchScan_ne fops cells n _ _ _)
                       | (split <;> simp; done)
                       | (apply EvalRes.bind_ne_ok; intro x4
                          first
                            | (simp; done)
                            | (exact matchScan_ne fops cells n _ _ _)
                            | (split <;> simp; done)
                            | (apply EvalRes.bind_ne_ok; intro x5
                               first
                                 | (simp; done)
                                 | (exact matchScan_ne fops cells n _ _ _)
                                 | (split <;> simp; done))))))

theorem funcLeft_ne (fops : FloatOps) (cells : CellMap) (fuel : Nat)
    (stack : List (Nat × Nat)) (s : List Char) :
    funcLeft fops cells fuel stack s ≠ .ok .empty := by
  cases fuel with
  | zero => simp [funcLeft]
  | succ n =>
    simp only [funcLeft]
    repeat' split
    all_goals
      first
        | (simp; done)
        | (apply EvalRes.bind_ne_ok; intro x1
           first
             | (simp; done)
             | (exact absurd rfl (fun h => h))
             | (split <;> simp; done)
             | (apply EvalRes.bind_ne_ok; intro x2
                first
                  | (simp; done)
                  | (exact absurd rfl (fun h => h))
                  | (split <;> simp; done)
                  | (apply EvalRes.bind_ne_ok; intro x3
                     first
                       | (simp; done)
                       | (exact absurd rfl (fun h => h))
                       | (split <;> simp; done)
                       | (apply EvalRes.bind_ne_ok; intro x4
                          first
                            | (simp; done)
                            | (exact absurd rfl (fun h => h))
                            | (split <;> simp; done)
                            | (apply EvalRes.bind_ne_ok; intro x5
                               first
                                 | (simp; done)
                                 | (exact absurd rfl (fun h => h))
                                 | (split <;> simp; done))))))

theorem funcRight_ne (fops : FloatOps) (cells : CellMap) (fuel : Nat)
    (stack : List (Nat × Nat)) (s : List Char) :
    funcRight fops cells fuel stack s ≠ .ok .empty := by
  cases fuel with
  | zero => simp [funcRight]
  | succ n =>
    simp only [funcRight]
    repeat' split
    all_goals
      first
        | (simp; done)
        | (apply EvalRes.bind_ne_ok; intro x1
           first
             | (simp; done)
             | (exact absurd rfl (fun h => h))
             | (split <;> simp; done)
             | (apply EvalRes.bind_ne_ok; intro x2
                first
                  | (simp; done)
                  | (exact absurd rfl (fun h => h))
                  | (split <;> simp; done)
                  | (apply EvalRes.bind_ne_ok; intro x3
                     first
                       | (simp; done)
                       | (exact absurd rfl (fun h => h))
                       | (split <;> simp; done)
                       | (apply EvalRes.bind_ne_ok; intro x4
                          first
                            | (simp; done)
                            | (exact absurd rfl (fun h => h))
                            | (split <;> simp; done)
                            | (apply EvalRes.bind_ne_ok; intro x5
                               first
                                 | (simp; done)
                                 | (exact absurd rfl (fun h => h))
                                 | (split <;> simp; done))))))

theorem funcMid_ne (fops : FloatOps) (cells : CellMap) (fuel : Nat)
    (stack : List (Nat × Nat)) (s : List Char) :
    funcMid fops cells fuel stack s ≠ .ok .empty := by
  cases fuel with
  | zero => simp [funcMid]
  | succ n =>
    simp only [funcMid]
    repeat' split
    all_goals
      first
        | (simp; done)
        | (apply EvalRes.bind_ne_ok; intro x
           apply EvalRes.bind_ne_ok; intro y
           apply EvalRes.bind_ne_ok; intro z
           apply EvalRes.bind_ne_ok; intro u
           apply EvalRes.bind_ne_ok; intro v
           first
             | (split <;> simp; done)
             | (simp; done)
             | (apply EvalRes.bind_ne_ok; intro w
                first
                  | (split <;> simp; done)
                  | (simp; done)))

theorem funcLen_ne (fops : FloatOps) (cells : CellMap) (fuel : Nat)
    (stack : List (Nat × Nat)) (s : List Char) :
    funcLen fops cells fuel stack s ≠ .ok .empty := by
  cases fuel with
  | zero => simp [funcLen]
  | succ n =>
    simp only [funcLen]
    apply EvalRes.bind_ne_ok
    intro v
    simp

theorem funcTrim_ne (fops : FloatOps) (cells : CellMap) (fuel : Nat)
    (stack : List (Nat × Nat)) (s : List Char) :
    funcTrim fops cells fuel stack s ≠ .ok .empty := by
  cases fuel with
  | zero => simp [funcTrim]
  | succ n =>
    simp only [funcTrim]
    apply EvalRes.bind_ne_ok
    intro v
    simp

theorem funcUpper_ne (fops : FloatOps) (cells : CellMap) (fuel : Nat)
    (stack : List (Nat × Nat)) (s : List Char) :
    funcUpper fops cells fuel stack s ≠ .ok .empty := by
  cases fuel with
  | zero => simp [funcUpper]
  | succ n =>
    simp only [funcUpper]
    apply EvalRes.bind_ne_ok
    intro v
    simp

theorem funcLower_ne (fops : FloatOps) (cells : CellMap) (fuel : Nat)
    (stack : List (Nat × Nat)) (s : List Char) :
    funcLower fops cells fuel stack s ≠ .ok .empty := by
  cases fuel with
  | zero => simp [funcLower]
  | succ n =>
    simp only [funcLower]
    apply EvalRes.bind_ne_ok
    intro v
    simp

theorem funcAbs_ne (fops : FloatOps) (cells : CellMap) (fuel : Nat)
    (stack : List (Nat × Nat)) (s : List Char) :
    funcAbs fops cells fuel stack s ≠ .ok .empty := by
  cases fuel with
  | zero => simp [funcAbs]
  | succ n =>
    simp only [funcAbs]
    apply EvalRes.bind_ne_ok
    intro v
    apply EvalRes.bind_ne_ok
    intro q
    simp

theorem funcRound_ne (fops : FloatOps) (cells : CellMap) (fuel : Nat)
    (stack : List (Nat × Nat)) (s : List Char) :
    funcRound fops cells fuel stack s ≠ .ok .empty := by
  cases fuel with
  | zero => simp [funcRound]
  | succ n =>
    simp only [funcRound]
    repeat' split
    all_goals
      first
        | (simp; done)
        | (apply EvalRes.bind_ne_ok; intro x1
           first
             | (simp; done)
             | (exact absurd rfl (fun h => h))
             | (split <;> simp; done)
             | (apply EvalRes.bind_ne_ok; intro x2
                first
                  | (simp; done)
                  | (exact absurd rfl (fun h => h))
                  | (split <;> simp; done)
                  | (apply EvalRes.bind_ne_ok; intro x3
                     first
                       | (simp; done)
                       | (exact absurd rfl (fun h => h))
                       | (split <;> simp; done)
                       | (apply EvalRes.bind_ne_ok; intro x4
                          first
                            | (simp; done)
                            | (exact absurd rfl (fun h => h))
                            | (split <;> simp; done)
                            | (apply EvalRes.bind_ne_ok; intro x5
                               first
                                 | (simp; done)
                                 | (exact absurd rfl (fun h => h))
                                 | (split <;> simp; done))))))

theorem funcInt_ne (fops : FloatOps) (cells : CellMap) (fuel : Nat)
    (stack : List (Nat × Nat)) (s : List Char) :
    funcInt fops cells fuel stack s ≠ .ok .empty := by
  cases fuel with
  | zero => simp [funcInt]
  | succ n =>
    simp only [funcInt]
    apply EvalRes.bind_ne_ok
    intro v
    apply EvalRes.bind_ne_ok
    intro q
    simp

theorem funcMod_ne (fops : FloatOps) (cells : CellMap) (fuel : Nat)
    (stack : List (Nat × Nat)) (s : List Char) :
    funcMod fops cells fuel stack s ≠ .ok .empty := by
  cases fuel with
  | zero => simp [funcMod]
  | succ n =>
    simp only [funcMod]
    repeat' split
    all_goals
      first
        | (simp; done)
        | (apply EvalRes.bind_ne_ok; intro x
           apply EvalRes.bind_ne_ok; intro y
           apply EvalRes.bind_ne_ok; intro z
           apply EvalRes.bind_ne_ok; intro u
           split <;> simp)

theorem funcPower_ne (fops : FloatOps) (cells : CellMap) (fuel : Nat)
    (stack : List (Nat × Nat)) (s : List Char) :
    funcPower fops cells fuel stack s ≠ .ok .empty := by
  cases fuel with
  | zero => simp [funcPower]
  | succ n =>
    simp only [funcPower]
    repeat' split
    all_goals
      first
        | (simp; done)
        | (apply EvalRes.bind_ne_ok; intro x
           apply EvalRes.bind_ne_ok; intro y
           apply EvalRes.bind_ne_ok; intro z
           apply EvalRes.bind_ne_ok; intro u
           simp)

theorem funcSqrt_ne (fops : FloatOps) (cells : CellMap) (fuel : Nat)
    (stack : List (Nat × Nat)) (s : List Char) :
    funcSqrt fops cells fuel stack s ≠ .ok .empty := by
  cases fuel with
  | zero => simp [funcSqrt]
  | succ n =>
    simp only [funcSqrt]
    apply EvalRes.bind_ne_ok
    intro v
    apply EvalRes.bind_ne_ok
    intro q
    split <;> simp

theorem andGo_ne (fops : FloatOps) (cells : CellMap) (fuel : Nat) :
    ∀ (stack : List (Nat × Nat)) (args : List (List Char)),
      andGo fops cells fuel stack args ≠ .ok .empty := by
  induction fuel with
  | zero => intro stack args; simp [andGo]
  | succ n ih =>
    intro stack args
    cases args with
    | nil => simp [andGo]
    | cons a rest =>
      simp only [andGo]
      apply EvalRes.bind_ne_ok
      intro v
      apply EvalRes.bind_ne_ok
      intro b
      split
      · simp
      · exact ih _ _

theorem orGo_ne (fops : FloatOps) (cells : CellMap) (fuel : Nat) :
    ∀ (stack : List (Nat × Nat)) (args : List (List Char)),
      orGo fops cells fuel stack args ≠ .ok .empty := by
  induction fuel with
  | zero => intro stack args; simp [orGo]
  | succ n ih =>
    intro stack args
    cases args with
    | nil => simp [orGo]
    | cons a rest =>
      simp only [orGo]
      apply EvalRes.bind_ne_ok
      intro v
      apply EvalRes.bind_ne_ok
      intro b
      split
      · simp
      · exact ih _ _

theorem funcAnd_ne (fops : FloatOps) (cells : CellMap) (fuel : Nat)
    (stack : List (Nat × Nat)) (s : List Char) :
    funcAnd fops cells fuel stack s ≠ .ok .empty := by
  cases fuel with
  | zero => simp [funcAnd]
  | succ n =>
    simp only [funcAnd]
    exact andGo_ne fops cells n _ _

theorem funcOr_ne (fops : FloatOps) (cells : CellMap) (fuel : Nat)
    (stack : List (Nat × Nat)) (s : List Char) :
    funcOr fops cells fuel stack s ≠ .ok .empty := by
  cases fuel with
  | zero => simp [funcOr]
  | succ n =>
    simp only [funcOr]
    exact orGo_ne fops cells n _ _

theorem funcNot_ne (fops : FloatOps) (cells : CellMap) (fuel : Nat)
    (stack : List (Nat × Nat)) (s : List Char) :
    funcNot fops cells fuel stack s ≠ .ok .empty := by
  cases fuel with
  | zero => simp [funcNot]
  | succ n =>
    simp only [funcNot]
    apply EvalRes.bind_ne_ok
    intro v
    apply EvalRes.bind_ne_ok
    intro b
    simp

theorem funcConcat_ne (fops : FloatOps) (cells : CellMap) (fuel : Nat)
    (stack : List (Nat × Nat)) (s : List Char) :
    funcConcat fops cells fuel stack s ≠ .ok .empty := by
  cases fuel with
  | zero => simp [funcConcat]
  | succ n =>
    simp only [funcConcat]
    apply EvalRes.bind_ne_ok
    intro acc
    simp

theorem funcIsblank_ne (fops : FloatOps) (cells : CellMap) (fuel : Nat)
    (stack : List (Nat × Nat)) (s : List Char) :
    funcIsblank fops cells fuel stack s ≠ .ok .empty := by
  cases fuel with
  | zero => simp [funcIsblank]
  | succ n =>
    simp only [funcIsblank]
    apply EvalRes.bind_ne_ok
    intro v
    split <;> simp

theorem funcIsnumber_ne (fops : FloatOps) (cells : CellMap) (fuel : Nat)
    (stack : List (Nat × Nat)) (s : List Char) :
    funcIsnumber fops cells fuel stack s ≠ .ok .empty := by
  cases fuel with
  | zero => simp [funcIsnumber]
  | succ n =>
    simp only [funcIsnumber]
    apply EvalRes.bind_ne_ok
    intro v
    split <;> simp

theorem funcIstext_ne (fops : FloatOps) (cells : CellMap) (fuel : Nat)
    (stack : List (Nat × Nat)) (s : List Char) :
    funcIstext fops cells fuel stack s ≠ .ok .empty := by
  cases fuel with
  | zero => simp [funcIstext]
  | succ n =>
    simp only [funcIstext]
    apply EvalRes.bind_ne_ok
    intro v
    split <;> simp


theorem ite_ne {α : Type} (c : Prop) [Decidable c] (a b w : α)
    (ha : a ≠ w) (hb : b ≠ w) : (if c then a else b) ≠ w := by
  split
  · exact ha
  · exact hb

set_option maxHeartbeats 16000000 in
/-- The evaluator never produces `Ok(Empty)`: joint statement over the
mutually recursive entry points that can return a sub-evaluation directly. -/
theorem neverEmpty (fops : FloatOps) (cells : CellMap) : ∀ fuel : Nat,
    (∀ stack s, evalFormula fops cells fuel stack s ≠ .ok .empty) ∧
    (∀ stack c r, evalCell fops cells fuel stack c r ≠ .ok .empty) ∧
    (∀ stack s, evalExpr fops cells fuel stack s ≠ .ok .empty) ∧
    (∀ stack s, tryFunction fops cells fuel stack s ≠ .ok (some .empty)) ∧
    (∀ stack s, funcIf fops cells fuel stack s ≠ .ok .empty) ∧
    (∀ stack s, funcIferror fops cells fuel stack s ≠ .ok .empty) ∧
    (∀ stack s, funcVlookup fops cells fuel stack s ≠ .ok .empty) ∧
    (∀ stack s, funcHlookup fops cells fuel stack s ≠ .ok .empty) ∧
    (∀ stack s, funcIndex fops cells fuel stack s ≠ .ok .empty) ∧
    (∀ stack lv em mc ci rows,
      vlookupScan fops cells fuel stack lv em mc ci rows ≠ .ok .empty) ∧
    (∀ stack lv em mr ri cols,
      hlookupScan fops cells fuel stack lv em mr ri cols ≠ .ok .empty) := by
  intro fuel
  induction fuel with
  | zero =>
    refine ⟨?_, ?_, ?_, ?_, ?_, ?_, ?_, ?_, ?_, ?_, ?_⟩
    · intro stack s; simp [evalFormula]
    · intro stack c r; simp [evalCell]
    · intro stack s; simp [evalExpr]
    · intro stack s; simp [tryFunction]
    · intro stack s; simp [funcIf]
    · intro stack s; simp [funcIferror]
    · intro stack s; simp [funcVlookup]
    · intro stack s; simp [funcHlookup]
    · intro stack s; simp [funcIndex]
    · intro stack lv em mc ci rows; cases rows <;> simp [vlookupScan]
    · intro stack lv em mr ri cols; cases cols <;> simp [hlookupScan]
  | succ n ih =>
    obtain ⟨ihF, ihC, ihE, ihT, ihIf, ihIfe, ihV, ihH, ihX, ihVS, ihHS⟩ := ih
    refine ⟨?_, ?_, ?_, ?_, ?_, ?_, ?_, ?_, ?_, ?_, ?_⟩
    · -- evalFormula
      intro stack s
      simp only [evalFormula]
      split
      · exact ihE _ _
      · simp
    · -- evalCell
      intro stack c r
      simp only [evalCell]
      repeat' split
      all_goals first | (simp; done) | (exact ihF _ _)
    · -- evalExpr
      intro stack s
      simp only [evalExpr]
      cases htf : tryFunction fops cells n stack (trimChars s) with
      | fuelOut => simp
      | err e => simp
      | ok fr =>
        simp only [EvalRes.bind_ok]
        cases fr with
        | some result =>
          have hres : result ≠ .empty := by
            intro h
            rw [h] at htf
            exact ihT stack (trimChars s) htf
          intro hc
          exact hres (EvalRes.ok.inj hc)
        | none =>
          repeat' split
          all_goals
            first
              | (simp; done)
              | (exact ihE _ _)
              | (exact ihC _ _ _)
              | (apply EvalRes.bind_ne_ok; intro l
                 first
                   | (apply EvalRes.bind_ne_ok; intro r
                      first
                        | (exact compareVals_ne _ _ _)
                        | (exact arithmetic_ne _ _ _)
                        | (exact powerOp_ne fops _ _)
                        | (simp; done))
                   | (split
                      all_goals simp))
              | (simp_all; done)
    · -- tryFunction
      intro stack s
      simp only [tryFunction]
      split
      · exact fun hc => Option.noConfusion (EvalRes.ok.inj hc)
      · apply ite_ne
        · exact fun hc => Option.noConfusion (EvalRes.ok.inj hc)
        · repeat' apply ite_ne
          all_goals
            first
              | (exact fun hc => Option.noConfusion (EvalRes.ok.inj hc))
              | (exact someWrap_ne _ (funcSum_ne fops cells n _ _))
              | (exact someWrap_ne _ (funcAverage_ne fops cells n _ _))
              | (exact someWrap_ne _ (funcCount_ne fops cells n _ _))
              | (exact someWrap_ne _ (funcCounta_ne fops cells n _ _))
              | (exact someWrap_ne _ (funcMin_ne fops cells n _ _))
              | (exact someWrap_ne _ (funcMax_ne fops cells n _ _))
              | (exact someWrap_ne _ (ihIf _ _))
              | (exact someWrap_ne _ (funcSumif_ne fops cells n _ _))
              | (exact someWrap_ne _ (funcCountif_ne fops cells n _ _))
              | (exact someWrap_ne _ (funcAverageif_ne fops cells n _ _))
              | (exact someWrap_ne _ (ihV _ _))
              | (exact someWrap_ne _ (ihH _ _))
              | (exact someWrap_ne _ (ihX _ _))
              | (exact someWrap_ne _ (funcMatch_ne fops cells n _ _))
              | (exact someWrap_ne _ (funcLeft_ne fops cells n _ _))
              | (exact someWrap_ne _ (funcRight_ne fops cells n _ _))
              | (exact someWrap_ne _ (funcMid_ne fops cells n _ _))
              | (exact someWrap_ne _ (funcLen_ne fops cells n _ _))
              | (exact someWrap_ne _ (funcTrim_ne fops cells n _ _))
              | (exact someWrap_ne _ (funcUpper_ne fops cells n _ _))
              | (exact someWrap_ne _ (funcLower_ne fops cells n _ _))
              | (exact someWrap_ne _ (funcAbs_ne fops cells n _ _))
              | (exact someWrap_ne _ (funcRound_ne fops cells n _ _))
              | (exact someWrap_ne _ (funcInt_ne fops cells n _ _))
              | (exact someWrap_ne _ (funcMod_ne fops cells n _ _))
              | (exact someWrap_ne _ (funcPower_ne fops cells n _ _))
              | (exact someWrap_ne _ (funcSqrt_ne fops cells n _ _))
              | (exact someWrap_ne _ (funcAnd_ne fops cells n _ _))
              | (exact someWrap_ne _ (funcOr_ne fops cells n _ _))
              | (exact someWrap_ne _ (funcNot_ne fops cells n _ _))
              | (exact someWrap_ne _ (funcConcat_ne fops cells n _ _))
              | (exact someWrap_ne _ (ihIfe _ _))
              | (exact someWrap_ne _ (funcIsblank_ne fops cells n _ _))
              | (exact someWrap_ne _ (funcIsnumber_ne fops cells n _ _))
              | (exact someWrap_ne _ (funcIstext_ne fops cells n _ _))
    · -- funcIf
      intro stack s
      simp only [funcIf]
      repeat' split
      all_goals
        first
          | (simp; done)
          | (apply EvalRes.bind_ne_ok; intro c'
             apply EvalRes.bind_ne_ok; intro b'
             split
             all_goals
               first
                 | (exact ihE _ _)
                 | (simp; done)
                 | (split
                    all_goals first | (exact ihE _ _) | (simp; done)))
    · -- funcIferror
      intro stack s
      simp only [funcIferror]
      split
      · cases hev : evalExpr fops cells n stack _ with
        | fuelOut => simp
        | err e => exact ihE _ _
        | ok v =>
          cases v with
          | error e => exact ihE _ _
          | empty => exact absurd hev (ihE _ _)
          | number x => exact fun hc => CellValue.noConfusion (EvalRes.ok.inj hc)
          | text t => exact fun hc => CellValue.noConfusion (EvalRes.ok.inj hc)
          | boolean b => exact fun hc => CellValue.noConfusion (EvalRes.ok.inj hc)
          | formula f => exact fun hc => CellValue.noConfusion (EvalRes.ok.inj hc)
      · simp
    · -- funcVlookup
      intro stack s
      rcases hsp : splitArgs s with - | ⟨a0, - | ⟨a1, - | ⟨a2, rest⟩⟩⟩
      · simp [funcVlookup, hsp]
      · simp [funcVlookup, hsp]
      · simp [funcVlookup, hsp]
      · cases rest with
        | nil =>
          simp only [funcVlookup, hsp]
          repeat' (apply EvalRes.bind_ne_ok; intro z)
          apply ite_ne <;> first | (simp; done) | (exact ihVS _ _ _ _ _ _)
        | cons a3 rest2 =>
          simp only [funcVlookup, hsp]
          repeat' (apply EvalRes.bind_ne_ok; intro z)
          apply ite_ne <;> first | (simp; done) | (exact ihVS _ _ _ _ _ _)
    · -- funcHlookup
      intro stack s
      rcases hsp : splitArgs s with - | ⟨a0, - | ⟨a1, - | ⟨a2, rest⟩⟩⟩
      · simp [funcHlookup, hsp]
      · simp [funcHlookup, hsp]
      · simp [funcHlookup, hsp]
      · cases rest with
        | nil =>
          simp only [funcHlookup, hsp]
          repeat' (apply EvalRes.bind_ne_ok; intro z)
          apply ite_ne <;> first | (simp; done) | (exact ihHS _ _ _ _ _ _)
        | cons a3 rest2 =>
          simp only [funcHlookup, hsp]
          repeat' (apply EvalRes.bind_ne_ok; intro z)
          apply ite_ne <;> first | (simp; done) | (exact ihHS _ _ _ _ _ _)
    · -- funcIndex
      intro stack s
      rcases hsp : splitArgs s with - | ⟨a0, - | ⟨a1, rest⟩⟩
      · simp [funcIndex, hsp]
      · simp [funcIndex, hsp]
      · cases rest with
        | nil =>
          simp only [funcIndex, hsp]
          repeat' (apply EvalRes.bind_ne_ok; intro z)
          apply ite_ne <;> first | (simp; done) | (exact ihC _ _ _)
        | cons a2 rest2 =>
          simp only [funcIndex, hsp]
          repeat' (apply EvalRes.bind_ne_ok; intro z)
          apply ite_ne <;> first | (simp; done) | (exact ihC _ _ _)
    · -- vlookupScan
      intro stack lv em mc ci rows
      cases rows with
      | nil => simp [vlookupScan]
      | cons row rest =>
        simp only [vlookupScan]
        apply EvalRes.bind_ne_ok
        intro cellVal
        split <;> split
        all_goals first | (exact ihC _ _ _) | (exact ihVS _ _ _ _ _ _)
    · -- hlookupScan
      intro stack lv em mr ri cols
      cases cols with
      | nil => simp [hlookupScan]
      | cons col rest =>
        simp only [hlookupScan]
        apply EvalRes.bind_ne_ok
        intro cellVal
        split <;> split
        all_goals first | (exact ihC _ _ _) | (exact ihHS _ _ _ _ _ _)


/-! ## ISBLANK dispatch: `try_function` on an `ISBLANK(...)` call -/

theorem trimChars_head_last (c0 : Char) (mid : List Char) (c1 : Char)
    (h0 : isSpaceChar c0 = false) (h1 : isSpaceChar c1 = false) :
    trimChars (c0 :: (mid ++ [c1])) = c0 :: (mid ++ [c1]) := by
  unfold trimChars
  simp only [List.dropWhile_cons, h0]
  rw [if_neg (by simp)]
  rw [show (c0 :: (mid ++ [c1])).reverse = c1 :: (mid.reverse ++ [c0]) by simp]
  simp only [List.dropWhile_cons, h1]
  rw [if_neg (by simp)]
  simp

theorem funcIsblank_ne_true (fops : FloatOps) (cells : CellMap) (fuel : Nat)
    (stack : List (Nat × Nat)) (s : List Char) :
    funcIsblank fops cells fuel stack s ≠ .ok (.boolean true) := by
  cases fuel with
  | zero => simp [funcIsblank]
  | succ n =>
    simp only [funcIsblank]
    cases hev : evalExpr fops cells n stack s with
    | fuelOut => simp
    | err e => simp
    | ok v =>
      simp only [EvalRes.bind_ok]
      cases v with
      | empty => exact absurd hev ((neverEmpty fops cells n).2.2.1 stack s)
      | number x => simp
      | text t => simp
      | boolean b => simp
      | error e => simp
      | formula f => simp

theorem tryFunction_isblank (fops : FloatOps) (cells : CellMap) (n : Nat)
    (stack : List (Nat × Nat)) (ref : List Char) :
    tryFunction fops cells (n + 1) stack ("ISBLANK(".toList ++ (ref ++ [')'])) =
      (funcIsblank fops cells n stack ref >>= fun v => pure (some v)) := by
  have hfind : List.findIdx? (fun c => c = '(')
      ("ISBLANK(".toList ++ (ref ++ [')'])) = some 7 := rfl
  have hlast : ("ISBLANK(".toList ++ (ref ++ [')'])).getLast? = some ')' := by
    rw [show "ISBLANK(".toList ++ (ref ++ [')']) =
      ("ISBLANK(".toList ++ ref) ++ [')'] from (List.append_assoc _ _ _).symm]
    exact List.getLast?_concat _
  have hargs : (("ISBLANK(".toList ++ (ref ++ [')'])).drop (7 + 1)).dropLast = ref := by
    have h1 : ("ISBLANK(".toList ++ (ref ++ [')'])).drop (7 + 1) = ref ++ [')'] := rfl
    rw [h1]
    exact List.dropLast_concat
  simp only [tryFunction, hfind]
  rw [if_neg (show ¬ (("ISBLANK(".toList ++ (ref ++ [')'])).getLast? ≠ some ')')
    from fun h => h hlast)]
  have htake : (trimChars (("ISBLANK(".toList ++ (ref ++ [')'])).take 7)).map toUpperChar
      = "ISBLANK".toList := rfl
  rw [htake, hargs]
  rfl


/-- C10: for every cell map, every fuel budget, every evaluation stack and
every argument text `r`, evaluating the formula `=ISBLANK(r)` never yields
`Boolean(true)`: dereferencing an empty or missing cell produces `Number(0)`
(never `Empty`), and `ISBLANK` answers `TRUE` only on `Empty`. -/
theorem C10_isblank_never_true (fops : FloatOps) (cells : CellMap) (fuel : Nat)
    (stack : List (Nat × Nat)) (ref : List Char) :
    evalFormula fops cells fuel stack ('=' :: ("ISBLANK(".toList ++ (ref ++ [')'])))
      ≠ .ok (.boolean true) := by
  cases fuel with
  | zero => simp [evalFormula]
  | succ m =>
    simp only [evalFormula]
    have htr : trimChars ('=' :: ("ISBLANK(".toList ++ (ref ++ [')'])))
        = '=' :: ("ISBLANK(".toList ++ (ref ++ [')'])) := by
      have h := trimChars_head_last '=' ("ISBLANK(".toList ++ ref) ')'
        (by decide) (by decide)
      simpa [List.append_assoc] using h
    rw [htr]
    rw [if_pos (show ('=' :: ("ISBLANK(".toList ++ (ref ++ [')']))).head? = some '='
      from rfl)]
    show evalExpr fops cells m stack ("ISBLANK(".toList ++ (ref ++ [')']))
      ≠ .ok (.boolean true)
    cases m with
    | zero => simp [evalExpr]
    | succ n =>
      simp only [evalExpr]
      have htr2 : trimChars ("ISBLANK(".toList ++ (ref ++ [')']))
          = "ISBLANK(".toList ++ (ref ++ [')']) := by
        have h := trimChars_head_last 'I' ("SBLANK(".toList ++ ref) ')'
          (by decide) (by decide)
        simpa [List.append_assoc] using h
      rw [htr2]
      cases n with
      | zero => simp [tryFunction]
      | succ k =>
        rw [tryFunction_isblank]
        cases hib : funcIsblank fops cells k stack ref with
        | fuelOut => simp [hib]
        | err e => simp [hib]
        | ok v =>
          have hv : v ≠ .boolean true := by
            intro h
            rw [h] at hib
            exact funcIsblank_ne_true fops cells k stack ref hib
          simp only [hib, EvalRes.bind_ok]
          intro hc
          exact hv (EvalRes.ok.inj hc)


/-! ## `evaluate_expr` on a canonical reference token -/

theorem cellName_mem_class {qc qr : Nat} {c : Char} (h : c ∈ cellName qc qr) :
    (65 ≤ c.toNat ∧ c.toNat ≤ 90) ∨ (48 ≤ c.toNat ∧ c.toNat ≤ 57) := by
  rcases List.mem_append.mp h with h1 | h2
  · exact Or.inl (colToName_all_upper qc c h1)
  · have hd := natDigits_all_digit (qr + 1) c h2
    simp only [isDigitChar, Bool.and_eq_true, decide_eq_true_eq] at hd
    exact Or.inr hd

/-- None of the operator/delimiter characters of `evaluate_expr` belongs to a
canonical reference token (letters 65-90, digits 48-57). -/
theorem cellName_ne_char {qc qr : Nat} {c : Char} (h : c ∈ cellName qc qr)
    (d : Char) (hd : d.toNat < 48 ∨ (57 < d.toNat ∧ d.toNat < 65) ∨ 90 < d.toNat) :
    c ≠ d := by
  intro hcd
  subst hcd
  rcases cellName_mem_class h with ⟨a, b⟩ | ⟨a, b⟩ <;> omega

theorem findOpGo_none (o0 : Char) (os : List Char) :
    ∀ (s : List Char) (d : Int) (i : Nat),
      (∀ c ∈ s, c ≠ '"' ∧ c ≠ '(' ∧ c ≠ ')' ∧ c ≠ o0) →
      findOpGo (o0 :: os) s d false i = none := by
  intro s
  induction s with
  | nil => intro d i h; rfl
  | cons c rest ih =>
    intro d i h
    obtain ⟨h1, h2, h3, h4⟩ := h c (by simp)
    have hpre : ¬ (d = 0 ∧ (o0 :: os).isPrefixOf (c :: rest)) := by
      rintro ⟨-, hpre⟩
      simp only [List.isPrefixOf, Bool.and_eq_true, beq_iff_eq] at hpre
      exact h4 hpre.1.symm
    rw [findOpGo, if_neg h1, if_neg (by simp), if_neg h2, if_neg h3, if_neg hpre]
    exact ih d (i + 1) (fun x hx => h x (by simp [hx]))

theorem findOperator_none (t : List Char) (o0 : Char) (os : List Char)
    (h : ∀ c ∈ t, c ≠ '"' ∧ c ≠ '(' ∧ c ≠ ')' ∧ c ≠ o0) :
    findOperator t (o0 :: os) = none :=
  findOpGo_none o0 os t 0 0 h

theorem findRtlGo_none (ops : List Char) :
    ∀ (s : List Char) (d : Int) (i : Nat),
      (∀ c ∈ s, c ≠ '"' ∧ c ≠ '(' ∧ c ≠ ')' ∧ ops.contains c = false) →
      findRtlGo ops s d false i = none := by
  intro s
  induction s with
  | nil => intro d i h; rfl
  | cons c rest ih =>
    intro d i h
    obtain ⟨h1, h2, h3, h4⟩ := h c (by simp)
    have hcon : ¬ (d = 0 ∧ ops.contains c = true) := by
      rintro ⟨-, hcon⟩
      rw [h4] at hcon
      exact Bool.noConfusion hcon
    rw [findRtlGo, if_neg h1, if_neg (by simp), if_neg h3, if_neg h2, if_neg hcon]
    exact ih d (i - 1) (fun x hx => h x (by simp [hx]))

theorem findOperatorRtl_none (t : List Char) (ops : List Char)
    (h : ∀ c ∈ t, c ≠ '"' ∧ c ≠ '(' ∧ c ≠ ')' ∧ ops.contains c = false) :
    findOperatorRtl t ops = none :=
  findRtlGo_none ops t.reverse 0 (t.length - 1)
    (fun c hc => h c (List.mem_reverse.mp hc))

theorem parseF64_none_of_head (c0 : Char) (rest : List Char)
    (hplus : c0 ≠ '+') (hminus : c0 ≠ '-') (hdig : isDigitChar c0 = false)
    (hdot : c0 ≠ '.') :
    parseF64 (c0 :: rest) = none := by
  unfold parseF64
  split
  next sgn s1 heq =>
    split at heq
    next u heq2 =>
      injection heq2 with ha
      exact absurd ha hplus
    next u heq2 =>
      injection heq2 with ha
      exact absurd ha hminus
    next =>
      injection heq with h1 h2
      subst h1
      subst h2
      simp only [List.takeWhile_cons, List.dropWhile_cons, hdig,
        Bool.false_eq_true, if_false]
      split
      next _ => rfl
      next hcond =>
        exfalso
        apply hcond
        refine ⟨by trivial, ?_⟩
        split
        next u heq4 =>
          injection heq4 with ha
          exact absurd ha hdot
        next => rfl

/-- `try_function` declines a text with no opening parenthesis. -/
theorem tryFunction_no_paren (fops : FloatOps) (cells : CellMap) (n : Nat)
    (stack : List (Nat × Nat)) (t : List Char) (h : ∀ c ∈ t, c ≠ '(') :
    tryFunction fops cells (n + 1) stack t = .ok none := by
  simp only [tryFunction]
  rw [show List.findIdx? (fun c => c = '(') t = none from
    List.findIdx?_eq_none_iff.mpr (fun x hx => by simp [h x hx])]
  rfl


theorem contains_eq_false_of {c : Char} {ops : List Char} (h : ∀ o ∈ ops, c ≠ o) :
    ops.contains c = false := by
  induction ops with
  | nil => rfl
  | cons o os ih =>
    rw [List.contains_cons]
    simp only [Bool.or_eq_false_iff]
    exact ⟨beq_eq_false_iff_ne.mpr (h o (by simp)),
      ih (fun x hx => h x (by simp [hx]))⟩

set_option maxHeartbeats 4000000 in
/-- On a canonical reference token, `evaluate_expr` falls through every
operator scan and literal parse and lands in the `parse_cell_ref` branch. -/
theorem evalExpr_ref (fops : FloatOps) (cells : CellMap) (n : Nat)
    (stack : List (Nat × Nat)) (qc qr : Nat)
    (hk : qc + 1 < usizeW) (hr : qr + 1 < usizeW) :
    evalExpr fops cells (n + 2) stack (cellName qc qr)
      = evalCell fops cells (n + 1) stack qc qr := by
  have hbase : ∀ c ∈ cellName qc qr, c ≠ '"' ∧ c ≠ '(' ∧ c ≠ ')' :=
    fun c hc => ⟨cellName_ne_char hc '"' (by decide),
      cellName_ne_char hc '(' (by decide), cellName_ne_char hc ')' (by decide)⟩
  have htrim : trimChars (cellName qc qr) = cellName qc qr :=
    trimChars_eq_self (fun c hc => not_space_of_ge (by
      rcases cellName_mem_class hc with ⟨a, _⟩ | ⟨a, _⟩ <;> omega))
  obtain ⟨c0, t0, hcol⟩ : ∃ c0 t0, colToName qc = c0 :: t0 := by
    cases h : colToName qc with
    | nil => exact absurd h (colToName_ne_nil qc)
    | cons a b => exact ⟨a, b, rfl⟩
  have hshape : cellName qc qr = c0 :: (t0 ++ natDigits (qr + 1)) := by
    unfold cellName
    rw [hcol]
    simp
  have hc0mem : c0 ∈ cellName qc qr := by rw [hshape]; simp
  have hc0 : 65 ≤ c0.toNat ∧ c0.toNat ≤ 90 :=
    colToName_all_upper qc c0 (by rw [hcol]; simp)
  have hhead : (cellName qc qr).head? = some c0 := by rw [hshape]; rfl
  have hheadne : ∀ d : Char, c0 ≠ d → ¬ ((cellName qc qr).head? = some d) := by
    intro d hd h
    rw [hhead] at h
    exact hd (Option.some.inj h)
  have hcmpops : ∀ (o0 : Char) (os : List Char),
      (o0.toNat < 48 ∨ (57 < o0.toNat ∧ o0.toNat < 65) ∨ 90 < o0.toNat) →
      findOperator (cellName qc qr) (o0 :: os) = none := by
    intro o0 os ho
    refine findOperator_none _ _ _ (fun c hc => ?_)
    exact ⟨(hbase c hc).1, (hbase c hc).2.1, (hbase c hc).2.2,
      cellName_ne_char hc o0 ho⟩
  have h1 : findOperator (cellName qc qr) ['>', '='] = none := hcmpops '>' ['='] (by decide)
  have h2 : findOperator (cellName qc qr) ['<', '='] = none := hcmpops '<' ['='] (by decide)
  have h3 : findOperator (cellName qc qr) ['<', '>'] = none := hcmpops '<' ['>'] (by decide)
  have h4 : findOperator (cellName qc qr) ['!', '='] = none := hcmpops '!' ['='] (by decide)
  have h5 : findOperator (cellName qc qr) ['='] = none := hcmpops '=' [] (by decide)
  have h6 : findOperator (cellName qc qr) ['>'] = none := hcmpops '>' [] (by decide)
  have h7 : findOperator (cellName qc qr) ['<'] = none := hcmpops '<' [] (by decide)
  have hcmp : findCmpIn cmpOpsList (cellName qc qr) = none := by
    simp [cmpOpsList, findCmpIn, h1, h2, h3, h4, h5, h6, h7]
  have hamp : findOperator (cellName qc qr) ("&".toList) = none := hcmpops '&' [] (by decide)
  have hrtlgen : ∀ ops : List Char,
      (∀ o ∈ ops, o.toNat < 48 ∨ (57 < o.toNat ∧ o.toNat < 65) ∨ 90 < o.toNat) →
      findOperatorRtl (cellName qc qr) ops = none := by
    intro ops ho
    refine findOperatorRtl_none _ _ (fun c hc => ?_)
    exact ⟨(hbase c hc).1, (hbase c hc).2.1, (hbase c hc).2.2,
      contains_eq_false_of (fun o hoo => cellName_ne_char hc o (ho o hoo))⟩
  have hpm := hrtlgen ['+', '-'] (by decide)
  have hmd := hrtlgen ['*', '/'] (by decide)
  have hpw := hrtlgen ['^'] (by decide)
  have hdigc0 : isDigitChar c0 = false := by
    rw [show isDigitChar c0 = (decide (48 ≤ c0.toNat) && decide (c0.toNat ≤ 57)) from rfl]
    simp only [Bool.and_eq_false_iff, decide_eq_false_iff_not]
    omega
  have hf64 : parseF64 (cellName qc qr) = none := by
    rw [hshape]
    exact parseF64_none_of_head c0 _ (cellName_ne_char hc0mem '+' (by decide))
      (cellName_ne_char hc0mem '-' (by decide)) hdigc0
      (cellName_ne_char hc0mem '.' (by decide))
  have hmapid : (cellName qc qr).map toUpperChar = cellName qc qr :=
    map_toUpperChar_id (fun c hc => by
      rcases cellName_mem_class hc with ⟨a, b⟩ | ⟨a, b⟩ <;> omega)
  have hlastd : ∃ d, (cellName qc qr).getLast? = some d ∧ isDigitChar d = true := by
    have hnd : natDigits (qr + 1) ≠ [] := natDigits_ne_nil _
    refine ⟨(natDigits (qr + 1)).getLast hnd, ?_, ?_⟩
    · unfold cellName
      rw [List.getLast?_append, List.getLast?_eq_getLast _ hnd]
      rfl
    · exact natDigits_all_digit _ _ (List.getLast_mem hnd)
  have htrue : ¬ ((cellName qc qr).map toUpperChar = "TRUE".toList) := by
    rw [hmapid]
    intro h
    obtain ⟨d, hd1, hd2⟩ := hlastd
    rw [h, show ("TRUE".toList).getLast? = some 'E' from rfl] at hd1
    rw [← Option.some.inj hd1] at hd2
    exact absurd hd2 (by decide)
  have hfalse : ¬ ((cellName qc qr).map toUpperChar = "FALSE".toList) := by
    rw [hmapid]
    intro h
    obtain ⟨d, hd1, hd2⟩ := hlastd
    rw [h, show ("FALSE".toList).getLast? = some 'E' from rfl] at hd1
    rw [← Option.some.inj hd1] at hd2
    exact absurd hd2 (by decide)
  have hquote : ¬ ((cellName qc qr).head? = some '"' ∧
      (cellName qc qr).getLast? = some '"' ∧ 2 ≤ (cellName qc qr).length) :=
    fun h => (hheadne '"' (cellName_ne_char hc0mem '"' (by decide))) h.1
  have hpcr := parseCellRef_cellName qc qr hk hr
  have hnp : ∀ c ∈ cellName qc qr, c ≠ '(' := fun c hc => (hbase c hc).2.1
  simp only [evalExpr]
  rw [htrim]
  rw [tryFunction_no_paren fops cells n stack (cellName qc qr) hnp]
  simp only [EvalRes.bind_ok]
  rw [if_neg (hheadne '(' (cellName_ne_char hc0mem '(' (by decide)))]
  rw [hcmp, hamp, hpm, hmd, hpw]
  rw [if_neg (hheadne '-' (cellName_ne_char hc0mem '-' (by decide)))]
  rw [hf64]
  rw [if_neg hquote]
  rw [if_neg htrue, if_neg hfalse]
  rw [hpcr]

theorem evalFormula_ref (fops : FloatOps) (cells : CellMap) (n : Nat)
    (stack : List (Nat × Nat)) (qc qr : Nat)
    (hk : qc + 1 < usizeW) (hr : qr + 1 < usizeW) :
    evalFormula fops cells (n + 3) stack ('=' :: cellName qc qr)
      = evalCell fops cells (n + 1) stack qc qr := by
  have htr : trimChars ('=' :: cellName qc qr) = '=' :: cellName qc qr :=
    trimChars_eq_self (by
      intro c hc
      rcases List.mem_cons.mp hc with rfl | hc2
      · decide
      · refine not_space_of_ge ?_
        rcases cellName_mem_class hc2 with ⟨a, _⟩ | ⟨a, _⟩ <;> omega)
  simp only [evalFormula]
  rw [htr]
  rw [if_pos (show ('=' :: cellName qc qr).head? = some '=' from rfl)]
  exact evalExpr_ref fops cells n stack qc qr hk hr


def c1Sheet : Sheet := Sheet.new.setCell 0 0 ("=IFERROR(A1,5)".toList)

/-- C1 counterexample: cell A1 of `c1Sheet` holds `=IFERROR(A1,5)`, a formula
cycle of length 1 (A1 refers to A1), yet `Sheet.evaluate` displays `5`, not
`#CYCLE!`: the cycle error reaches the `IFERROR` wrapper, which absorbs it
and answers the fallback argument. -/
theorem C1_cycle_detection_cex :
    Sheet.evaluate defaultFops c1Sheet 100 0 0 = "5".toList ∧
    Sheet.evaluate defaultFops c1Sheet 100 0 0 ≠ CellError.cycle.glyph := by
  have h : Sheet.evaluate defaultFops c1Sheet 100 0 0 = "5".toList := by
    with_unfolding_all rfl
  refine ⟨h, ?_⟩
  rw [h]
  decide

/-- C1 (amended): for direct reference cycles the evaluator terminates with
the `#CYCLE!` display at every sufficient fuel budget: a cell whose formula
is `=` followed by its own canonical name (length 1), and a pair of distinct
cells each holding `=` followed by the other's canonical name (length 2),
in any sheet. -/
theorem C1_cycle_detection :
    (∀ (fops : FloatOps) (sh : Sheet) (fu pc pr : Nat) (cellP : Cell),
      pc + 1 < usizeW → pr + 1 < usizeW →
      sh.cells (pc, pr) = some cellP →
      cellP.value = .formula ('=' :: cellName pc pr) →
      Sheet.evaluate fops sh (fu + 6) pc pr = CellError.cycle.glyph) ∧
    (∀ (fops : FloatOps) (sh : Sheet) (fu pc pr qc qr : Nat) (cellP cellQ : Cell),
      (pc, pr) ≠ (qc, qr) →
      pc + 1 < usizeW → pr + 1 < usizeW → qc + 1 < usizeW → qr + 1 < usizeW →
      sh.cells (pc, pr) = some cellP →
      cellP.value = .formula ('=' :: cellName qc qr) →
      sh.cells (qc, qr) = some cellQ →
      cellQ.value = .formula ('=' :: cellName pc pr) →
      Sheet.evaluate fops sh (fu + 9) pc pr = CellError.cycle.glyph) := by
  constructor
  · intro fops sh fu pc pr cellP hbc hbr hP hPv
    unfold Sheet.evaluate
    simp only [hP, Option.getD_some, hPv]
    have e1 : evalFormula fops sh.cells (fu + 6) [] ('=' :: cellName pc pr)
        = evalCell fops sh.cells (fu + 4) [] pc pr :=
      evalFormula_ref fops sh.cells (fu + 3) [] pc pr hbc hbr
    rw [e1]
    have e2 : evalCell fops sh.cells (fu + 4) [] pc pr
        = evalFormula fops sh.cells (fu + 3) [(pc, pr)] ('=' :: cellName pc pr) := by
      simp only [evalCell]
      rw [if_neg (by simp)]
      simp only [hP, hPv]
    rw [e2]
    have e3 : evalFormula fops sh.cells (fu + 3) [(pc, pr)] ('=' :: cellName pc pr)
        = evalCell fops sh.cells (fu + 1) [(pc, pr)] pc pr :=
      evalFormula_ref fops sh.cells fu [(pc, pr)] pc pr hbc hbr
    rw [e3]
    have e4 : evalCell fops sh.cells (fu + 1) [(pc, pr)] pc pr
        = .ok (.error .cycle) := by
      simp only [evalCell]
      rw [if_pos (by simp)]
      rfl
    rw [e4]
  · intro fops sh fu pc pr qc qr cellP cellQ hne hbc hbr hbqc hbqr hP hPv hQ hQv
    unfold Sheet.evaluate
    simp only [hP, Option.getD_some, hPv]
    have e1 : evalFormula fops sh.cells (fu + 9) [] ('=' :: cellName qc qr)
        = evalCell fops sh.cells (fu + 7) [] qc qr :=
      evalFormula_ref fops sh.cells (fu + 6) [] qc qr hbqc hbqr
    rw [e1]
    have e2 : evalCell fops sh.cells (fu + 7) [] qc qr
        = evalFormula fops sh.cells (fu + 6) [(qc, qr)] ('=' :: cellName pc pr) := by
      simp only [evalCell]
      rw [if_neg (by simp)]
      simp only [hQ, hQv]
    rw [e2]
    have e3 : evalFormula fops sh.cells (fu + 6) [(qc, qr)] ('=' :: cellName pc pr)
        = evalCell fops sh.cells (fu + 4) [(qc, qr)] pc pr :=
      evalFormula_ref fops sh.cells (fu + 3) [(qc, qr)] pc pr hbc hbr
    rw [e3]
    have e4 : evalCell fops sh.cells (fu + 4) [(qc, qr)] pc pr
        = evalFormula fops sh.cells (fu + 3) [(pc, pr), (qc, qr)]
            ('=' :: cellName qc qr) := by
      simp only [evalCell]
      rw [if_neg (by simp [hne])]
      simp only [hP, hPv]
    rw [e4]
    have e5 : evalFormula fops sh.cells (fu + 3) [(pc, pr), (qc, qr)]
          ('=' :: cellName qc qr)
        = evalCell fops sh.cells (fu + 1) [(pc, pr), (qc, qr)] qc qr :=
      evalFormula_ref fops sh.cells fu [(pc, pr), (qc, qr)] qc qr hbqc hbqr
    rw [e5]
    have e6 : evalCell fops sh.cells (fu + 1) [(pc, pr), (qc, qr)] qc qr
        = .ok (.error .cycle) := by
      simp only [evalCell]
      rw [if_pos (by simp)]
      rfl
    rw [e6]

/-- Witness for C1: the one-cell sheet `A1 = "=A1"` displays `#CYCLE!`. -/
theorem C1_cycle_detection_witness :
    Sheet.evaluate defaultFops (Sheet.new.setCell 0 0 ("=A1".toList)) 6 0 0
      = CellError.cycle.glyph :=
  C1_cycle_detection.1 defaultFops (Sheet.new.setCell 0 0 ("=A1".toList)) 0 0 0
    (Cell.new ("=A1".toList) (parseInput ("=A1".toList)))
    (by decide) (by decide)
    (by with_unfolding_all rfl)
    (by with_unfolding_all rfl)


/-! ## C5: canonical references and the insert/delete round trip -/

/-- Canonical-reference check mirroring the recursion of `adjustLoopGo`:
every reference token the rewriter would consume is already in rendered form
(upper-case letters that exactly name their column, row digits without
leading zeros) with headroom below the `usize` width.  Non-reference text is
passed through unchanged by the rewriter and needs no condition. -/
def canonRefsGo : Nat → List Char → Bool
  | 0, s => s.isEmpty
  | _ + 1, [] => true
  | fuel + 1, c :: rest =>
    if c = '"' then
      match rest.dropWhile (fun x => x != '"') with
      | [] => true
      | _ :: r3 => canonRefsGo fuel r3
    else
      let sc := scanRef (c :: rest)
      if sc.colRaw ≠ [] ∧ sc.rowStr ≠ [] then
        match parseUsizeDigits sc.rowStr with
        | some rowOne =>
          decide (0 < rowOne) &&
          decide (sc.colRaw = colToName (scannedColVal sc.colRaw)) &&
          decide (sc.rowStr = natDigits rowOne) &&
          decide (scannedColVal sc.colRaw + 2 < usizeW) &&
          decide (rowOne + 1 < usizeW) &&
          canonRefsGo fuel sc.rest
        | none => false
      else
        if sc.consumed = [] then canonRefsGo fuel rest
        else canonRefsGo fuel sc.rest

/-- Every reference in `s` is canonically rendered. -/
def canonRefs (s : List Char) : Bool := canonRefsGo s.length s

theorem takeWhile_append_of_all {p : Char → Bool} {L X : List Char}
    (hL : ∀ c ∈ L, p c = true) (hX : ∀ c, X.head? = some c → p c = false) :
    (L ++ X).takeWhile p = L ∧ (L ++ X).dropWhile p = X := by
  induction L with
  | nil =>
    simp only [List.nil_append]
    cases X with
    | nil => simp
    | cons x xs =>
      rw [List.takeWhile_cons, List.dropWhile_cons, hX x rfl]
      simp
  | cons a L' ih =>
    have ha : p a = true := hL a (by simp)
    obtain ⟨iht, ihd⟩ := ih (fun c hc => hL c (by simp [hc]))
    constructor
    · rw [List.cons_append, List.takeWhile_cons, ha]
      simp [iht]
    · rw [List.cons_append, List.dropWhile_cons, ha]
      simpa using ihd

theorem splitDollar_dollar (t : List Char) : splitDollar ('$' :: t) = (true, t) := by
  simp [splitDollar]

theorem splitDollar_not {c : Char} (t : List Char) (h : c ≠ '$') :
    splitDollar (c :: t) = (false, c :: t) := by
  simp [splitDollar, h]

/-- `scanRef` on a rendered reference followed by a tail that cannot extend
the digit run: the scan recovers exactly the rendered components. -/
theorem scanRef_canon (a b : Bool) (L D Y : List Char)
    (hLne : L ≠ []) (hLa : ∀ c ∈ L, isAlphaChar c = true)
    (hDne : D ≠ []) (hDd : ∀ c ∈ D, isDigitChar c = true)
    (hY : ∀ c, Y.head? = some c → isDigitChar c = false) :
    scanRef ((if a then ['$'] else []) ++ L ++ (if b then ['$'] else []) ++ D ++ Y)
      = ⟨a, L, b, D, Y⟩ := by
  obtain ⟨l0, L', hLs⟩ : ∃ l0 L', L = l0 :: L' := by
    cases L with
    | nil => exact absurd rfl hLne
    | cons x xs => exact ⟨x, xs, rfl⟩
  obtain ⟨d0, D', hDs⟩ : ∃ d0 D', D = d0 :: D' := by
    cases D with
    | nil => exact absurd rfl hDne
    | cons x xs => exact ⟨x, xs, rfl⟩
  have hmidhead : ∀ c, ((if b then ['$'] else []) ++ D ++ Y).head? = some c →
      isAlphaChar c = false := by
    intro c hc
    cases b with
    | true =>
      simp only [if_true, List.cons_append, List.head?_cons] at hc
      rw [← Option.some.inj hc]
      decide
    | false =>
      simp only [if_false, List.nil_append, hDs, List.cons_append, List.head?_cons] at hc
      rw [← Option.some.inj hc]
      exact digit_not_alpha (hDd d0 (by simp [hDs]))
  have hL1 : ((if a then ['$'] else []) ++ L ++ (if b then ['$'] else []) ++ D ++ Y) =
      (if a then ['$'] else []) ++ (L ++ ((if b then ['$'] else []) ++ D ++ Y)) := by
    simp [List.append_assoc]
  have hsplit1 : splitDollar ((if a then ['$'] else []) ++
      (L ++ ((if b then ['$'] else []) ++ D ++ Y)))
      = (a, L ++ ((if b then ['$'] else []) ++ D ++ Y)) := by
    cases a with
    | true => simpa using splitDollar_dollar _
    | false =>
      simp only [Bool.false_eq_true, if_false, List.nil_append]
      rw [hLs, List.cons_append]
      rw [splitDollar_not _ (alpha_ne_dollar (hLa l0 (by simp [hLs])))]
  have htw := takeWhile_append_of_all (p := isAlphaChar) hLa hmidhead
  have hsplit2 : splitDollar ((if b then ['$'] else []) ++ D ++ Y)
      = (b, D ++ Y) := by
    cases b with
    | true => simpa [List.append_assoc] using splitDollar_dollar (D ++ Y)
    | false =>
      simp only [Bool.false_eq_true, if_false, List.nil_append]
      rw [hDs, List.cons_append]
      rw [splitDollar_not _ (digit_ne_dollar (hDd d0 (by simp [hDs])))]
  have htw2 := takeWhile_append_of_all (p := isDigitChar) hDd hY
  unfold scanRef
  rw [hL1, hsplit1]
  simp only
  rw [htw.1, htw.2, List.append_assoc] at *
  rw [hsplit2]
  simp only
  rw [htw2.1, htw2.2]

theorem scannedColVal_colToName (col : Nat) (h : col + 1 < usizeW) :
    scannedColVal (colToName col) = col := by
  unfold scannedColVal
  rw [map_toUpperChar_id (fun c hc => by
    have := colToName_all_upper col c hc
    omega)]
  rw [lettersValW_eq _ (by rw [lettersVal_colToName]; omega)]
  rw [lettersVal_colToName]
  have hw : 1 ≤ usizeW := by decide
  have : col + 1 + (usizeW - 1) = col + usizeW := by omega
  rw [this, Nat.add_mod_right]
  exact Nat.mod_eq_of_lt (by omega)


theorem length_dropWhile_le' (p : Char → Bool) (l : List Char) :
    (l.dropWhile p).length ≤ l.length := by
  conv_rhs => rw [← List.takeWhile_append_dropWhile p l]
  rw [List.length_append]
  omega

theorem head_dropWhile_false {p : Char → Bool} {l : List Char} {c : Char}
    (h : (l.dropWhile p).head? = some c) : p c = false := by
  induction l with
  | nil => simp at h
  | cons a t ih =>
    rw [List.dropWhile_cons] at h
    by_cases hp : p a = true
    · rw [if_pos hp] at h
      exact ih h
    · rw [if_neg hp] at h
      rw [List.head?_cons] at h
      rw [← Option.some.inj h]
      exact Bool.eq_false_iff.mpr hp

theorem scanRef_rest_head {s : List Char} {c : Char}
    (h : (scanRef s).rest.head? = some c) : isDigitChar c = false := by
  unfold scanRef at h
  exact head_dropWhile_false h

/-- `scanRef` on a string whose first character is neither a letter, a digit,
a dollar, nor consumed otherwise: nothing is consumed. -/
theorem scanRef_xclass (c : Char) (rest : List Char)
    (hal : isAlphaChar c = false) (hdg : isDigitChar c = false) (hds : c ≠ '$') :
    scanRef (c :: rest) = ⟨false, [], false, [], c :: rest⟩ := by
  unfold scanRef
  rw [splitDollar_not _ hds]
  simp only [List.takeWhile_cons, List.dropWhile_cons, hal, hdg,
    Bool.false_eq_true, if_false]
  rw [splitDollar_not _ hds]
  simp only [List.takeWhile_cons, List.dropWhile_cons, hdg,
    Bool.false_eq_true, if_false]

/-- One loop step of the rewriter preserves the first character when that
character opens no reference and no string literal is consumed around it. -/
theorem adjustLoopGo_head_xclass (ch : StructureChange) (f : Nat) (c : Char)
    (rest : List Char) (hf : rest.length + 1 ≤ f)
    (hal : isAlphaChar c = false) (hdg : isDigitChar c = false) (hds : c ≠ '$') :
    ∃ t', adjustLoopGo ch f (c :: rest) = c :: t' := by
  obtain ⟨f', rfl⟩ : ∃ k, f = k + 1 := ⟨f - 1, by omega⟩
  rw [adjustLoopGo]
  by_cases hq : c = '"'
  · rw [if_pos hq]
    cases rest.dropWhile (fun x => x != '"') with
    | nil => exact ⟨_, rfl⟩
    | cons q r3 => exact ⟨_, rfl⟩
  · rw [if_neg hq]
    rw [scanRef_xclass c rest hal hdg hds]
    rw [if_neg (by simp)]
    rw [if_pos (by simp [RefScan.consumed])]
    exact ⟨_, rfl⟩

theorem renderRef_head_nondigit (a : Bool) (col : Nat) (b : Bool) (row : Nat)
    {c : Char} (h : (renderRef a col b row).head? = some c) :
    isDigitChar c = false := by
  unfold renderRef at h
  cases a with
  | true =>
    simp only [if_true, List.cons_append, List.head?_cons] at h
    rw [← Option.some.inj h]
    decide
  | false =>
    simp only [Bool.false_eq_true, if_false, List.nil_append] at h
    obtain ⟨l0, L', hLs⟩ : ∃ l0 L', colToName col = l0 :: L' := by
      cases hcn : colToName col with
      | nil => exact absurd hcn (colToName_ne_nil col)
      | cons x xs => exact ⟨x, xs, rfl⟩
    rw [hLs] at h
    simp only [List.cons_append, List.head?_cons] at h
    rw [← Option.some.inj h]
    have hu := colToName_all_upper col l0 (by rw [hLs]; simp)
    rw [show isDigitChar l0 = (decide (48 ≤ l0.toNat) && decide (l0.toNat ≤ 57)) from rfl]
    simp only [Bool.and_eq_false_iff, decide_eq_false_iff_not]
    omega

/-- Fuel invariance: the rewriting loop gives the same answer for every fuel
at least the input length. -/
theorem adjustLoopGo_fuel (ch : StructureChange) :
    ∀ (N : Nat) (s : List Char) (f1 f2 : Nat), s.length ≤ N → s.length ≤ f1 →
      s.length ≤ f2 → adjustLoopGo ch f1 s = adjustLoopGo ch f2 s := by
  intro N
  induction N with
  | zero =>
    intro s f1 f2 hN h1 h2
    have hs : s = [] := List.length_eq_zero.mp (Nat.le_zero.mp hN)
    subst hs
    cases f1 <;> cases f2 <;> rfl
  | succ N ih =>
    intro s f1 f2 hN h1 h2
    cases s with
    | nil => cases f1 <;> cases f2 <;> rfl
    | cons c rest =>
      simp only [List.length_cons] at hN h1 h2
      obtain ⟨f1', rfl⟩ : ∃ k, f1 = k + 1 := ⟨f1 - 1, by omega⟩
      obtain ⟨f2', rfl⟩ : ∃ k, f2 = k + 1 := ⟨f2 - 1, by omega⟩
      rw [adjustLoopGo, adjustLoopGo]
      by_cases hq : c = '"'
      · rw [if_pos hq, if_pos hq]
        cases hr2 : rest.dropWhile (fun x => x != '"') with
        | nil => rfl
        | cons q r3 =>
          simp only []
          have hr3 : r3.length + 1 ≤ rest.length := by
            have hle := length_dropWhile_le' (fun x => x != '"') rest
            rw [hr2] at hle
            simpa using hle
          rw [ih r3 f1' f2' (by omega) (by omega) (by omega)]
      · rw [if_neg hq, if_neg hq]
        have hscl := scanRef_rest_length (c :: rest)
        simp only [List.length_cons] at hscl
        by_cases hfull : (scanRef (c :: rest)).colRaw ≠ [] ∧
            (scanRef (c :: rest)).rowStr ≠ []
        · rw [if_pos hfull, if_pos hfull]
          have hcons : (scanRef (c :: rest)).consumed ≠ [] := by
            unfold RefScan.consumed
            intro hh
            rw [List.append_eq_nil, List.append_eq_nil, List.append_eq_nil] at hh
            exact hfull.1 hh.1.1.2
          have hcl : 1 ≤ (scanRef (c :: rest)).consumed.length := by
            cases hcc : (scanRef (c :: rest)).consumed with
            | nil => exact absurd hcc hcons
            | cons x xs => simp
          have hrl : (scanRef (c :: rest)).rest.length ≤ N := by omega
          have hrf1 : (scanRef (c :: rest)).rest.length ≤ f1' := by omega
          have hrf2 : (scanRef (c :: rest)).rest.length ≤ f2' := by omega
          cases parseUsizeDigits (scanRef (c :: rest)).rowStr with
          | none => rw [ih _ f1' f2' hrl hrf1 hrf2]
          | some rowOne =>
            simp only []
            by_cases h0 : 0 < rowOne
            · rw [if_pos h0, if_pos h0]
              by_cases hres : (applyStructureChange ch
                  (scannedColVal (scanRef (c :: rest)).colRaw) (rowOne - 1)).2.2
              · rw [if_pos hres, if_pos hres, ih _ f1' f2' hrl hrf1 hrf2]
              · rw [if_neg hres, if_neg hres, ih _ f1' f2' hrl hrf1 hrf2]
            · rw [if_neg h0, if_neg h0, ih _ f1' f2' hrl hrf1 hrf2]
        · rw [if_neg hfull, if_neg hfull]
          by_cases hce : (scanRef (c :: rest)).consumed = []
          · rw [if_pos hce, if_pos hce,
              ih rest f1' f2' (by omega) (by omega) (by omega)]
          · rw [if_neg hce, if_neg hce]
            have hcl : 1 ≤ (scanRef (c :: rest)).consumed.length := by
              cases hcc : (scanRef (c :: rest)).consumed with
              | nil => exact absurd hcc hce
              | cons x xs => simp
            rw [ih _ f1' f2' (by omega) (by omega) (by omega)]

/-- Fuel invariance for the canonicity check. -/
theorem canonRefsGo_fuel :
    ∀ (N : Nat) (s : List Char) (f1 f2 : Nat), s.length ≤ N → s.length ≤ f1 →
      s.length ≤ f2 → canonRefsGo f1 s = canonRefsGo f2 s := by
  intro N
  induction N with
  | zero =>
    intro s f1 f2 hN h1 h2
    have hs : s = [] := List.length_eq_zero.mp (Nat.le_zero.mp hN)
    subst hs
    cases f1 <;> cases f2 <;> rfl
  | succ N ih =>
    intro s f1 f2 hN h1 h2
    cases s with
    | nil => cases f1 <;> cases f2 <;> rfl
    | cons c rest =>
      simp only [List.length_cons] at hN h1 h2
      obtain ⟨f1', rfl⟩ : ∃ k, f1 = k + 1 := ⟨f1 - 1, by omega⟩
      obtain ⟨f2', rfl⟩ : ∃ k, f2 = k + 1 := ⟨f2 - 1, by omega⟩
      rw [canonRefsGo, canonRefsGo]
      by_cases hq : c = '"'
      · rw [if_pos hq, if_pos hq]
        cases hr2 : rest.dropWhile (fun x => x != '"') with
        | nil => rfl
        | cons q r3 =>
          simp only []
          have hr3 : r3.length + 1 ≤ rest.length := by
            have hle := length_dropWhile_le' (fun x => x != '"') rest
            rw [hr2] at hle
            simpa using hle
          rw [ih r3 f1' f2' (by omega) (by omega) (by omega)]
      · rw [if_neg hq, if_neg hq]
        have hscl := scanRef_rest_length (c :: rest)
        simp only [List.length_cons] at hscl
        by_cases hfull : (scanRef (c :: rest)).colRaw ≠ [] ∧
            (scanRef (c :: rest)).rowStr ≠ []
        · rw [if_pos hfull, if_pos hfull]
          have hcons : (scanRef (c :: rest)).consumed ≠ [] := by
            unfold RefScan.consumed
            intro hh
            rw [List.append_eq_nil, List.append_eq_nil, List.append_eq_nil] at hh
            exact hfull.1 hh.1.1.2
          have hcl : 1 ≤ (scanRef (c :: rest)).consumed.length := by
            cases hcc : (scanRef (c :: rest)).consumed with
            | nil => exact absurd hcc hcons
            | cons x xs => simp
          cases parseUsizeDigits (scanRef (c :: rest)).rowStr with
          | none => rfl
          | some rowOne =>
            simp only []
            rw [ih _ f1' f2' (by omega) (by omega) (by omega)]
        · rw [if_neg hfull, if_neg hfull]
          by_cases hce : (scanRef (c :: rest)).consumed = []
          · rw [if_pos hce, if_pos hce,
              ih rest f1' f2' (by omega) (by omega) (by omega)]
          · rw [if_neg hce, if_neg hce]
            have hcl : 1 ≤ (scanRef (c :: rest)).consumed.length := by
              cases hcc : (scanRef (c :: rest)).consumed with
              | nil => exact absurd hcc hce
              | cons x xs => simp
            rw [ih _ f1' f2' (by omega) (by omega) (by omega)]


theorem alpha_not_digit {c : Char} (h : isAlphaChar c = true) :
    isDigitChar c = false := by
  simp only [isAlphaChar, Bool.or_eq_true, Bool.and_eq_true, decide_eq_true_eq] at h
  simp only [isDigitChar, Bool.and_eq_false_iff, decide_eq_false_iff_not]
  omega

theorem head?_append_cases {l m : List Char} {c : Char} (h : (l ++ m).head? = some c) :
    l.head? = some c ∨ (l = [] ∧ m.head? = some c) := by
  cases l with
  | nil => exact Or.inr ⟨rfl, h⟩
  | cons a t =>
    rw [List.cons_append, List.head?_cons] at h
    exact Or.inl (by rw [List.head?_cons, h])

/-- The head of the text a `scanRef` consumes is never a digit when the
scanned text does not start with one. -/
theorem consumed_head_nondigit {c : Char} {rest : List Char}
    (hcd : isDigitChar c = false) {c' : Char}
    (h : ((scanRef (c :: rest)).consumed).head? = some c') :
    isDigitChar c' = false := by
  rcases hsc : scanRef (c :: rest) with ⟨cA, cR, rA, rS, rst⟩
  have hcAeq : (splitDollar (c :: rest)).1 = cA := congrArg RefScan.colAbs hsc
  have hcReq : (splitDollar (c :: rest)).2.takeWhile isAlphaChar = cR :=
    congrArg RefScan.colRaw hsc
  have hrAeq : (splitDollar ((splitDollar (c :: rest)).2.dropWhile isAlphaChar)).1 = rA :=
    congrArg RefScan.rowAbs hsc
  have hrSeq : (splitDollar ((splitDollar (c :: rest)).2.dropWhile isAlphaChar)).2.takeWhile
      isDigitChar = rS := congrArg RefScan.rowStr hsc
  rw [hsc] at h
  simp only [RefScan.consumed] at h
  cases cA with
  | true =>
    simp only [if_true, List.cons_append, List.head?_cons] at h
    rw [← Option.some.inj h]
    decide
  | false =>
    simp only [Bool.false_eq_true, if_false, List.nil_append] at h
    have hcne : c ≠ '$' := by
      intro hc
      rw [hc, splitDollar_dollar] at hcAeq
      exact Bool.noConfusion hcAeq
    rw [splitDollar_not _ hcne] at hcReq hrAeq hrSeq
    cases hcRc : cR with
    | cons l0 L' =>
      rw [hcRc] at h
      simp only [List.cons_append, List.head?_cons] at h
      rw [← Option.some.inj h]
      refine alpha_not_digit (List.mem_takeWhile_imp (l := c :: rest) (p := isAlphaChar) ?_)
      rw [hcReq, hcRc]
      simp
    | nil =>
      rw [hcRc] at h
      simp only [List.nil_append] at h
      have hcal : isAlphaChar c = false := by
        by_contra hcc
        have hcc2 : isAlphaChar c = true := by
          cases hical : isAlphaChar c with
          | true => rfl
          | false => exact absurd hical hcc
        rw [hcRc] at hcReq
        rw [List.takeWhile_cons, hcc2] at hcReq
        simp at hcReq
      rw [List.dropWhile_cons, hcal] at hrAeq hrSeq
      simp only [Bool.false_eq_true, if_false] at hrAeq hrSeq
      rw [splitDollar_not _ hcne] at hrAeq hrSeq
      cases rA with
      | true => exact Bool.noConfusion hrAeq
      | false =>
        simp only [Bool.false_eq_true, if_false, List.nil_append] at h
        rw [List.takeWhile_cons, hcd] at hrSeq
        simp only [Bool.false_eq_true, if_false] at hrSeq
        rw [← hrSeq] at h
        simp at h

theorem renderRef_ne_nil {a : Bool} {col : Nat} {b : Bool} {row : Nat} :
    renderRef a col b row ≠ [] := by
  rw [renderRef]
  intro h
  rcases List.append_eq_nil.mp h with ⟨h2, -⟩
  rcases List.append_eq_nil.mp h2 with ⟨h3, -⟩
  rcases List.append_eq_nil.mp h3 with ⟨-, h4⟩
  exact colToName_ne_nil col h4

/-- The rewriter's output never starts with a digit when its input does not. -/
theorem adjustLoopGo_head_nondigit (ch : StructureChange) :
    ∀ (f : Nat) (s : List Char),
      (∀ c, s.head? = some c → isDigitChar c = false) →
      ∀ c', (adjustLoopGo ch f s).head? = some c' → isDigitChar c' = false := by
  intro f s hs c' hc'
  match f, s with
  | 0, s => simp [adjustLoopGo] at hc'
  | f' + 1, [] => simp [adjustLoopGo] at hc'
  | f' + 1, c :: rest =>
    have hcd : isDigitChar c = false := hs c rfl
    rw [adjustLoopGo] at hc'
    by_cases hq : c = '"'
    · rw [if_pos hq] at hc'
      dsimp only at hc'
      split at hc'
      · rw [List.head?_cons] at hc'
        rw [← Option.some.inj hc']
        exact hcd
      · simp only [List.cons_append, List.head?_cons] at hc'
        rw [← Option.some.inj hc']
        exact hcd
    · rw [if_neg hq] at hc'
      dsimp only at hc'
      split at hc'
      · -- reference branch
        split at hc'
        · -- parse ok
          split at hc'
          · -- row > 0
            split at hc'
            · -- #REF!
              rcases head?_append_cases hc' with h1 | ⟨h1, -⟩
              · rw [show ("#REF!".toList).head? = some '#' from rfl] at h1
                rw [← Option.some.inj h1]
                decide
              · exact absurd h1 (by decide)
            · -- rendered reference
              rcases head?_append_cases hc' with h1 | ⟨h1, -⟩
              · exact renderRef_head_nondigit _ _ _ _ h1
              · exact absurd h1 renderRef_ne_nil
          · -- row = 0: verbatim
            rcases head?_append_cases hc' with h1 | ⟨-, h2⟩
            · exact consumed_head_nondigit hcd h1
            · exact adjustLoopGo_head_nondigit ch f' _
                (fun d hd => scanRef_rest_head hd) c' h2
        · -- parse failed: verbatim
          rcases head?_append_cases hc' with h1 | ⟨-, h2⟩
          · exact consumed_head_nondigit hcd h1
          · exact adjustLoopGo_head_nondigit ch f' _
              (fun d hd => scanRef_rest_head hd) c' h2
      · split at hc'
        · -- consumed empty: character copied
          rw [List.head?_cons] at hc'
          rw [← Option.some.inj hc']
          exact hcd
        · -- verbatim
          rcases head?_append_cases hc' with h1 | ⟨-, h2⟩
          · exact consumed_head_nondigit hcd h1
          · exact adjustLoopGo_head_nondigit ch f' _
              (fun d hd => scanRef_rest_head hd) c' h2


theorem mem_of_head? {l : List Char} {x : Char} (h : l.head? = some x) : x ∈ l := by
  cases l with
  | nil => simp at h
  | cons a t =>
    rw [List.head?_cons] at h
    rw [← Option.some.inj h]
    simp

theorem adjustLoopGo_nil (ch : StructureChange) (f : Nat) :
    adjustLoopGo ch f [] = [] := by
  cases f <;> rfl

theorem parseUsizeDigits_natDigits (n : Nat) (h : n < usizeW) :
    parseUsizeDigits (natDigits n) = some n := by
  rw [parseUsizeDigits, digitsVal_natDigits, if_pos h]

theorem colToName_all_alpha (k : Nat) :
    ∀ c ∈ colToName k, isAlphaChar c = true := fun c hc =>
  isAlphaChar_of_range (colToName_all_upper k c hc).1 (colToName_all_upper k c hc).2

/-- Any character the scanner consumes is a dollar, a letter, or a digit. -/
theorem consumed_head_classes {s : List Char} {x : Char}
    (h : (scanRef s).consumed.head? = some x) :
    x = '$' ∨ isAlphaChar x = true ∨ isDigitChar x = true := by
  have hcRa : ∀ c ∈ (scanRef s).colRaw, isAlphaChar c = true := fun c hc =>
    List.mem_takeWhile_imp hc
  have hrSd : ∀ c ∈ (scanRef s).rowStr, isDigitChar c = true := fun c hc =>
    List.mem_takeWhile_imp hc
  rw [RefScan.consumed] at h
  rcases head?_append_cases h with h1 | ⟨-, h1⟩
  · rcases head?_append_cases h1 with h2 | ⟨-, h2⟩
    · rcases head?_append_cases h2 with h3 | ⟨-, h3⟩
      · cases hb : (scanRef s).colAbs with
        | true =>
          rw [hb] at h3
          simp only [if_true, List.head?_cons] at h3
          exact Or.inl (Option.some.inj h3).symm
        | false =>
          rw [hb] at h3
          simp at h3
      · exact Or.inr (Or.inl (hcRa x (mem_of_head? h3)))
    · cases hb : (scanRef s).rowAbs with
      | true =>
        rw [hb] at h2
        simp only [if_true, List.head?_cons] at h2
        exact Or.inl (Option.some.inj h2).symm
      | false =>
        rw [hb] at h2
        simp at h2
  · exact Or.inr (Or.inr (hrSd x (mem_of_head? h1)))

theorem consumed_head_ne_quote {s : List Char} {x : Char}
    (h : (scanRef s).consumed.head? = some x) : x ≠ '"' := by
  rcases consumed_head_classes h with h1 | h1 | h1
  · rw [h1]; decide
  · intro hx
    rw [hx] at h1
    exact absurd h1 (by decide)
  · intro hx
    rw [hx] at h1
    exact absurd h1 (by decide)

theorem renderRef_head_ne_quote (a : Bool) (col : Nat) (b : Bool) (row : Nat)
    {x : Char} (h : (renderRef a col b row).head? = some x) : x ≠ '"' := by
  rw [renderRef] at h
  rcases head?_append_cases h with h1 | ⟨-, h1⟩
  · rcases head?_append_cases h1 with h2 | ⟨-, h2⟩
    · rcases head?_append_cases h2 with h3 | ⟨-, h3⟩
      · cases a with
        | true =>
          simp only [if_true, List.head?_cons] at h3
          rw [← Option.some.inj h3]
          decide
        | false => simp at h3
      · have := colToName_all_upper col x (mem_of_head? h3)
        intro hx
        rw [hx] at this
        revert this
        decide
    · cases b with
      | true =>
        simp only [if_true, List.head?_cons] at h2
        rw [← Option.some.inj h2]
        decide
      | false => simp at h2
  · have := natDigits_all_digit _ x (mem_of_head? h1)
    intro hx
    rw [hx] at this
    exact absurd this (by decide)

/-- `scanRef` on consumed-shaped text followed by a tail the scan cannot
absorb gives back exactly the listed components. -/
theorem scanRef_generic (cA rA : Bool) (cR rS Y : List Char)
    (hcRa : ∀ c ∈ cR, isAlphaChar c = true)
    (hrSd : ∀ c ∈ rS, isDigitChar c = true)
    (hY1 : ∀ c, Y.head? = some c → isDigitChar c = false)
    (hY2 : rS = [] → rA = false →
      ∀ c, Y.head? = some c → isAlphaChar c = false ∧ c ≠ '$')
    (hcomb : cA = false → cR = [] → rA = false) :
    scanRef ((if cA then ['$'] else []) ++ cR ++ (if rA then ['$'] else []) ++ rS ++ Y)
      = ⟨cA, cR, rA, rS, Y⟩ := by
  have hmidA : ∀ c, ((if rA then ['$'] else []) ++ rS ++ Y).head? = some c →
      isAlphaChar c = false := by
    intro c hc
    rcases head?_append_cases hc with h1 | ⟨h1, h2⟩
    · rcases head?_append_cases h1 with h3 | ⟨h3, h4⟩
      · cases rA with
        | true =>
          simp only [if_true, List.head?_cons] at h3
          rw [← Option.some.inj h3]
          decide
        | false => simp at h3
      · exact digit_not_alpha (hrSd c (mem_of_head? h4))
    · rcases List.append_eq_nil.mp h1 with ⟨h3, h4⟩
      have hrAf : rA = false := by
        cases rA with
        | false => rfl
        | true => simp at h3
      exact (hY2 h4 hrAf c h2).1
  have hmidD : ∀ c, ((if rA then ['$'] else []) ++ rS ++ Y).head? = some c →
      c ≠ '$' → False → True := fun _ _ _ _ => trivial
  have hsplit2 : splitDollar ((if rA then ['$'] else []) ++ rS ++ Y) = (rA, rS ++ Y) := by
    cases rA with
    | true => simpa [List.append_assoc] using splitDollar_dollar (rS ++ Y)
    | false =>
      simp only [Bool.false_eq_true, if_false, List.nil_append]
      cases hrSc : rS with
      | cons d0 D' =>
        rw [List.cons_append]
        rw [splitDollar_not _ (digit_ne_dollar (hrSd d0 (by simp [hrSc])))]
      | nil =>
        simp only [List.nil_append]
        cases hYc : Y with
        | nil => rfl
        | cons y0 Y' =>
          rw [splitDollar_not _ (hY2 hrSc rfl y0 (by rw [hYc]; rfl)).2]
  have htwD := takeWhile_append_of_all (p := isDigitChar) hrSd hY1
  have hsplit1 : splitDollar ((if cA then ['$'] else []) ++
      (cR ++ ((if rA then ['$'] else []) ++ rS ++ Y)))
      = (cA, cR ++ ((if rA then ['$'] else []) ++ rS ++ Y)) := by
    cases cA with
    | true => simpa using splitDollar_dollar _
    | false =>
      simp only [Bool.false_eq_true, if_false, List.nil_append]
      cases hcRc : cR with
      | cons l0 L' =>
        rw [List.cons_append]
        rw [splitDollar_not _ (alpha_ne_dollar (hcRa l0 (by simp [hcRc])))]
      | nil =>
        simp only [List.nil_append]
        have hrAf : rA = false := hcomb rfl hcRc
        rw [hrAf]
        simp only [Bool.false_eq_true, if_false, List.nil_append]
        cases hrSc : rS with
        | cons d0 D' =>
          rw [List.cons_append]
          rw [splitDollar_not _ (digit_ne_dollar (hrSd d0 (by simp [hrSc])))]
        | nil =>
          simp only [List.nil_append]
          cases hYc : Y with
          | nil => rfl
          | cons y0 Y' =>
            rw [splitDollar_not _ (hY2 hrSc hrAf y0 (by rw [hYc]; rfl)).2]
  have htwA := takeWhile_append_of_all (p := isAlphaChar) hcRa hmidA
  have hL1 : ((if cA then ['$'] else []) ++ cR ++ (if rA then ['$'] else []) ++ rS ++ Y) =
      (if cA then ['$'] else []) ++ (cR ++ ((if rA then ['$'] else []) ++ rS ++ Y)) := by
    simp [List.append_assoc]
  unfold scanRef
  rw [hL1, hsplit1]
  simp only
  rw [htwA.1, htwA.2]
  rw [hsplit2]
  simp only
  rw [htwD.1, htwD.2]

/-- `insDelPair ins del`: the delete change undoes the insert change on every
reference with headroom, and neither step flags a `#REF!` error. -/
def insDelPair (ins del : StructureChange) : Prop :=
  ∀ col row, col + 2 < usizeW → row + 2 < usizeW →
    ∃ col1 row1,
      applyStructureChange ins col row = (col1, row1, false) ∧
      col1 + 2 < usizeW + 1 ∧ row1 + 2 < usizeW + 1 ∧
      applyStructureChange del col1 row1 = (col, row, false)

theorem insDelPair_row (R : Nat) : insDelPair (.rowInsert R) (.rowDelete R) := by
  intro col row hc hr
  by_cases hge : row ≥ R
  · refine ⟨col, row + 1, ?_, by omega, by omega, ?_⟩
    · simp only [applyStructureChange, if_pos hge]
      rw [Nat.mod_eq_of_lt (by omega)]
    · simp only [applyStructureChange]
      rw [if_neg (by omega), if_pos (by omega)]
      simp
  · refine ⟨col, row, ?_, by omega, by omega, ?_⟩
    · simp only [applyStructureChange, if_neg hge]
    · simp only [applyStructureChange]
      rw [if_neg (by omega), if_neg (by omega)]

theorem insDelPair_col (C : Nat) : insDelPair (.colInsert C) (.colDelete C) := by
  intro col row hc hr
  by_cases hge : col ≥ C
  · refine ⟨col + 1, row, ?_, by omega, by omega, ?_⟩
    · simp only [applyStructureChange, if_pos hge]
      rw [Nat.mod_eq_of_lt (by omega)]
    · simp only [applyStructureChange]
      rw [if_neg (by omega), if_pos (by omega)]
      simp
  · refine ⟨col, row, ?_, by omega, by omega, ?_⟩
    · simp only [applyStructureChange, if_neg hge]
    · simp only [applyStructureChange]
      rw [if_neg (by omega), if_neg (by omega)]


/-- One rewriter step on a complete reference token. -/
theorem adjustLoopGo_full_step (ch : StructureChange) (f : Nat) (s : List Char)
    (hne : s ≠ []) (hq : ∀ x, s.head? = some x → x ≠ '"')
    (cA rA : Bool) (cR rS rst : List Char) (rowOne : Nat)
    (hsc : scanRef s = ⟨cA, cR, rA, rS, rst⟩)
    (hcR : cR ≠ []) (hrS : rS ≠ [])
    (hpu : parseUsizeDigits rS = some rowOne) (h0 : 0 < rowOne)
    (col1 row1 : Nat)
    (happ : applyStructureChange ch (scannedColVal cR) (rowOne - 1) = (col1, row1, false)) :
    adjustLoopGo ch (f + 1) s =
      renderRef cA col1 rA row1 ++ adjustLoopGo ch f rst := by
  obtain ⟨c, t, rfl⟩ : ∃ c t, s = c :: t := by
    cases s with
    | nil => exact absurd rfl hne
    | cons c t => exact ⟨c, t, rfl⟩
  rw [adjustLoopGo, if_neg (hq c rfl)]
  dsimp only
  rw [hsc]
  dsimp only
  rw [if_pos ⟨hcR, hrS⟩, hpu]
  dsimp only
  rw [if_pos h0, happ]
  dsimp only
  simp only [Bool.false_eq_true, if_false]

/-- One rewriter step on a partial token: the consumed text is copied. -/
theorem adjustLoopGo_verbatim_step (ch : StructureChange) (f : Nat) (s : List Char)
    (hne : s ≠ []) (hq : ∀ x, s.head? = some x → x ≠ '"')
    (hnotfull : ¬((scanRef s).colRaw ≠ [] ∧ (scanRef s).rowStr ≠ []))
    (hcne : (scanRef s).consumed ≠ []) :
    adjustLoopGo ch (f + 1) s =
      (scanRef s).consumed ++ adjustLoopGo ch f (scanRef s).rest := by
  obtain ⟨c, t, rfl⟩ : ∃ c t, s = c :: t := by
    cases s with
    | nil => exact absurd rfl hne
    | cons c t => exact ⟨c, t, rfl⟩
  rw [adjustLoopGo, if_neg (hq c rfl)]
  dsimp only
  rw [if_neg hnotfull, if_neg hcne]

/-- One rewriter step on a character that opens no token: it is copied. -/
theorem adjustLoopGo_copy_step (ch : StructureChange) (f : Nat) (c : Char)
    (t : List Char) (hq : c ≠ '"')
    (hnotfull : ¬((scanRef (c :: t)).colRaw ≠ [] ∧ (scanRef (c :: t)).rowStr ≠ []))
    (hce : (scanRef (c :: t)).consumed = []) :
    adjustLoopGo ch (f + 1) (c :: t) = c :: adjustLoopGo ch f t := by
  rw [adjustLoopGo, if_neg hq]
  dsimp only
  rw [if_neg hnotfull, if_pos hce]

/-- A character consuming nothing is neither letter, digit nor dollar. -/
theorem scanRef_consumed_empty_xclass {c : Char} {rest : List Char}
    (h : (scanRef (c :: rest)).consumed = []) :
    isAlphaChar c = false ∧ isDigitChar c = false ∧ c ≠ '$' := by
  rw [RefScan.consumed] at h
  rcases List.append_eq_nil.mp h with ⟨h1, hrS⟩
  rcases List.append_eq_nil.mp h1 with ⟨h2, -⟩
  rcases List.append_eq_nil.mp h2 with ⟨hA, hcR⟩
  have hcAf : (scanRef (c :: rest)).colAbs = false := by
    cases hb : (scanRef (c :: rest)).colAbs with
    | false => rfl
    | true => rw [hb] at hA; simp at hA
  have hcAeq : (splitDollar (c :: rest)).1 = false := hcAf
  have hcne : c ≠ '$' := by
    intro hc
    rw [hc, splitDollar_dollar] at hcAeq
    exact Bool.noConfusion hcAeq
  have hcReq : (splitDollar (c :: rest)).2.takeWhile isAlphaChar = [] := hcR
  rw [splitDollar_not _ hcne] at hcReq
  have hcal : isAlphaChar c = false := by
    by_contra hcc
    rw [List.takeWhile_cons] at hcReq
    cases hical : isAlphaChar c with
    | false => exact hcc hical
    | true =>
      rw [hical] at hcReq
      simp at hcReq
  have hrSeq : (splitDollar ((splitDollar (c :: rest)).2.dropWhile isAlphaChar)).2.takeWhile
      isDigitChar = [] := hrS
  rw [splitDollar_not _ hcne, List.dropWhile_cons, hcal] at hrSeq
  simp only [Bool.false_eq_true, if_false] at hrSeq
  rw [splitDollar_not _ hcne, List.takeWhile_cons] at hrSeq
  have hcd : isDigitChar c = false := by
    cases hical : isDigitChar c with
    | false => rfl
    | true =>
      rw [hical] at hrSeq
      simp at hrSeq
  exact ⟨hcal, hcd, hcne⟩

/-- When a scan finds no row digits and no row dollar, the remaining text
starts with a character that opens no reference. -/
theorem scanRef_norow_rest_xclass {s : List Char}
    (hrA : (scanRef s).rowAbs = false) (hrS : (scanRef s).rowStr = []) :
    ∀ d, (scanRef s).rest.head? = some d →
      isAlphaChar d = false ∧ isDigitChar d = false ∧ d ≠ '$' := by
  intro d hd
  have hs2 : (scanRef s).rest =
      ((splitDollar ((splitDollar s).2.dropWhile isAlphaChar)).2.dropWhile isDigitChar) := rfl
  have hrSeq : (splitDollar ((splitDollar s).2.dropWhile isAlphaChar)).2.takeWhile
      isDigitChar = [] := hrS
  have hrAeq : (splitDollar ((splitDollar s).2.dropWhile isAlphaChar)).1 = false := hrA
  cases hs2c : (splitDollar s).2.dropWhile isAlphaChar with
  | nil =>
    rw [hs2, hs2c] at hd
    simp [splitDollar] at hd
  | cons x t =>
    have hxd : x ≠ '$' := by
      intro hx
      rw [hs2c, hx, splitDollar_dollar] at hrAeq
      exact Bool.noConfusion hrAeq
    rw [hs2c, splitDollar_not _ hxd] at hrSeq hs2
    rw [List.takeWhile_cons] at hrSeq
    have hxdig : isDigitChar x = false := by
      cases hical : isDigitChar x with
      | false => rfl
      | true =>
        rw [hical] at hrSeq
        simp at hrSeq
    rw [List.dropWhile_cons, hxdig] at hs2
    simp only [Bool.false_eq_true, if_false] at hs2
    rw [hs2, List.head?_cons] at hd
    have hdx : d = x := Option.some.inj hd.symm
    subst hdx
    refine ⟨?_, hxdig, hxd⟩
    exact head_dropWhile_false (p := isAlphaChar) (by rw [hs2c]; rfl)


theorem scanRef_comb {c : Char} {rest : List Char}
    (h1 : (scanRef (c :: rest)).colAbs = false)
    (h2 : (scanRef (c :: rest)).colRaw = []) :
    (scanRef (c :: rest)).rowAbs = false := by
  have hcAeq : (splitDollar (c :: rest)).1 = false := h1
  have hcne : c ≠ '$' := by
    intro hc
    rw [hc, splitDollar_dollar] at hcAeq
    exact Bool.noConfusion hcAeq
  have hcReq : (splitDollar (c :: rest)).2.takeWhile isAlphaChar = [] := h2
  rw [splitDollar_not _ hcne] at hcReq
  have hcal : isAlphaChar c = false := by
    cases hical : isAlphaChar c with
    | false => rfl
    | true => rw [List.takeWhile_cons, hical] at hcReq; simp at hcReq
  show (splitDollar ((splitDollar (c :: rest)).2.dropWhile isAlphaChar)).1 = false
  rw [splitDollar_not _ hcne, List.dropWhile_cons, hcal]
  simp only [Bool.false_eq_true, if_false]
  rw [splitDollar_not _ hcne]

/-- Round trip of the structural rewriting loop: on a formula whose
references are canonically rendered, the paired delete pass inverts the
insert pass exactly. -/
theorem adjustLoopGo_roundtrip (ins del : StructureChange) (hg : insDelPair ins del) :
    ∀ (N : Nat) (s : List Char) (f1 f2 : Nat), s.length ≤ N → s.length ≤ f1 →
      (adjustLoopGo ins f1 s).length ≤ f2 →
      canonRefsGo s.length s = true →
      adjustLoopGo del f2 (adjustLoopGo ins f1 s) = s := by
  intro N
  induction N with
  | zero =>
    intro s f1 f2 hN h1 h2 hcanon
    have hs : s = [] := List.length_eq_zero.mp (Nat.le_zero.mp hN)
    subst hs
    rw [adjustLoopGo_nil, adjustLoopGo_nil]
  | succ N ih =>
    intro s f1 f2 hN h1 h2 hcanon
    cases s with
    | nil => rw [adjustLoopGo_nil, adjustLoopGo_nil]
    | cons c rest =>
      simp only [List.length_cons] at hN h1
      obtain ⟨f1', rfl⟩ : ∃ k, f1 = k + 1 := ⟨f1 - 1, by omega⟩
      rw [List.length_cons, canonRefsGo] at hcanon
      by_cases hq : c = '"'
      · -- string literal
        rw [if_pos hq] at hcanon
        cases hr2 : rest.dropWhile (fun x => x != '"') with
        | nil =>
          have hbody : rest.takeWhile (fun x => x != '"') = rest := by
            conv_rhs => rw [← List.takeWhile_append_dropWhile (fun x => x != '"') rest]
            rw [hr2, List.append_nil]
          have hins : adjustLoopGo ins (f1' + 1) (c :: rest) = c :: rest := by
            rw [adjustLoopGo, if_pos hq]
            dsimp only
            rw [hr2]
            dsimp only
            rw [hbody]
          rw [hins] at h2 ⊢
          simp only [List.length_cons] at h2
          obtain ⟨f2', rfl⟩ : ∃ k, f2 = k + 1 := ⟨f2 - 1, by omega⟩
          rw [adjustLoopGo, if_pos hq]
          dsimp only
          rw [hr2]
          dsimp only
          rw [hbody]
        | cons q r3 =>
          rw [hr2] at hcanon
          dsimp only at hcanon
          have hq2 : q = '"' := by
            have hh := head_dropWhile_false (p := fun x => x != '"') (l := rest)
              (c := q) (by rw [hr2]; rfl)
            simpa using hh
          subst hq2
          have hr3len : r3.length + 1 ≤ rest.length := by
            have hle := length_dropWhile_le' (fun x => x != '"') rest
            rw [hr2] at hle
            simp only [List.length_cons] at hle
            omega
          have hins : adjustLoopGo ins (f1' + 1) (c :: rest) =
              (c :: rest.takeWhile (fun x => x != '"')) ++
                ('"' :: adjustLoopGo ins f1' r3) := by
            rw [adjustLoopGo, if_pos hq]
            dsimp only
            rw [hr2]
          rw [hins] at h2 ⊢
          simp only [List.length_append, List.length_cons] at h2
          obtain ⟨f2', rfl⟩ : ∃ k, f2 = k + 1 := ⟨f2 - 1, by omega⟩
          rw [show (c :: rest.takeWhile (fun x => x != '"')) ++
              ('"' :: adjustLoopGo ins f1' r3) =
              c :: (rest.takeWhile (fun x => x != '"') ++
                '"' :: adjustLoopGo ins f1' r3) from rfl]
          rw [adjustLoopGo, if_pos hq]
          dsimp only
          have hbodyall : ∀ x ∈ rest.takeWhile (fun x => x != '"'), (x != '"') = true := by
            intro x hx
            exact List.mem_takeWhile_imp (p := fun y => y != '"') hx
          have htw := takeWhile_append_of_all (p := fun x => x != '"') hbodyall
            (X := '"' :: adjustLoopGo ins f1' r3)
            (by intro x hx; rw [List.head?_cons] at hx; rw [← Option.some.inj hx]; simp)
          rw [htw.2]
          dsimp only
          rw [htw.1]
          rw [ih r3 f1' f2' (by omega) (by omega) (by omega)
            (by rw [← canonRefsGo_fuel rest.length r3 rest.length r3.length
                  (by omega) (by omega) (le_refl _)]
                exact hcanon)]
          rw [show (c :: rest.takeWhile (fun x => x != '"')) ++ ('"' :: r3) =
              c :: (rest.takeWhile (fun x => x != '"') ++ '"' :: r3) from rfl]
          conv_rhs => rw [← List.takeWhile_append_dropWhile (fun x => x != '"') rest, hr2]
      · -- no string literal
        rw [if_neg hq] at hcanon
        dsimp only at hcanon
        have hscl := scanRef_rest_length (c :: rest)
        simp only [List.length_cons] at hscl
        by_cases hfull : (scanRef (c :: rest)).colRaw ≠ [] ∧
            (scanRef (c :: rest)).rowStr ≠ []
        · rw [if_pos hfull] at hcanon
          cases hpu : parseUsizeDigits (scanRef (c :: rest)).rowStr with
          | none =>
            rw [hpu] at hcanon
            dsimp only at hcanon
            exact Bool.noConfusion hcanon
          | some rowOne =>
            rw [hpu] at hcanon
            dsimp only at hcanon
            simp only [Bool.and_eq_true, decide_eq_true_eq] at hcanon
            obtain ⟨⟨⟨⟨⟨h0, hcolCan⟩, hrowCan⟩, hbc⟩, hbr⟩, hrestCan⟩ := hcanon
            obtain ⟨col1, row1, happ, hc1, hr1, hdel⟩ :=
              hg (scannedColVal (scanRef (c :: rest)).colRaw) (rowOne - 1)
                (by omega) (by omega)
            have hcons_ne : (scanRef (c :: rest)).consumed ≠ [] := by
              rw [RefScan.consumed]
              intro hh
              exact hfull.2 (List.append_eq_nil.mp hh).2
            have hconsl : 1 ≤ (scanRef (c :: rest)).consumed.length := by
              cases hcc : (scanRef (c :: rest)).consumed with
              | nil => exact absurd hcc hcons_ne
              | cons x xs => simp
            have hsceta : scanRef (c :: rest) =
                ⟨(scanRef (c :: rest)).colAbs, (scanRef (c :: rest)).colRaw,
                  (scanRef (c :: rest)).rowAbs, (scanRef (c :: rest)).rowStr,
                  (scanRef (c :: rest)).rest⟩ := rfl
            have hins := adjustLoopGo_full_step ins f1' (c :: rest) (by simp)
              (fun x hx => by rw [List.head?_cons] at hx; rw [← Option.some.inj hx]; exact hq)
              _ _ _ _ _ rowOne hsceta hfull.1 hfull.2 hpu h0 col1 row1 happ
            rw [hins] at h2 ⊢
            rw [List.length_append] at h2
            have hrlen : 1 ≤ (renderRef (scanRef (c :: rest)).colAbs col1
                (scanRef (c :: rest)).rowAbs row1).length := by
              cases hrr : renderRef (scanRef (c :: rest)).colAbs col1
                  (scanRef (c :: rest)).rowAbs row1 with
              | nil => exact absurd hrr renderRef_ne_nil
              | cons x xs => simp
            obtain ⟨f2', rfl⟩ : ∃ k, f2 = k + 1 := ⟨f2 - 1, by omega⟩
            have hY1 : ∀ d, (adjustLoopGo ins f1' (scanRef (c :: rest)).rest).head? =
                some d → isDigitChar d = false :=
              adjustLoopGo_head_nondigit ins f1' _ (fun d hd => scanRef_rest_head hd)
            have hmod : (row1 + 1) % usizeW = row1 + 1 := Nat.mod_eq_of_lt (by omega)
            have hscan2 : scanRef (renderRef (scanRef (c :: rest)).colAbs col1
                  (scanRef (c :: rest)).rowAbs row1 ++
                  adjustLoopGo ins f1' (scanRef (c :: rest)).rest)
                = ⟨(scanRef (c :: rest)).colAbs, colToName col1,
                    (scanRef (c :: rest)).rowAbs, natDigits (row1 + 1),
                    adjustLoopGo ins f1' (scanRef (c :: rest)).rest⟩ := by
              rw [renderRef, hmod]
              exact scanRef_generic _ _ _ _ _ (colToName_all_alpha col1)
                (natDigits_all_digit _) hY1
                (fun h _ => absurd h (natDigits_ne_nil _))
                (fun _ h => absurd h (colToName_ne_nil col1))
            have happ2 : applyStructureChange del (scannedColVal (colToName col1))
                (row1 + 1 - 1) =
                (scannedColVal (scanRef (c :: rest)).colRaw, rowOne - 1, false) := by
              rw [scannedColVal_colToName col1 (by omega), Nat.add_sub_cancel]
              exact hdel
            have hdelstep := adjustLoopGo_full_step del f2'
              (renderRef (scanRef (c :: rest)).colAbs col1
                (scanRef (c :: rest)).rowAbs row1 ++
                adjustLoopGo ins f1' (scanRef (c :: rest)).rest)
              (by intro hh; exact renderRef_ne_nil (List.append_eq_nil.mp hh).1)
              (fun x hx => by
                rcases head?_append_cases hx with hx1 | ⟨hx1, -⟩
                · exact renderRef_head_ne_quote _ _ _ _ hx1
                · exact absurd hx1 renderRef_ne_nil)
              _ _ _ _ _ (row1 + 1) hscan2 (colToName_ne_nil col1) (natDigits_ne_nil _)
              (parseUsizeDigits_natDigits _ (by omega)) (by omega) _ _ happ2
            rw [hdelstep]
            rw [ih (scanRef (c :: rest)).rest f1' f2' (by omega) (by omega) (by omega)
              (by rw [← canonRefsGo_fuel rest.length (scanRef (c :: rest)).rest
                    rest.length (scanRef (c :: rest)).rest.length
                    (by omega) (by omega) (le_refl _)]
                  exact hrestCan)]
            conv_lhs => rw [renderRef]
            rw [show rowOne - 1 + 1 = rowOne from by omega,
              Nat.mod_eq_of_lt (show rowOne < usizeW by omega), ← hrowCan, ← hcolCan]
            have hca := scanRef_consumed_append (c :: rest)
            rw [RefScan.consumed] at hca
            exact hca
        · rw [if_neg hfull] at hcanon
          by_cases hce : (scanRef (c :: rest)).consumed = []
          · rw [if_pos hce] at hcanon
            obtain ⟨hxal, hxdg, hxds⟩ := scanRef_consumed_empty_xclass hce
            have hins := adjustLoopGo_copy_step ins f1' c rest hq hfull hce
            rw [hins] at h2 ⊢
            simp only [List.length_cons] at h2
            obtain ⟨f2', rfl⟩ : ∃ k, f2 = k + 1 := ⟨f2 - 1, by omega⟩
            have hscx : scanRef (c :: adjustLoopGo ins f1' rest) =
                ⟨false, [], false, [], c :: adjustLoopGo ins f1' rest⟩ :=
              scanRef_xclass c _ hxal hxdg hxds
            have hdelstep := adjustLoopGo_copy_step del f2' c
              (adjustLoopGo ins f1' rest) hq
              (by rw [hscx]; simp)
              (by rw [RefScan.consumed, hscx]; rfl)
            rw [hdelstep]
            rw [ih rest f1' f2' (by omega) (by omega) (by omega) hcanon]
          · rw [if_neg hce] at hcanon
            have hconsl : 1 ≤ (scanRef (c :: rest)).consumed.length := by
              cases hcc : (scanRef (c :: rest)).consumed with
              | nil => exact absurd hcc hce
              | cons x xs => simp
            have hins := adjustLoopGo_verbatim_step ins f1' (c :: rest) (by simp)
              (fun x hx => by rw [List.head?_cons] at hx; rw [← Option.some.inj hx]; exact hq)
              hfull hce
            rw [hins] at h2 ⊢
            rw [List.length_append] at h2
            obtain ⟨f2', rfl⟩ : ∃ k, f2 = k + 1 := ⟨f2 - 1, by omega⟩
            have hY1 : ∀ d, (adjustLoopGo ins f1' (scanRef (c :: rest)).rest).head? =
                some d → isDigitChar d = false :=
              adjustLoopGo_head_nondigit ins f1' _ (fun d hd => scanRef_rest_head hd)
            have hY2 : (scanRef (c :: rest)).rowStr = [] →
                (scanRef (c :: rest)).rowAbs = false →
                ∀ d, (adjustLoopGo ins f1' (scanRef (c :: rest)).rest).head? = some d →
                  isAlphaChar d = false ∧ d ≠ '$' := by
              intro hrS hrA d hd
              cases hrstc : (scanRef (c :: rest)).rest with
              | nil => rw [hrstc, adjustLoopGo_nil] at hd; simp at hd
              | cons x t =>
                have hrstl : (scanRef (c :: rest)).rest.length = t.length + 1 := by
                  rw [hrstc]; rfl
                obtain ⟨hx1, hx2, hx3⟩ := scanRef_norow_rest_xclass hrA hrS x
                  (by rw [hrstc]; rfl)
                obtain ⟨t', ht'⟩ := adjustLoopGo_head_xclass ins f1' x t
                  (by omega) hx1 hx2 hx3
                rw [hrstc, ht', List.head?_cons] at hd
                rw [← Option.some.inj hd]
                exact ⟨hx1, hx3⟩
            have hcomb : (scanRef (c :: rest)).colAbs = false →
                (scanRef (c :: rest)).colRaw = [] →
                (scanRef (c :: rest)).rowAbs = false := scanRef_comb
            have hcRa : ∀ x ∈ (scanRef (c :: rest)).colRaw, isAlphaChar x = true :=
              fun x hx => List.mem_takeWhile_imp hx
            have hrSd : ∀ x ∈ (scanRef (c :: rest)).rowStr, isDigitChar x = true :=
              fun x hx => List.mem_takeWhile_imp hx
            have hscan2 : scanRef ((scanRef (c :: rest)).consumed ++
                  adjustLoopGo ins f1' (scanRef (c :: rest)).rest)
                = ⟨(scanRef (c :: rest)).colAbs, (scanRef (c :: rest)).colRaw,
                    (scanRef (c :: rest)).rowAbs, (scanRef (c :: rest)).rowStr,
                    adjustLoopGo ins f1' (scanRef (c :: rest)).rest⟩ := by
              rw [RefScan.consumed]
              exact scanRef_generic _ _ _ _ _ hcRa hrSd hY1 hY2 hcomb
            have hdelstep := adjustLoopGo_verbatim_step del f2'
              ((scanRef (c :: rest)).consumed ++
                adjustLoopGo ins f1' (scanRef (c :: rest)).rest)
              (by intro hh; exact hce (List.append_eq_nil.mp hh).1)
              (fun x hx => by
                rcases head?_append_cases hx with hx1 | ⟨hx1, -⟩
                · exact consumed_head_ne_quote hx1
                · exact absurd hx1 hce)
              (by rw [hscan2]; exact hfull)
              (by rw [hscan2]; exact hce)
            rw [hdelstep, hscan2]
            show (scanRef (c :: rest)).consumed ++
              adjustLoopGo del f2' (adjustLoopGo ins f1' (scanRef (c :: rest)).rest) =
              c :: rest
            rw [ih (scanRef (c :: rest)).rest f1' f2' (by omega) (by omega) (by omega)
              (by rw [← canonRefsGo_fuel rest.length (scanRef (c :: rest)).rest
                    rest.length (scanRef (c :: rest)).rest.length
                    (by omega) (by omega) (le_refl _)]
                  exact hcanon)]
            exact scanRef_consumed_append (c :: rest)


/-- C5 (as stated, refuted): rewriting a formula for a row insert at R and
then for the symmetric row delete at R does not always restore the original
text: the rewriter re-renders references, so `=a1` comes back as `=A1`. -/
theorem C5_insert_delete_roundtrip_cex :
    adjustFormulaForRowDelete (adjustFormulaForRowInsert "=a1".toList 0) 0 =
      "=A1".toList ∧
    adjustFormulaForRowDelete (adjustFormulaForRowInsert "=a1".toList 0) 0 ≠
      "=a1".toList := by
  refine ⟨rfl, ?_⟩
  decide

/-- C5 (amended): for every formula string whose references are already
canonically rendered (upper-case letters naming their column, row digits
without leading zeros, with headroom below the `usize` width), rewriting for
a row insert at R and then for the row delete at R restores the formula
exactly, and likewise for a column insert/delete at C. -/
theorem C5_insert_delete_roundtrip (s : List Char) (R C : Nat)
    (hcanon : canonRefs s = true) :
    adjustFormulaForRowDelete (adjustFormulaForRowInsert s R) R = s ∧
    adjustFormulaForColDelete (adjustFormulaForColInsert s C) C = s := by
  constructor
  · exact adjustLoopGo_roundtrip _ _ (insDelPair_row R) s.length s s.length _
      (le_refl _) (le_refl _) (le_refl _) hcanon
  · exact adjustLoopGo_roundtrip _ _ (insDelPair_col C) s.length s s.length _
      (le_refl _) (le_refl _) (le_refl _) hcanon

theorem C5_insert_delete_roundtrip_witness :
    canonRefs "=A1+B2".toList = true ∧
    adjustFormulaForRowDelete (adjustFormulaForRowInsert "=A1+B2".toList 3) 3 =
      "=A1+B2".toList ∧
    adjustFormulaForColDelete (adjustFormulaForColInsert "=A1+B2".toList 1) 1 =
      "=A1+B2".toList :=
  ⟨by decide,
    (C5_insert_delete_roundtrip "=A1+B2".toList 3 1 (by decide)).1,
    (C5_insert_delete_roundtrip "=A1+B2".toList 3 1 (by decide)).2⟩

end Vicalc
